import Mathlib

/-!
# ManilaDriver controller: a shallow embedding

The Go package `maniladriver` (files `maniladriver_controller.go` and
`manila_controllerplugin_rbac.go`) is embedded as Lean functions that pass the
state of the outside world explicitly.

* The object store and the OpenStack cloud are one abstract state `σ`; every
  request to them is a field of `ReconcileManilaDriver σ` applied to that state.
* A `World σ` pairs the state with a `trace`: the list of package functions
  entered and of store and cloud requests issued, in order.  The trace is how
  statements such as "no update is issued" or "no handler is invoked" are
  expressed.
* A Go `error` is `Option Error` (`none` is `nil`); a Go `(T, error)` that is
  used as an alternative is `Except Error T`.
-/

set_option autoImplicit false
set_option linter.dupNamespace false

namespace Maniladriver

/-! ## Errors -/

/-- Go error values, by the dynamic type the package tells apart. -/
inductive Error where
  /-- An API status error of apimachinery, with its reason. -/
  | status (reason : String) (message : String)
  /-- The value type gophercloud.ErrDefault404. -/
  | errDefault404 (message : String)
  /-- An error built in the package with fmt.Errorf. -/
  | errorf (message : String)
  /-- Any other error value. -/
  | other (message : String)
  deriving DecidableEq, Repr

/-- The check errors.IsNotFound of apimachinery: the reason of a status error is NotFound. -/
def errors.IsNotFound : Error → Bool
  | .status reason _ => reason == "NotFound"
  | _ => false

/-- The type assertion `err.(gophercloud.ErrDefault404)`, second result. -/
def isErrDefault404 : Error → Bool
  | .errDefault404 _ => true
  | _ => false

/-! ## Objects of the store -/

/-- The Go types of the objects the two files read and write. -/
inductive Kind where
  | ManilaDriver
  | Secret
  | ServiceAccount
  | ClusterRole
  | ClusterRoleBinding
  | Role
  | RoleBinding
  deriving DecidableEq, Repr

/-- The identity types.NamespacedName. -/
structure NamespacedName where
  Namespace : String := ""
  Name : String := ""
  deriving DecidableEq, Repr

/-- The part of metav1.ObjectMeta the package uses. -/
structure ObjectMeta where
  Name : String := ""
  Namespace : String := ""
  Labels : List (String × String) := []
  Annotations : List (String × String) := []
  DeletionTimestamp : Option Nat := none
  Finalizers : List String := []
  deriving DecidableEq, Repr

/-- The rule type rbacv1.PolicyRule. -/
structure PolicyRule where
  APIGroups : List String := []
  Resources : List String := []
  Verbs : List String := []
  deriving DecidableEq, Repr

/-- The subject type rbacv1.Subject. -/
structure Subject where
  Kind : String := ""
  Name : String := ""
  Namespace : String := ""
  deriving DecidableEq, Repr

/-- The reference type rbacv1.RoleRef. -/
structure RoleRef where
  Kind : String := ""
  Name : String := ""
  APIGroup : String := ""
  deriving DecidableEq, Repr

/-- An object of the store: its Go type, its metadata and the payload fields of
the kinds above (a field a kind does not have keeps its zero value). -/
structure Object where
  kind : Kind
  ObjectMeta : ObjectMeta := {}
  Rules : List PolicyRule := []
  Subjects : List Subject := []
  RoleRef : RoleRef := {}
  Data : List (String × String) := []
  deriving DecidableEq, Repr

/-- The accessor GetDeletionTimestamp. -/
def Object.GetDeletionTimestamp (o : Object) : Option Nat := o.ObjectMeta.DeletionTimestamp

/-- The accessor GetFinalizers. -/
def Object.GetFinalizers (o : Object) : List String := o.ObjectMeta.Finalizers

/-- The setter SetFinalizers. -/
def Object.SetFinalizers (o : Object) (f : List String) : Object :=
  { o with ObjectMeta := { o.ObjectMeta with Finalizers := f } }

/-! ## Constants of maniladriver_controller.go -/

def lastAppliedAnnotationName : String := "manila.csi.openshift.io/last-applied"

def manilaDriverFinalizer : String := "finalizer.manila.csi.openshift.io"

def manilaDriverCRName : String := "cluster"

/-! ## JSON text and its structural comparison

The comparison of two serialized configurations is done by the library
jsondiff, which is not among the source files.  This section models it from the
words of the spec (4.1, step 4): a text is a list of lexical tokens, whitespace
among them; it is decoded to a value, and values are compared structurally. -/

/-- A lexical token of JSON text; `ws` is a run of insignificant whitespace. -/
inductive Token where
  | ws
  | lbrace
  | rbrace
  | lbrack
  | rbrack
  | colon
  | comma
  | str (s : String)
  | num (n : String)
  | litTrue
  | litFalse
  | litNull
  deriving DecidableEq, Repr

/-- A byte slice holding a serialized configuration, at the granularity of tokens. -/
abbrev Bytes := List Token

/-- A decoded JSON value; an object keeps its fields in the order of the text. -/
inductive JSON where
  | null
  | bool (b : Bool)
  | num (n : String)
  | str (s : String)
  | arr (elems : List JSON)
  | obj (fields : List (String × JSON))

/-- The keys of a field list. -/
def JSON.keys (fields : List (String × JSON)) : List String := fields.map Prod.fst

/-- The value stored under `k` in a field list. -/
def lookupField (k : String) : List (String × JSON) → Option JSON
  | [] => none
  | (k', v) :: rest => if k' = k then some v else lookupField k rest

/-- A field put in front of the fields read after it; as in a Go map, a key
that occurs again later in the text keeps the later value. -/
def insertField (k : String) (v : JSON) (fs : List (String × JSON)) : List (String × JSON) :=
  if k ∈ JSON.keys fs then fs else (k, v) :: fs

/-- Whitespace tokens removed. -/
def stripWs (ts : Bytes) : Bytes := ts.filter (fun t => t != Token.ws)

mutual
/-- Reads one JSON value from the front of a whitespace-free token list. -/
def parseValue : Nat → List Token → Option (JSON × List Token)
  | 0, _ => none
  | _ + 1, Token.litNull :: ts => some (JSON.null, ts)
  | _ + 1, Token.litTrue :: ts => some (JSON.bool true, ts)
  | _ + 1, Token.litFalse :: ts => some (JSON.bool false, ts)
  | _ + 1, Token.num n :: ts => some (JSON.num n, ts)
  | _ + 1, Token.str s :: ts => some (JSON.str s, ts)
  | _ + 1, Token.lbrack :: Token.rbrack :: ts => some (JSON.arr [], ts)
  | fuel + 1, Token.lbrack :: ts =>
    match parseElems fuel ts with
    | some (vs, ts) => some (JSON.arr vs, ts)
    | none => none
  | _ + 1, Token.lbrace :: Token.rbrace :: ts => some (JSON.obj [], ts)
  | fuel + 1, Token.lbrace :: ts =>
    match parseFields fuel ts with
    | some (fs, ts) => some (JSON.obj fs, ts)
    | none => none
  | _ + 1, _ => none
/-- Reads the elements of an array up to and including the closing bracket. -/
def parseElems : Nat → List Token → Option (List JSON × List Token)
  | 0, _ => none
  | fuel + 1, ts =>
    match parseValue fuel ts with
    | some (v, Token.comma :: ts) =>
      match parseElems fuel ts with
      | some (vs, ts) => some (v :: vs, ts)
      | none => none
    | some (v, Token.rbrack :: ts) => some ([v], ts)
    | _ => none
/-- Reads the fields of an object up to and including the closing brace. -/
def parseFields : Nat → List Token → Option (List (String × JSON) × List Token)
  | 0, _ => none
  | fuel + 1, Token.str k :: Token.colon :: ts =>
    match parseValue fuel ts with
    | some (v, Token.comma :: ts) =>
      match parseFields fuel ts with
      | some (fs, ts) => some (insertField k v fs, ts)
      | none => none
    | some (v, Token.rbrace :: ts) => some ([(k, v)], ts)
    | _ => none
  | _ + 1, _ => none
end

/-- Modelled from the spec: the decoding step of jsondiff.Compare, which is not
among the source files.  The comparison is "whitespace-insensitive" (4.1):
whitespace tokens are dropped, then the first JSON value of the text is read;
`none` when the text is not JSON. -/
def decode (a : Bytes) : Option JSON :=
  match parseValue ((stripWs a).length + 1) (stripWs a) with
  | some (v, _) => some v
  | none => none

/-- The verdicts of the comparison. -/
inductive Difference where
  | FullMatch
  | SupersetMatch
  | NoMatch
  | FirstArgIsInvalidJson
  | SecondArgIsInvalidJson
  | BothArgsAreInvalidJson
  deriving DecidableEq, Repr

/-- The verdict of a compound value from the verdict so far and that of one more part. -/
def Difference.result : Difference → Difference → Difference
  | Difference.FullMatch, Difference.FullMatch => Difference.FullMatch
  | Difference.FullMatch, Difference.SupersetMatch => Difference.SupersetMatch
  | Difference.SupersetMatch, Difference.FullMatch => Difference.SupersetMatch
  | Difference.SupersetMatch, Difference.SupersetMatch => Difference.SupersetMatch
  | _, _ => Difference.NoMatch

mutual
/-- Modelled from the spec: the comparison of decoded values inside
jsondiff.Compare, which is not among the source files.  It is "structural
(order-insensitive)" (4.1): scalars are compared by value, arrays position by
position, objects field by field by key. -/
def printDiff : JSON → JSON → Difference
  | JSON.null, JSON.null => Difference.FullMatch
  | JSON.bool a, JSON.bool b => if a = b then Difference.FullMatch else Difference.NoMatch
  | JSON.num a, JSON.num b => if a = b then Difference.FullMatch else Difference.NoMatch
  | JSON.str a, JSON.str b => if a = b then Difference.FullMatch else Difference.NoMatch
  | JSON.arr sa, JSON.arr sb => printDiffSlice sa sb
  | JSON.obj ma, JSON.obj mb =>
    (printDiffMap ma mb).result
      (if (JSON.keys mb).all (fun k => (JSON.keys ma).contains k) then Difference.FullMatch
       else Difference.NoMatch)
  | _, _ => Difference.NoMatch
/-- Arrays are compared position by position. -/
def printDiffSlice : List JSON → List JSON → Difference
  | [], [] => Difference.FullMatch
  | _ :: _, [] => Difference.SupersetMatch
  | [], _ :: _ => Difference.NoMatch
  | a :: sa, b :: sb => (printDiff a b).result (printDiffSlice sa sb)
/-- Each field of the first object is compared with the field of the same key
of the second, wherever it stands there. -/
def printDiffMap : List (String × JSON) → List (String × JSON) → Difference
  | [], _ => Difference.FullMatch
  | (k, va) :: ma, mb =>
    match lookupField k mb with
    | some vb => (printDiff va vb).result (printDiffMap ma mb)
    | none => Difference.SupersetMatch.result (printDiffMap ma mb)
end

mutual
/-- No object of the value, at any depth, has two fields with the same key. -/
def JSON.wf : JSON → Bool
  | JSON.arr elems => wfElems elems
  | JSON.obj fields => decide (JSON.keys fields).Nodup && wfFields fields
  | _ => true
/-- Every element is well formed. -/
def wfElems : List JSON → Bool
  | [] => true
  | v :: rest => v.wf && wfElems rest
/-- Every field value is well formed. -/
def wfFields : List (String × JSON) → Bool
  | [] => true
  | (_, v) :: rest => v.wf && wfFields rest
end

mutual
/-- The second value is the first with the fields of its objects, at any depth,
put in another order: scalars are equal, arrays agree element by element,
and each field of an object of the first stands somewhere in the matching
object of the second, which has no other fields. -/
def Reordered : JSON → JSON → Prop
  | JSON.null, b => b = JSON.null
  | JSON.bool x, b => b = JSON.bool x
  | JSON.num n, b => b = JSON.num n
  | JSON.str s, b => b = JSON.str s
  | JSON.arr xs, b => ∃ ys, b = JSON.arr ys ∧ ReorderedElems xs ys
  | JSON.obj fa, b => ∃ fb, b = JSON.obj fb ∧ ReorderedFields fa fb
/-- Lists of the same length whose elements are reordered values, position by position. -/
def ReorderedElems : List JSON → List JSON → Prop
  | [], ys => ys = []
  | x :: xs, ys => ∃ y ys', ys = y :: ys' ∧ Reordered x y ∧ ReorderedElems xs ys'
/-- The second field list holds the fields of the first, in any order. -/
def ReorderedFields : List (String × JSON) → List (String × JSON) → Prop
  | [], fb => fb = []
  | (k, v) :: rest, fb =>
    ∃ pre v' post, fb = pre ++ (k, v') :: post ∧ Reordered v v'
      ∧ ReorderedFields rest (pre ++ post)
end

/-- The value is null, a boolean, a number or a string. -/
def JSON.isScalar : JSON → Bool
  | JSON.arr _ => false
  | JSON.obj _ => false
  | _ => true

/-- The second value is the first with the value of one field changed: at one
place, reached through fields of objects and elements of arrays, the two values
differ.  They differ when a scalar stands on one side and a different value on
the other, when an array stands against an object, when two arrays have
different lengths (an element was added or removed), or when two objects do not
have the same keys (a field was added or removed). -/
inductive Changed : JSON → JSON → Prop where
  | leaf (a b : JSON) : a.isScalar = true ∨ b.isScalar = true → a ≠ b → Changed a b
  | field (pre : List (String × JSON)) (k : String) (v v' : JSON)
      (post : List (String × JSON)) :
      k ∉ JSON.keys pre → Changed v v' →
      Changed (JSON.obj (pre ++ (k, v) :: post)) (JSON.obj (pre ++ (k, v') :: post))
  | elem (pre : List JSON) (v v' : JSON) (post : List JSON) :
      Changed v v' → Changed (JSON.arr (pre ++ v :: post)) (JSON.arr (pre ++ v' :: post))
  | length (xs ys : List JSON) :
      xs.length ≠ ys.length → Changed (JSON.arr xs) (JSON.arr ys)
  | keys (fa fb : List (String × JSON)) (k : String) :
      (k ∈ JSON.keys fa ∧ k ∉ JSON.keys fb) ∨ (k ∈ JSON.keys fb ∧ k ∉ JSON.keys fa) →
      Changed (JSON.obj fa) (JSON.obj fb)
  | arrObj (xs : List JSON) (fb : List (String × JSON)) :
      Changed (JSON.arr xs) (JSON.obj fb)
  | objArr (fa : List (String × JSON)) (ys : List JSON) :
      Changed (JSON.obj fa) (JSON.arr ys)

/-- Modelled from the spec: the function Compare of the library jsondiff, which
is called by compareLastAppliedAnnotations and is not among the source files.
The spec (4.1, step 4) requires "a structural (order-insensitive,
whitespace-insensitive) comparison of the canonical serialization, not a
literal string comparison": both texts are decoded, whitespace tokens being
skipped, and the values are compared field by field by key. -/
def jsondiff.Compare (a b : Bytes) : Difference :=
  match decode a, decode b with
  | none, none => Difference.BothArgsAreInvalidJson
  | none, some _ => Difference.FirstArgIsInvalidJson
  | some _, none => Difference.SecondArgIsInvalidJson
  | some av, some bv => printDiff av bv

/-! ## The outside world -/

/-- Functions of package maniladriver whose calls the trace records. -/
inductive Fn where
  | Reconcile
  | handleManilariverDeployment
  | getManilaShareTypes
  | getCloudFromSecret
  | finalizeManilaDriver
  | addFinalizer
  | handleManilaControllerPluginRBAC
  | handleManilaControllerPluginServiceAccount
  | handleManilaControllerPluginClusterRole
  | handleManilaControllerPluginClusterRoleBinding
  | handleManilaControllerPluginRole
  | handleManilaControllerPluginRoleBinding
  | deleteManilaControllerPluginClusterRole
  | deleteManilaControllerPluginClusterRoleBinding
  | handleManilaDriverNamespace
  | handleCACertConfigMap
  | handleCredentialsRequest
  | createDriverCredentialsSecret
  | handleManilaStorageClasses
  | handleSecurityContextConstraints
  | handleNFSNodePluginRBAC
  | handleNFSNodePluginDaemonSet
  | handleManilaCSIDriver
  | handleManilaControllerPluginDeployment
  | handleManilaNodePluginRBAC
  | handleManilaNodePluginDaemonSet
  | getCloudProviderCert
  | deleteManilaDriverNamespace
  | deleteManilaStorageClasses
  | deleteCredentialsRequest
  | deleteSecurityContextConstraints
  | deleteCSIDriver
  | deleteManilaNodePluginClusterRole
  | deleteNFSNodePluginClusterRole
  | deleteManilaNodePluginClusterRoleBinding
  | deleteNFSNodePluginClusterRoleBinding
  deriving DecidableEq, Repr

/-- Requests sent to the OpenStack cloud. -/
inductive CloudRequest where
  | Authenticate
  | ListShareTypes
  deriving DecidableEq, Repr

/-- One entry of the trace. -/
inductive Call where
  /-- A function of the package is entered. -/
  | enter (f : Fn)
  /-- The request apiReader.List for a kind. -/
  | list (k : Kind)
  /-- The request apiReader.Get for a kind and an identity. -/
  | get (k : Kind) (key : NamespacedName)
  /-- The request client.Create. -/
  | create (o : Object)
  /-- The request client.Update. -/
  | update (o : Object)
  /-- The request client.Delete. -/
  | delete (o : Object)
  /-- A request to the cloud. -/
  | cloud (q : CloudRequest)
  deriving DecidableEq, Repr

/-- A store write: create, update or delete. -/
def Call.isWrite : Call → Bool
  | Call.create _ => true
  | Call.update _ => true
  | Call.delete _ => true
  | _ => false

/-- The state of the store and the cloud, with the trace of what was asked of them. -/
structure World (σ : Type) where
  store : σ
  trace : List Call

/-- The write methods of client.Client, as functions of the store state. -/
structure Client (σ : Type) where
  Create : Object → σ → Option Error × σ
  Update : Object → σ → Option Error × σ
  Delete : Object → σ → Option Error × σ

/-- The interface client.Reader: reads do not change the store. -/
structure Reader (σ : Type) where
  Get : Kind → NamespacedName → σ → Except Error Object
  List : Kind → σ → Except Error (List Object)

/-- The package variable `annotator` (library k8s-objectmatcher): it stores the
serialized configuration of an object in the annotation named by
lastAppliedAnnotationName and reads it back. -/
structure Annotator where
  SetLastAppliedAnnotation : Object → Except Error Object
  GetOriginalConfiguration : Object → Except Error Bytes

/-- The type clientconfig.AuthInfo, whose content the package only passes on. -/
structure AuthInfo where
  AuthURL : String := ""
  deriving DecidableEq, Repr

/-- The type clientconfig.Cloud. -/
structure Cloud where
  Cloud : String := ""
  AuthInfo : Option AuthInfo := none
  AuthType : String := ""
  RegionName : String := ""
  deriving DecidableEq, Repr

/-- The type clientconfig.Clouds: a map from cloud names to clouds. -/
structure Clouds where
  Clouds : List (String × Cloud) := []
  deriving DecidableEq, Repr

/-- The type clientconfig.ClientOpts. -/
structure ClientOpts where
  Cloud : String := ""
  AuthType : String := ""
  AuthInfo : Option AuthInfo := none
  RegionName : String := ""
  deriving DecidableEq, Repr

/-- The type gophercloud.AuthOptions. -/
structure AuthOptions where
  IdentityEndpoint : String := ""
  deriving DecidableEq, Repr

/-- The type gophercloud.ProviderClient; HTTPClient holds the PEM certificates
added to the root pool of its transport, if it was replaced. -/
structure ProviderClient where
  IdentityBase : String := ""
  HTTPClient : Option (List String) := none
  deriving DecidableEq, Repr

/-- The type gophercloud.EndpointOpts. -/
structure EndpointOpts where
  Region : String := ""
  deriving DecidableEq, Repr

/-- The type gophercloud.ServiceClient. -/
structure ServiceClient where
  Endpoint : String := ""
  deriving DecidableEq, Repr

/-- The type sharetypes.ShareType. -/
structure ShareType where
  ID : String := ""
  Name : String := ""
  deriving DecidableEq, Repr

/-- The libraries behind the inventory lookup (yaml, clientconfig, openstack,
sharetypes, x509); a page set is the list of raw entries it holds. -/
structure OpenStack (σ : Type) where
  yamlUnmarshal : String → Except String Clouds
  AuthOptions : ClientOpts → Except Error AuthOptions
  NewClient : String → Except Error ProviderClient
  SystemCertPool : Except String (List String)
  Authenticate : ProviderClient → Maniladriver.AuthOptions → σ → Option Error × σ
  NewSharedFileSystemV2 : ProviderClient → EndpointOpts → Except Error ServiceClient
  ListAllPages : ServiceClient → σ → Except Error (List String) × σ
  ExtractShareTypes : List String → Except Error (List ShareType)

/-- The constants and methods of package maniladriver that are declared in its
other files.  A method may read and write the store. -/
structure Package (σ : Type) where
  installerSecretName : String
  secretNamespace : String
  cloudsSecretKey : String
  cloudName : String
  handleManilaDriverNamespace : Object → σ → Option Error × σ
  handleCACertConfigMap : Object → σ → Option Error × σ
  handleCredentialsRequest : Object → σ → Option Error × σ
  createDriverCredentialsSecret : Object → Cloud → σ → Option Error × σ
  handleManilaStorageClasses : Object → List ShareType → σ → Option Error × σ
  handleSecurityContextConstraints : Object → σ → Option Error × σ
  handleNFSNodePluginRBAC : Object → σ → Option Error × σ
  handleNFSNodePluginDaemonSet : Object → σ → Option Error × σ
  handleManilaCSIDriver : Object → σ → Option Error × σ
  handleManilaControllerPluginDeployment : Object → σ → Option Error × σ
  handleManilaNodePluginRBAC : Object → σ → Option Error × σ
  handleManilaNodePluginDaemonSet : Object → σ → Option Error × σ
  getCloudProviderCert : σ → (String × Option Error) × σ
  deleteManilaDriverNamespace : σ → Option Error × σ
  deleteManilaStorageClasses : σ → Option Error × σ
  deleteCredentialsRequest : σ → Option Error × σ
  deleteSecurityContextConstraints : σ → Option Error × σ
  deleteCSIDriver : σ → Option Error × σ
  deleteManilaNodePluginClusterRole : σ → Option Error × σ
  deleteNFSNodePluginClusterRole : σ → Option Error × σ
  deleteManilaNodePluginClusterRoleBinding : σ → Option Error × σ
  deleteNFSNodePluginClusterRoleBinding : σ → Option Error × σ

/-- The type ReconcileManilaDriver with what its methods reach besides its
fields: the package variable annotator, the rest of the package and the
libraries. -/
structure ReconcileManilaDriver (σ : Type) where
  client : Client σ
  apiReader : Reader σ
  annotator : Annotator
  pkg : Package σ
  openstack : OpenStack σ

section Requests

variable {σ : Type}

/-- A package function is entered. -/
def World.enter (w : World σ) (f : Fn) : World σ :=
  { store := w.store, trace := w.trace ++ [Call.enter f] }

/-- A call of a package method declared in another file. -/
def World.call {α : Type} (w : World σ) (f : Fn) (body : σ → α × σ) : α × World σ :=
  ((body w.store).1, { store := (body w.store).2, trace := w.trace ++ [Call.enter f] })

/-- The request apiReader.Get. -/
def apiReaderGet (r : ReconcileManilaDriver σ) (k : Kind) (key : NamespacedName)
    (w : World σ) : Except Error Object × World σ :=
  (r.apiReader.Get k key w.store, { store := w.store, trace := w.trace ++ [Call.get k key] })

/-- The request apiReader.List. -/
def apiReaderList (r : ReconcileManilaDriver σ) (k : Kind)
    (w : World σ) : Except Error (List Object) × World σ :=
  (r.apiReader.List k w.store, { store := w.store, trace := w.trace ++ [Call.list k] })

/-- The request client.Create. -/
def clientCreate (r : ReconcileManilaDriver σ) (o : Object) (w : World σ) :
    Option Error × World σ :=
  ((r.client.Create o w.store).1,
   { store := (r.client.Create o w.store).2, trace := w.trace ++ [Call.create o] })

/-- The request client.Update. -/
def clientUpdate (r : ReconcileManilaDriver σ) (o : Object) (w : World σ) :
    Option Error × World σ :=
  ((r.client.Update o w.store).1,
   { store := (r.client.Update o w.store).2, trace := w.trace ++ [Call.update o] })

/-- The request client.Delete. -/
def clientDelete (r : ReconcileManilaDriver σ) (o : Object) (w : World σ) :
    Option Error × World σ :=
  ((r.client.Delete o w.store).1,
   { store := (r.client.Delete o w.store).2, trace := w.trace ++ [Call.delete o] })

end Requests

/-! ## maniladriver_controller.go: compareLastAppliedAnnotations -/

/-- The function compareLastAppliedAnnotations. -/
def compareLastAppliedAnnotations (annotator : Annotator)
    (currentObject modifiedObject : Object) : Bool × Option Error :=
  match annotator.GetOriginalConfiguration currentObject with
  | Except.error err => (false, some err)
  | Except.ok currentAnnotation =>
    match annotator.GetOriginalConfiguration modifiedObject with
    | Except.error err => (false, some err)
    | Except.ok modifiedAnnotation =>
      let diff := jsondiff.Compare currentAnnotation modifiedAnnotation
      (diff == Difference.FullMatch, none)

/-! ## manila_controllerplugin_rbac.go -/

def labelsManilaControllerPlugin : List (String × String) :=
  [("app", "openstack-manila-csi"), ("component", "controllerplugin")]

/-- The function generateManilaControllerPluginClusterRole. -/
def generateManilaControllerPluginClusterRole : Object :=
  { kind := Kind.ClusterRole
    ObjectMeta := { Name := "openstack-manila-csi-controllerplugin"
                    Labels := labelsManilaControllerPlugin }
    Rules := [
      { APIGroups := [""], Resources := ["nodes"], Verbs := ["get", "list", "watch"] },
      { APIGroups := [""], Resources := ["secrets"], Verbs := ["get", "list"] },
      { APIGroups := [""], Resources := ["persistentvolumes"],
        Verbs := ["get", "list", "watch", "create", "delete"] },
      { APIGroups := [""], Resources := ["persistentvolumeclaims"],
        Verbs := ["get", "list", "watch", "update"] },
      { APIGroups := [""], Resources := ["events"],
        Verbs := ["list", "watch", "create", "update", "patch"] },
      { APIGroups := ["storage.k8s.io"], Resources := ["storageclasses"],
        Verbs := ["get", "list", "watch"] },
      { APIGroups := ["storage.k8s.io"], Resources := ["csinodes"],
        Verbs := ["get", "list", "watch"] },
      { APIGroups := ["snapshot.storage.k8s.io"], Resources := ["volumesnapshotclasses"],
        Verbs := ["get", "list", "watch"] },
      { APIGroups := ["snapshot.storage.k8s.io"], Resources := ["volumesnapshotcontents"],
        Verbs := ["create", "get", "list", "watch", "update", "delete"] },
      { APIGroups := ["snapshot.storage.k8s.io"], Resources := ["volumesnapshotcontents/status"],
        Verbs := ["update"] },
      { APIGroups := ["snapshot.storage.k8s.io"], Resources := ["volumesnapshots"],
        Verbs := ["get", "list", "watch", "update"] },
      { APIGroups := ["snapshot.storage.k8s.io"], Resources := ["volumesnapshots/status"],
        Verbs := ["update"] },
      { APIGroups := ["apiextensions.k8s.io"], Resources := ["customresourcedefinitions"],
        Verbs := ["create", "list", "watch", "delete", "get", "update"] } ] }

/-- The function generateManilaControllerPluginClusterRoleBinding. -/
def generateManilaControllerPluginClusterRoleBinding : Object :=
  { kind := Kind.ClusterRoleBinding
    ObjectMeta := { Name := "openstack-manila-csi-controllerplugin"
                    Labels := labelsManilaControllerPlugin }
    Subjects := [ { Kind := "ServiceAccount"
                    Name := "openstack-manila-csi-controllerplugin"
                    Namespace := "openshift-manila-csi-driver" } ]
    RoleRef := { Kind := "ClusterRole"
                 Name := "openstack-manila-csi-controllerplugin"
                 APIGroup := "rbac.authorization.k8s.io" } }

/-- The object literal `sa` of handleManilaControllerPluginServiceAccount. -/
def desiredServiceAccount : Object :=
  { kind := Kind.ServiceAccount
    ObjectMeta := { Name := "openstack-manila-csi-controllerplugin"
                    Namespace := "openshift-manila-csi-driver"
                    Labels := labelsManilaControllerPlugin } }

/-- The object literal `role` of handleManilaControllerPluginRole. -/
def desiredRole : Object :=
  { kind := Kind.Role
    ObjectMeta := { Name := "openstack-manila-csi-controllerplugin"
                    Namespace := "openshift-manila-csi-driver"
                    Labels := labelsManilaControllerPlugin }
    Rules := [
      { APIGroups := [""], Resources := ["endpoints"],
        Verbs := ["get", "watch", "list", "delete", "update", "create"] },
      { APIGroups := [""], Resources := ["configmaps"],
        Verbs := ["get", "list", "watch", "create", "delete"] } ] }

/-- The object literal `rb` of handleManilaControllerPluginRoleBinding. -/
def desiredRoleBinding : Object :=
  { kind := Kind.RoleBinding
    ObjectMeta := { Name := "openstack-manila-csi-controllerplugin"
                    Namespace := "openshift-manila-csi-driver"
                    Labels := labelsManilaControllerPlugin }
    Subjects := [ { Kind := "ServiceAccount"
                    Name := "openstack-manila-csi-controllerplugin"
                    Namespace := "openshift-manila-csi-driver" } ]
    RoleRef := { Kind := "Role"
                 Name := "openstack-manila-csi-controllerplugin"
                 APIGroup := "rbac.authorization.k8s.io" } }

/-- The method handleManilaControllerPluginServiceAccount. -/
def handleManilaControllerPluginServiceAccount {σ : Type} (r : ReconcileManilaDriver σ)
    (_instance : Object) (w : World σ) : Option Error × World σ :=
  let w := w.enter Fn.handleManilaControllerPluginServiceAccount
  match r.annotator.SetLastAppliedAnnotation desiredServiceAccount with
  | Except.error err => (some err, w)
  | Except.ok desired =>
    match apiReaderGet r Kind.ServiceAccount
        { Name := desired.ObjectMeta.Name, Namespace := desired.ObjectMeta.Namespace } w with
    | (Except.error err, w) =>
      if errors.IsNotFound err then
        match clientCreate r desired w with
        | (some err, w) => (some err, w)
        | (none, w) => (none, w)
      else (some err, w)
    | (Except.ok found, w) =>
      match compareLastAppliedAnnotations r.annotator found desired with
      | (_, some err) => (some err, w)
      | (equal, none) =>
        if !equal then
          match clientUpdate r desired w with
          | (some err, w) => (some err, w)
          | (none, w) => (none, w)
        else (none, w)

/-- The method handleManilaControllerPluginClusterRole. -/
def handleManilaControllerPluginClusterRole {σ : Type} (r : ReconcileManilaDriver σ)
    (_instance : Object) (w : World σ) : Option Error × World σ :=
  let w := w.enter Fn.handleManilaControllerPluginClusterRole
  match r.annotator.SetLastAppliedAnnotation generateManilaControllerPluginClusterRole with
  | Except.error err => (some err, w)
  | Except.ok desired =>
    match apiReaderGet r Kind.ClusterRole
        { Name := desired.ObjectMeta.Name, Namespace := "" } w with
    | (Except.error err, w) =>
      if errors.IsNotFound err then
        match clientCreate r desired w with
        | (some err, w) => (some err, w)
        | (none, w) => (none, w)
      else (some err, w)
    | (Except.ok found, w) =>
      match compareLastAppliedAnnotations r.annotator found desired with
      | (_, some err) => (some err, w)
      | (equal, none) =>
        if !equal then
          match clientUpdate r desired w with
          | (some err, w) => (some err, w)
          | (none, w) => (none, w)
        else (none, w)

/-- The method handleManilaControllerPluginClusterRoleBinding. -/
def handleManilaControllerPluginClusterRoleBinding {σ : Type} (r : ReconcileManilaDriver σ)
    (_instance : Object) (w : World σ) : Option Error × World σ :=
  let w := w.enter Fn.handleManilaControllerPluginClusterRoleBinding
  match r.annotator.SetLastAppliedAnnotation generateManilaControllerPluginClusterRoleBinding with
  | Except.error err => (some err, w)
  | Except.ok desired =>
    match apiReaderGet r Kind.ClusterRoleBinding
        { Name := desired.ObjectMeta.Name, Namespace := "" } w with
    | (Except.error err, w) =>
      if errors.IsNotFound err then
        match clientCreate r desired w with
        | (some err, w) => (some err, w)
        | (none, w) => (none, w)
      else (some err, w)
    | (Except.ok found, w) =>
      match compareLastAppliedAnnotations r.annotator found desired with
      | (_, some err) => (some err, w)
      | (equal, none) =>
        if !equal then
          match clientUpdate r desired w with
          | (some err, w) => (some err, w)
          | (none, w) => (none, w)
        else (none, w)

/-- The method handleManilaControllerPluginRole. -/
def handleManilaControllerPluginRole {σ : Type} (r : ReconcileManilaDriver σ)
    (_instance : Object) (w : World σ) : Option Error × World σ :=
  let w := w.enter Fn.handleManilaControllerPluginRole
  match r.annotator.SetLastAppliedAnnotation desiredRole with
  | Except.error err => (some err, w)
  | Except.ok desired =>
    match apiReaderGet r Kind.Role
        { Name := desired.ObjectMeta.Name, Namespace := desired.ObjectMeta.Namespace } w with
    | (Except.error err, w) =>
      if errors.IsNotFound err then
        match clientCreate r desired w with
        | (some err, w) => (some err, w)
        | (none, w) => (none, w)
      else (some err, w)
    | (Except.ok found, w) =>
      match compareLastAppliedAnnotations r.annotator found desired with
      | (_, some err) => (some err, w)
      | (equal, none) =>
        if !equal then
          match clientUpdate r desired w with
          | (some err, w) => (some err, w)
          | (none, w) => (none, w)
        else (none, w)

/-- The method handleManilaControllerPluginRoleBinding. -/
def handleManilaControllerPluginRoleBinding {σ : Type} (r : ReconcileManilaDriver σ)
    (_instance : Object) (w : World σ) : Option Error × World σ :=
  let w := w.enter Fn.handleManilaControllerPluginRoleBinding
  match r.annotator.SetLastAppliedAnnotation desiredRoleBinding with
  | Except.error err => (some err, w)
  | Except.ok desired =>
    match apiReaderGet r Kind.RoleBinding
        { Name := desired.ObjectMeta.Name, Namespace := desired.ObjectMeta.Namespace } w with
    | (Except.error err, w) =>
      if errors.IsNotFound err then
        match clientCreate r desired w with
        | (some err, w) => (some err, w)
        | (none, w) => (none, w)
      else (some err, w)
    | (Except.ok found, w) =>
      match compareLastAppliedAnnotations r.annotator found desired with
      | (_, some err) => (some err, w)
      | (equal, none) =>
        if !equal then
          match clientUpdate r desired w with
          | (some err, w) => (some err, w)
          | (none, w) => (none, w)
        else (none, w)

/-- The method handleManilaControllerPluginRBAC. -/
def handleManilaControllerPluginRBAC {σ : Type} (r : ReconcileManilaDriver σ)
    (inst : Object) (w : World σ) : Option Error × World σ :=
  let w := w.enter Fn.handleManilaControllerPluginRBAC
  match handleManilaControllerPluginServiceAccount r inst w with
  | (some err, w) => (some err, w)
  | (none, w) =>
  match handleManilaControllerPluginClusterRole r inst w with
  | (some err, w) => (some err, w)
  | (none, w) =>
  match handleManilaControllerPluginClusterRoleBinding r inst w with
  | (some err, w) => (some err, w)
  | (none, w) =>
  match handleManilaControllerPluginRole r inst w with
  | (some err, w) => (some err, w)
  | (none, w) =>
  match handleManilaControllerPluginRoleBinding r inst w with
  | (some err, w) => (some err, w)
  | (none, w) => (none, w)

/-- The method deleteManilaControllerPluginClusterRole. -/
def deleteManilaControllerPluginClusterRole {σ : Type} (r : ReconcileManilaDriver σ)
    (w : World σ) : Option Error × World σ :=
  let w := w.enter Fn.deleteManilaControllerPluginClusterRole
  let cr := generateManilaControllerPluginClusterRole
  match clientDelete r cr w with
  | (some err, w) => (some err, w)
  | (none, w) => (none, w)

/-- The method deleteManilaControllerPluginClusterRoleBinding. -/
def deleteManilaControllerPluginClusterRoleBinding {σ : Type} (r : ReconcileManilaDriver σ)
    (w : World σ) : Option Error × World σ :=
  let w := w.enter Fn.deleteManilaControllerPluginClusterRoleBinding
  let crb := generateManilaControllerPluginClusterRoleBinding
  match clientDelete r crb w with
  | (some err, w) => (some err, w)
  | (none, w) => (none, w)

/-! ## maniladriver_controller.go -/

/-- The method Error of a Go error: its message. -/
def Error.Error : Error → String
  | Error.status _ message => message
  | Error.errDefault404 message => message
  | Error.errorf message => message
  | Error.other message => message

/-- The type reconcile.Request. -/
structure Request where
  NamespacedName : NamespacedName := {}
  deriving DecidableEq, Repr

/-- The type reconcile.Result; RequeueAfter is a time.Duration, in nanoseconds. -/
structure Result where
  Requeue : Bool := false
  RequeueAfter : Nat := 0
  deriving DecidableEq, Repr

/-- The function contains. -/
def contains (list : List String) (s : String) : Bool :=
  match list with
  | [] => false
  | v :: rest => if v == s then true else contains rest s

/-- Modelled from the spec: the function AddFinalizer of the library
controller-runtime, not among the source files; the controller "adds its
finalizer token if absent" (4.5). -/
def controllerutil.AddFinalizer (o : Object) (finalizer : String) : Object :=
  if finalizer ∈ o.GetFinalizers then o
  else o.SetFinalizers (o.GetFinalizers ++ [finalizer])

/-- Modelled from the spec: the function RemoveFinalizer of the library
controller-runtime, not among the source files; the controller "removes its
finalizer token" (4.5). -/
def controllerutil.RemoveFinalizer (o : Object) (finalizer : String) : Object :=
  o.SetFinalizers (o.GetFinalizers.filter (fun f => f != finalizer))

/-- The test `err != nil && !errors.IsNotFound(err)`. -/
def notNilNorNotFound : Option Error → Bool
  | some err => !errors.IsNotFound err
  | none => false

section Controller

variable {σ : Type}

/-- The request openstack.Authenticate. -/
def cloudAuthenticate (r : ReconcileManilaDriver σ) (provider : ProviderClient)
    (opts : AuthOptions) (w : World σ) : Option Error × World σ :=
  ((r.openstack.Authenticate provider opts w.store).1,
   { store := (r.openstack.Authenticate provider opts w.store).2
     trace := w.trace ++ [Call.cloud CloudRequest.Authenticate] })

/-- The request `sharetypes.List(client, opts).AllPages()`. -/
def cloudListAllPages (r : ReconcileManilaDriver σ) (client : ServiceClient)
    (w : World σ) : Except Error (List String) × World σ :=
  ((r.openstack.ListAllPages client w.store).1,
   { store := (r.openstack.ListAllPages client w.store).2
     trace := w.trace ++ [Call.cloud CloudRequest.ListShareTypes] })

/-- The method getManilaShareTypes. -/
def getManilaShareTypes (r : ReconcileManilaDriver σ) (cloud : Cloud) (w : World σ) :
    (List ShareType × Option Error) × World σ :=
  let w := w.enter Fn.getManilaShareTypes
  let clientOpts : ClientOpts :=
    if cloud.AuthInfo != none then
      { AuthInfo := cloud.AuthInfo, AuthType := cloud.AuthType, Cloud := cloud.Cloud
        RegionName := cloud.RegionName }
    else {}
  match r.openstack.AuthOptions clientOpts with
  | Except.error err => (([], some err), w)
  | Except.ok opts =>
  match r.openstack.NewClient opts.IdentityEndpoint with
  | Except.error err => (([], some err), w)
  | Except.ok provider =>
  match w.call Fn.getCloudProviderCert r.pkg.getCloudProviderCert with
  | ((cert, err), w) =>
  if notNilNorNotFound err then
    (([], some (Error.errorf ("Failed to get cloud provider CA certificate: "
      ++ (err.map Error.Error).getD ""))), w)
  else
  match (if cert != "" then
          match r.openstack.SystemCertPool with
          | Except.error msg =>
            Except.error (Error.errorf ("Create system cert pool failed: " ++ msg))
          | Except.ok certPool =>
            Except.ok { provider with HTTPClient := some (certPool ++ [cert]) }
        else Except.ok provider) with
  | Except.error err => (([], some err), w)
  | Except.ok provider =>
  match cloudAuthenticate r provider opts w with
  | (some err, w) => (([], some err), w)
  | (none, w) =>
  match r.openstack.NewSharedFileSystemV2 provider { Region := clientOpts.RegionName } with
  | Except.error err => (([], some err), w)
  | Except.ok client =>
  match cloudListAllPages r client w with
  | (Except.error err, w) => (([], some err), w)
  | (Except.ok allPages, w) =>
  match r.openstack.ExtractShareTypes allPages with
  | Except.error err => (([], some err), w)
  | Except.ok shareTypes => ((shareTypes, none), w)

/-- The method getCloudFromSecret. -/
def getCloudFromSecret (r : ReconcileManilaDriver σ) (w : World σ) :
    (Cloud × Option Error) × World σ :=
  let w := w.enter Fn.getCloudFromSecret
  let emptyCloud : Cloud := {}
  match apiReaderGet r Kind.Secret
      { Namespace := r.pkg.secretNamespace, Name := r.pkg.installerSecretName } w with
  | (Except.error err, w) => ((emptyCloud, some err), w)
  | (Except.ok secret, w) =>
  match secret.Data.lookup r.pkg.cloudsSecretKey with
  | none =>
    ((emptyCloud, some (Error.errorf ("OpenStack credentials secret "
      ++ r.pkg.installerSecretName ++ " did not contain key " ++ r.pkg.cloudsSecretKey))), w)
  | some content =>
  match r.openstack.yamlUnmarshal content with
  | Except.error msg =>
    ((emptyCloud, some (Error.errorf ("failed to unmarshal clouds credentials stored in secret "
      ++ r.pkg.installerSecretName ++ ": " ++ msg))), w)
  | Except.ok clouds => (((clouds.Clouds.lookup r.pkg.cloudName).getD {}, none), w)

/-- The method finalizeManilaDriver. -/
def finalizeManilaDriver (r : ReconcileManilaDriver σ) (_instance : Object) (w : World σ) :
    Option Error × World σ :=
  let w := w.enter Fn.finalizeManilaDriver
  match w.call Fn.deleteManilaDriverNamespace r.pkg.deleteManilaDriverNamespace with
  | (err, w) =>
  if notNilNorNotFound err then (err, w) else
  match w.call Fn.deleteManilaStorageClasses r.pkg.deleteManilaStorageClasses with
  | (err, w) =>
  if notNilNorNotFound err then (err, w) else
  match w.call Fn.deleteCredentialsRequest r.pkg.deleteCredentialsRequest with
  | (err, w) =>
  if notNilNorNotFound err then (err, w) else
  match w.call Fn.deleteSecurityContextConstraints r.pkg.deleteSecurityContextConstraints with
  | (err, w) =>
  if notNilNorNotFound err then (err, w) else
  match w.call Fn.deleteCSIDriver r.pkg.deleteCSIDriver with
  | (err, w) =>
  if notNilNorNotFound err then (err, w) else
  match deleteManilaControllerPluginClusterRole r w with
  | (err, w) =>
  if notNilNorNotFound err then (err, w) else
  match w.call Fn.deleteManilaNodePluginClusterRole r.pkg.deleteManilaNodePluginClusterRole with
  | (err, w) =>
  if notNilNorNotFound err then (err, w) else
  match w.call Fn.deleteNFSNodePluginClusterRole r.pkg.deleteNFSNodePluginClusterRole with
  | (err, w) =>
  if notNilNorNotFound err then (err, w) else
  match deleteManilaControllerPluginClusterRoleBinding r w with
  | (err, w) =>
  if notNilNorNotFound err then (err, w) else
  match w.call Fn.deleteManilaNodePluginClusterRoleBinding
      r.pkg.deleteManilaNodePluginClusterRoleBinding with
  | (err, w) =>
  if notNilNorNotFound err then (err, w) else
  match w.call Fn.deleteNFSNodePluginClusterRoleBinding
      r.pkg.deleteNFSNodePluginClusterRoleBinding with
  | (err, w) =>
  if notNilNorNotFound err then (err, w) else
  (none, w)

/-- The method addFinalizer.  The instance is passed by pointer in Go: the
second component is the instance as the caller sees it afterwards. -/
def addFinalizer (r : ReconcileManilaDriver σ) (inst : Object) (w : World σ) :
    (Option Error × Object) × World σ :=
  let w := w.enter Fn.addFinalizer
  let inst := controllerutil.AddFinalizer inst manilaDriverFinalizer
  match clientUpdate r inst w with
  | (some err, w) => ((some err, inst), w)
  | (none, w) => ((none, inst), w)

/-- The method handleManilariverDeployment. -/
def handleManilariverDeployment (r : ReconcileManilaDriver σ) (inst : Object)
    (w : World σ) : (Result × Option Error) × World σ :=
  let w := w.enter Fn.handleManilariverDeployment
  match w.call Fn.handleSecurityContextConstraints
      (r.pkg.handleSecurityContextConstraints inst) with
  | (some err, w) => (({}, some err), w)
  | (none, w) =>
  match w.call Fn.handleNFSNodePluginRBAC (r.pkg.handleNFSNodePluginRBAC inst) with
  | (some err, w) => (({}, some err), w)
  | (none, w) =>
  match w.call Fn.handleNFSNodePluginDaemonSet (r.pkg.handleNFSNodePluginDaemonSet inst) with
  | (some err, w) => (({}, some err), w)
  | (none, w) =>
  match w.call Fn.handleManilaCSIDriver (r.pkg.handleManilaCSIDriver inst) with
  | (some err, w) => (({}, some err), w)
  | (none, w) =>
  match handleManilaControllerPluginRBAC r inst w with
  | (some err, w) => (({}, some err), w)
  | (none, w) =>
  match w.call Fn.handleManilaControllerPluginDeployment
      (r.pkg.handleManilaControllerPluginDeployment inst) with
  | (some err, w) => (({}, some err), w)
  | (none, w) =>
  match w.call Fn.handleManilaNodePluginRBAC (r.pkg.handleManilaNodePluginRBAC inst) with
  | (some err, w) => (({}, some err), w)
  | (none, w) =>
  match w.call Fn.handleManilaNodePluginDaemonSet
      (r.pkg.handleManilaNodePluginDaemonSet inst) with
  | (some err, w) => (({}, some err), w)
  | (none, w) => (({}, none), w)

/-- The method Reconcile. -/
def Reconcile (r : ReconcileManilaDriver σ) (request : Request) (w : World σ) :
    (Result × Option Error) × World σ :=
  let w := w.enter Fn.Reconcile
  match apiReaderList r Kind.ManilaDriver w with
  | (Except.error err, w) => (({}, some err), w)
  | (Except.ok driverList, w) =>
  if driverList.length > 1 then
    (({}, some (Error.errorf "only one instance of ManilaDriver is allowed in the system")), w)
  else
  match apiReaderGet r Kind.ManilaDriver request.NamespacedName w with
  | (Except.error err, w) =>
    if errors.IsNotFound err then (({}, none), w)
    else (({}, some err), w)
  | (Except.ok inst, w) =>
  if inst.ObjectMeta.Name != manilaDriverCRName then
    (({}, some (Error.errorf ("invalid ManilaDriver CR name: " ++ inst.ObjectMeta.Name
      ++ ", it must be called " ++ manilaDriverCRName))), w)
  else
  let isManilaDriverMarkedToBeDeleted := inst.GetDeletionTimestamp != none
  if isManilaDriverMarkedToBeDeleted then
    if contains inst.GetFinalizers manilaDriverFinalizer then
      match finalizeManilaDriver r inst w with
      | (some err, w) => (({}, some err), w)
      | (none, w) =>
      match clientUpdate r (controllerutil.RemoveFinalizer inst manilaDriverFinalizer) w with
      | (some err, w) => (({}, some err), w)
      | (none, w) => (({}, none), w)
    else (({}, none), w)
  else
  match (if !contains inst.GetFinalizers manilaDriverFinalizer then addFinalizer r inst w
         else ((none, inst), w)) with
  | ((some err, _), w) => (({}, some err), w)
  | ((none, inst), w) =>
  match w.call Fn.handleManilaDriverNamespace (r.pkg.handleManilaDriverNamespace inst) with
  | (some err, w) => (({}, some err), w)
  | (none, w) =>
  match w.call Fn.handleCACertConfigMap (r.pkg.handleCACertConfigMap inst) with
  | (some err, w) => (({}, some err), w)
  | (none, w) =>
  match w.call Fn.handleCredentialsRequest (r.pkg.handleCredentialsRequest inst) with
  | (some err, w) => (({}, some err), w)
  | (none, w) =>
  match getCloudFromSecret r w with
  | ((_, some err), w) =>
    if errors.IsNotFound err then (({ RequeueAfter := 10 }, none), w)
    else (({}, some err), w)
  | ((cloud, none), w) =>
  match w.call Fn.createDriverCredentialsSecret
      (r.pkg.createDriverCredentialsSecret inst cloud) with
  | (some err, w) => (({}, some err), w)
  | (none, w) =>
  match getManilaShareTypes r cloud w with
  | ((_, some err), w) =>
    if !isErrDefault404 err then (({}, some err), w)
    else (({}, none), w)
  | ((shareTypes, none), w) =>
  match w.call Fn.handleManilaStorageClasses
      (r.pkg.handleManilaStorageClasses inst shareTypes) with
  | (some err, w) => (({}, some err), w)
  | (none, w) => handleManilariverDeployment r inst w

/-- The rule of the comment above Reconcile: "The Controller will requeue the
Request to be processed again if the returned error is non-nil or
Result.Requeue is true"; a non-zero RequeueAfter also requeues the request,
after that delay. -/
def requeued (out : Result × Option Error) : Bool :=
  out.2 != none || out.1.Requeue || out.1.RequeueAfter != 0

end Controller

/-! ## The five handlers of the controller-plugin RBAC set, as a table -/

/-- One handler of the set with the object it converges: the template it
builds, the kind it fetches, and whether the fetch uses the namespace of the
object or the empty namespace. -/
structure ConvergeHandler (σ : Type) where
  run : ReconcileManilaDriver σ → Object → World σ → Option Error × World σ
  fn : Fn
  kind : Kind
  template : Object
  namespaced : Bool

/-- The identity a handler fetches, given its desired object. -/
def fetchKey (namespaced : Bool) (desired : Object) : NamespacedName :=
  { Name := desired.ObjectMeta.Name
    Namespace := if namespaced then desired.ObjectMeta.Namespace else "" }

/-- The handlers called by handleManilaControllerPluginRBAC, in its order. -/
def controllerPluginRBACHandlers (σ : Type) : List (ConvergeHandler σ) :=
  [ { run := handleManilaControllerPluginServiceAccount
      fn := Fn.handleManilaControllerPluginServiceAccount
      kind := Kind.ServiceAccount, template := desiredServiceAccount, namespaced := true },
    { run := handleManilaControllerPluginClusterRole
      fn := Fn.handleManilaControllerPluginClusterRole
      kind := Kind.ClusterRole, template := generateManilaControllerPluginClusterRole
      namespaced := false },
    { run := handleManilaControllerPluginClusterRoleBinding
      fn := Fn.handleManilaControllerPluginClusterRoleBinding
      kind := Kind.ClusterRoleBinding
      template := generateManilaControllerPluginClusterRoleBinding, namespaced := false },
    { run := handleManilaControllerPluginRole
      fn := Fn.handleManilaControllerPluginRole
      kind := Kind.Role, template := desiredRole, namespaced := true },
    { run := handleManilaControllerPluginRoleBinding
      fn := Fn.handleManilaControllerPluginRoleBinding
      kind := Kind.RoleBinding, template := desiredRoleBinding, namespaced := true } ]

/-- The body the five handlers share, with what differs between them as arguments. -/
def converge {σ : Type} (r : ReconcileManilaDriver σ) (fn : Fn) (kind : Kind)
    (template : Object) (namespaced : Bool) (w : World σ) : Option Error × World σ :=
  let w := w.enter fn
  match r.annotator.SetLastAppliedAnnotation template with
  | Except.error err => (some err, w)
  | Except.ok desired =>
    match apiReaderGet r kind
        (fetchKey namespaced desired) w with
    | (Except.error err, w) =>
      if errors.IsNotFound err then
        match clientCreate r desired w with
        | (some err, w) => (some err, w)
        | (none, w) => (none, w)
      else (some err, w)
    | (Except.ok found, w) =>
      match compareLastAppliedAnnotations r.annotator found desired with
      | (_, some err) => (some err, w)
      | (equal, none) =>
        if !equal then
          match clientUpdate r desired w with
          | (some err, w) => (some err, w)
          | (none, w) => (none, w)
        else (none, w)

/-! ## A store held in memory, for the examples -/

/-- A store state: the objects it holds. -/
structure Cluster where
  objects : List Object
  deriving DecidableEq, Repr

/-- Two objects have the same kind, namespace and name. -/
def sameIdentity (a b : Object) : Bool :=
  a.kind == b.kind && a.ObjectMeta.Namespace == b.ObjectMeta.Namespace
    && a.ObjectMeta.Name == b.ObjectMeta.Name

/-- The object of a kind at an identity. -/
def Cluster.find (s : Cluster) (k : Kind) (key : NamespacedName) : Option Object :=
  s.objects.find? (fun o => o.kind == k && o.ObjectMeta.Namespace == key.Namespace
    && o.ObjectMeta.Name == key.Name)

def notFoundError : Error := Error.status "NotFound" "not found"

def memReader : Reader Cluster :=
  { Get := fun k key s =>
      match s.find k key with
      | some o => Except.ok o
      | none => Except.error notFoundError
    List := fun k s => Except.ok (s.objects.filter (fun o => o.kind == k)) }

def memClient : Client Cluster :=
  { Create := fun o s =>
      if s.objects.any (sameIdentity o) then (some (Error.status "AlreadyExists" "exists"), s)
      else (none, { objects := o :: s.objects })
    Update := fun o s =>
      if s.objects.any (sameIdentity o) then
        (none, { objects := o :: s.objects.filter (fun x => !sameIdentity o x) })
      else (some notFoundError, s)
    Delete := fun o s =>
      if s.objects.any (sameIdentity o) then
        (none, { objects := s.objects.filter (fun x => !sameIdentity o x) })
      else (some notFoundError, s) }

/-- An annotator that records the name of the object as its configuration, a JSON string. -/
def nameAnnotator : Annotator :=
  { SetLastAppliedAnnotation := fun o =>
      Except.ok { o with ObjectMeta := { o.ObjectMeta with
        Annotations := [(lastAppliedAnnotationName, o.ObjectMeta.Name)] } }
    GetOriginalConfiguration := fun o =>
      match o.ObjectMeta.Annotations.lookup lastAppliedAnnotationName with
      | some a => Except.ok [Token.str a]
      | none => Except.ok [] }

/-- The rest of the package doing nothing and reporting success. -/
def idlePackage : Package Cluster :=
  { installerSecretName := "installer-cloud-credentials"
    secretNamespace := "openshift-manila-csi-driver"
    cloudsSecretKey := "clouds.yaml"
    cloudName := "openstack"
    handleManilaDriverNamespace := fun _ s => (none, s)
    handleCACertConfigMap := fun _ s => (none, s)
    handleCredentialsRequest := fun _ s => (none, s)
    createDriverCredentialsSecret := fun _ _ s => (none, s)
    handleManilaStorageClasses := fun _ _ s => (none, s)
    handleSecurityContextConstraints := fun _ s => (none, s)
    handleNFSNodePluginRBAC := fun _ s => (none, s)
    handleNFSNodePluginDaemonSet := fun _ s => (none, s)
    handleManilaCSIDriver := fun _ s => (none, s)
    handleManilaControllerPluginDeployment := fun _ s => (none, s)
    handleManilaNodePluginRBAC := fun _ s => (none, s)
    handleManilaNodePluginDaemonSet := fun _ s => (none, s)
    getCloudProviderCert := fun s => (("", some notFoundError), s)
    deleteManilaDriverNamespace := fun s => (none, s)
    deleteManilaStorageClasses := fun s => (none, s)
    deleteCredentialsRequest := fun s => (none, s)
    deleteSecurityContextConstraints := fun s => (none, s)
    deleteCSIDriver := fun s => (none, s)
    deleteManilaNodePluginClusterRole := fun s => (none, s)
    deleteNFSNodePluginClusterRole := fun s => (none, s)
    deleteManilaNodePluginClusterRoleBinding := fun s => (none, s)
    deleteNFSNodePluginClusterRoleBinding := fun s => (none, s) }

/-- A cloud that accepts every request and lists the share types it is given. -/
def memOpenStack (listing : Except Error (List String)) : OpenStack Cluster :=
  { yamlUnmarshal := fun content =>
      if content = "" then Except.error "empty document"
      else Except.ok { Clouds := [("openstack", { Cloud := content })] }
    AuthOptions := fun _ => Except.ok {}
    NewClient := fun endpoint => Except.ok { IdentityBase := endpoint }
    SystemCertPool := Except.ok []
    Authenticate := fun _ _ s => (none, s)
    NewSharedFileSystemV2 := fun _ _ => Except.ok {}
    ListAllPages := fun _ s => (listing, s)
    ExtractShareTypes := fun pages => Except.ok (pages.map (fun n => { ID := n, Name := n })) }

/-- The reconciler over the store in memory. -/
def memReconciler : ReconcileManilaDriver Cluster :=
  { client := memClient
    apiReader := memReader
    annotator := nameAnnotator
    pkg := idlePackage
    openstack := memOpenStack (Except.ok ["default"]) }

/-- A world that starts with the given objects and an empty trace. -/
def worldOf (objects : List Object) : World Cluster :=
  { store := { objects := objects }, trace := [] }

/-- An object with the annotation nameAnnotator gives it. -/
def annotated (o : Object) : Object :=
  { o with ObjectMeta := { o.ObjectMeta with
      Annotations := [(lastAppliedAnnotationName, o.ObjectMeta.Name)] } }

/-- An object whose recorded configuration differs from what nameAnnotator would record. -/
def stale (o : Object) : Object :=
  { o with ObjectMeta := { o.ObjectMeta with
      Annotations := [(lastAppliedAnnotationName, "stale")] } }

/-- The first entry of the table of handlers. -/
def serviceAccountHandler : ConvergeHandler Cluster :=
  { run := handleManilaControllerPluginServiceAccount
    fn := Fn.handleManilaControllerPluginServiceAccount
    kind := Kind.ServiceAccount, template := desiredServiceAccount, namespaced := true }

/-- The reconciler over a store whose reads fail with an error that is not not-found. -/
def unavailableReconciler : ReconcileManilaDriver Cluster :=
  { memReconciler with
    apiReader := { Get := fun _ _ _ => Except.error (Error.other "unavailable")
                   List := fun _ _ => Except.error (Error.other "unavailable") } }

/-- The reconciler over a store that refuses every write. -/
def refusingReconciler : ReconcileManilaDriver Cluster :=
  { memReconciler with
    client := { Create := fun _ s => (some (Error.other "refused"), s)
                Update := fun _ s => (some (Error.other "refused"), s)
                Delete := fun _ s => (some (Error.other "refused"), s) } }

/-- A ManilaDriver object with the given name, not marked for deletion, without finalizers. -/
def driverNamed (name : String) : Object :=
  { kind := Kind.ManilaDriver, ObjectMeta := { Name := name } }

/-- The request for the ManilaDriver with the given name. -/
def requestFor (name : String) : Request :=
  { NamespacedName := { Name := name } }

/-- The world in which Reconcile stands after it has listed the ManilaDriver
objects and fetched the requested one. -/
def afterFetch {σ : Type} (request : Request) (w : World σ) : World σ :=
  { store := w.store
    trace := w.trace ++ [Call.enter Fn.Reconcile, Call.list Kind.ManilaDriver,
      Call.get Kind.ManilaDriver request.NamespacedName] }

/-- The error Reconcile reports when more than one ManilaDriver exists. -/
def singletonError : Error :=
  Error.errorf "only one instance of ManilaDriver is allowed in the system"

/-- The error Reconcile reports for an instance with the given, wrong, name. -/
def namingError (name : String) : Error :=
  Error.errorf ("invalid ManilaDriver CR name: " ++ name ++ ", it must be called "
    ++ manilaDriverCRName)

section ActivePass

variable {σ : Type}

/-- The identity of the credential secret read by getCloudFromSecret. -/
def installerSecretKey (r : ReconcileManilaDriver σ) : NamespacedName :=
  { Namespace := r.pkg.secretNamespace, Name := r.pkg.installerSecretName }

/-- The instance Reconcile hands to the handlers: the fetched one, with the
finalizer added if it was absent. -/
def activeInstance (inst : Object) : Object :=
  if contains inst.GetFinalizers manilaDriverFinalizer then inst
  else controllerutil.AddFinalizer inst manilaDriverFinalizer

/-- What adding the finalizer adds to the trace: nothing if it is present. -/
def finalizerStepCalls (inst : Object) : List Call :=
  if contains inst.GetFinalizers manilaDriverFinalizer then []
  else [Call.enter Fn.addFinalizer,
        Call.update (controllerutil.AddFinalizer inst manilaDriverFinalizer)]

/-- The world in which the handlers of a pass start: after the list, the fetch
and, if the finalizer was absent, the update that adds it. -/
def activeStart (r : ReconcileManilaDriver σ) (request : Request) (inst : Object)
    (w : World σ) : World σ :=
  { store := if contains inst.GetFinalizers manilaDriverFinalizer then w.store
      else (r.client.Update (controllerutil.AddFinalizer inst manilaDriverFinalizer) w.store).2
    trace := (afterFetch request w).trace ++ finalizerStepCalls inst }

/-- The conditions under which Reconcile reaches its handlers with the fetched
instance `inst`: at most one ManilaDriver is listed, the fetch returns `inst`,
it is called "cluster", it has no deletion timestamp, and the finalizer is
present or the update that adds it succeeds. -/
def ActivePass (r : ReconcileManilaDriver σ) (request : Request) (inst : Object)
    (w : World σ) : Prop :=
  (∃ items, r.apiReader.List Kind.ManilaDriver w.store = Except.ok items ∧ items.length ≤ 1)
  ∧ r.apiReader.Get Kind.ManilaDriver request.NamespacedName w.store = Except.ok inst
  ∧ inst.ObjectMeta.Name = manilaDriverCRName
  ∧ inst.GetDeletionTimestamp = none
  ∧ (contains inst.GetFinalizers manilaDriverFinalizer = true
      ∨ (r.client.Update (controllerutil.AddFinalizer inst manilaDriverFinalizer)
          w.store).1 = none)

/-- The part of Reconcile from the comment "Manila Driver Namespace" to its end,
as a function of the instance and the world it starts with: the handlers of a
pass over an instance that is not being deleted. -/
def reconcileActive (r : ReconcileManilaDriver σ) (inst : Object) (w : World σ) :
    (Result × Option Error) × World σ :=
  match w.call Fn.handleManilaDriverNamespace (r.pkg.handleManilaDriverNamespace inst) with
  | (some err, w) => (({}, some err), w)
  | (none, w) =>
  match w.call Fn.handleCACertConfigMap (r.pkg.handleCACertConfigMap inst) with
  | (some err, w) => (({}, some err), w)
  | (none, w) =>
  match w.call Fn.handleCredentialsRequest (r.pkg.handleCredentialsRequest inst) with
  | (some err, w) => (({}, some err), w)
  | (none, w) =>
  match getCloudFromSecret r w with
  | ((_, some err), w) =>
    if errors.IsNotFound err then (({ RequeueAfter := 10 }, none), w)
    else (({}, some err), w)
  | ((cloud, none), w) =>
  match w.call Fn.createDriverCredentialsSecret
      (r.pkg.createDriverCredentialsSecret inst cloud) with
  | (some err, w) => (({}, some err), w)
  | (none, w) =>
  match getManilaShareTypes r cloud w with
  | ((_, some err), w) =>
    if !isErrDefault404 err then (({}, some err), w)
    else (({}, none), w)
  | ((shareTypes, none), w) =>
  match w.call Fn.handleManilaStorageClasses
      (r.pkg.handleManilaStorageClasses inst shareTypes) with
  | (some err, w) => (({}, some err), w)
  | (none, w) => handleManilariverDeployment r inst w

/-- The calls of a pass from its first handler to the read of the credential secret. -/
def credentialCalls (r : ReconcileManilaDriver σ) : List Call :=
  [Call.enter Fn.handleManilaDriverNamespace, Call.enter Fn.handleCACertConfigMap,
   Call.enter Fn.handleCredentialsRequest, Call.enter Fn.getCloudFromSecret,
   Call.get Kind.Secret (installerSecretKey r)]

/-- The calls getManilaShareTypes can add to the trace. -/
def gateCalls : List Call :=
  [Call.enter Fn.getManilaShareTypes, Call.enter Fn.getCloudProviderCert,
   Call.cloud CloudRequest.Authenticate, Call.cloud CloudRequest.ListShareTypes]

end ActivePass

/-- The calls of the first three handlers of a pass. -/
def firstHandlerCalls : List Call :=
  [Call.enter Fn.handleManilaDriverNamespace, Call.enter Fn.handleCACertConfigMap,
   Call.enter Fn.handleCredentialsRequest]

/-- The error of getCloudFromSecret for a secret without the clouds key. -/
def missingKeyError {σ : Type} (r : ReconcileManilaDriver σ) : Error :=
  Error.errorf ("OpenStack credentials secret " ++ r.pkg.installerSecretName
    ++ " did not contain key " ++ r.pkg.cloudsSecretKey)

/-- The error of getCloudFromSecret for a document that does not parse. -/
def unmarshalError {σ : Type} (r : ReconcileManilaDriver σ) (msg : String) : Error :=
  Error.errorf ("failed to unmarshal clouds credentials stored in secret "
    ++ r.pkg.installerSecretName ++ ": " ++ msg)

/-- The credential secret with a clouds document. -/
def installerSecret : Object :=
  { kind := Kind.Secret
    ObjectMeta := { Name := "installer-cloud-credentials"
                    Namespace := "openshift-manila-csi-driver" }
    Data := [("clouds.yaml", "clouds: openstack")] }

/-- The reconciler over a cloud without the Manila service. -/
def noManilaReconciler : ReconcileManilaDriver Cluster :=
  { memReconciler with
    openstack := memOpenStack (Except.error (Error.errDefault404 "no manila endpoint")) }

/-- The reconciler over a cloud whose listing fails for another reason. -/
def brokenCloudReconciler : ReconcileManilaDriver Cluster :=
  { memReconciler with
    openstack := memOpenStack (Except.error (Error.other "timeout")) }

section Finalization

variable {σ : Type}

/-- The eleven delete steps of finalizeManilaDriver, in its order. -/
def finalizeSteps : List Fn :=
  [Fn.deleteManilaDriverNamespace, Fn.deleteManilaStorageClasses, Fn.deleteCredentialsRequest,
   Fn.deleteSecurityContextConstraints, Fn.deleteCSIDriver,
   Fn.deleteManilaControllerPluginClusterRole, Fn.deleteManilaNodePluginClusterRole,
   Fn.deleteNFSNodePluginClusterRole, Fn.deleteManilaControllerPluginClusterRoleBinding,
   Fn.deleteManilaNodePluginClusterRoleBinding, Fn.deleteNFSNodePluginClusterRoleBinding]

/-- A delete step run by its name, as finalizeManilaDriver calls it. -/
def runDelete (r : ReconcileManilaDriver σ) (f : Fn) (w : World σ) : Option Error × World σ :=
  match f with
  | Fn.deleteManilaDriverNamespace => w.call f r.pkg.deleteManilaDriverNamespace
  | Fn.deleteManilaStorageClasses => w.call f r.pkg.deleteManilaStorageClasses
  | Fn.deleteCredentialsRequest => w.call f r.pkg.deleteCredentialsRequest
  | Fn.deleteSecurityContextConstraints => w.call f r.pkg.deleteSecurityContextConstraints
  | Fn.deleteCSIDriver => w.call f r.pkg.deleteCSIDriver
  | Fn.deleteManilaControllerPluginClusterRole => deleteManilaControllerPluginClusterRole r w
  | Fn.deleteManilaNodePluginClusterRole => w.call f r.pkg.deleteManilaNodePluginClusterRole
  | Fn.deleteNFSNodePluginClusterRole => w.call f r.pkg.deleteNFSNodePluginClusterRole
  | Fn.deleteManilaControllerPluginClusterRoleBinding =>
    deleteManilaControllerPluginClusterRoleBinding r w
  | Fn.deleteManilaNodePluginClusterRoleBinding =>
    w.call f r.pkg.deleteManilaNodePluginClusterRoleBinding
  | Fn.deleteNFSNodePluginClusterRoleBinding =>
    w.call f r.pkg.deleteNFSNodePluginClusterRoleBinding
  | _ => (none, w)

/-- The steps of a list run in order, up to the first error that is neither nil nor not-found. -/
def runDeletes (r : ReconcileManilaDriver σ) : List Fn → World σ → Option Error × World σ
  | [], w => (none, w)
  | f :: fs, w =>
    match runDelete r f w with
    | (err, w) => if notNilNorNotFound err then (err, w) else runDeletes r fs w

/-- The outcomes `out` are those the steps of the list yield when they are
reached in a run that starts in `w`: the first step yields its outcome in `w`,
and if that outcome lets the run go on, the rest yield theirs from the world it
leaves. -/
def Yields (r : ReconcileManilaDriver σ) (out : Fn → Option Error) :
    List Fn → World σ → Prop
  | [], _ => True
  | f :: fs, w =>
    (runDelete r f w).1 = out f
      ∧ (notNilNorNotFound (out f) = false → Yields r out fs (runDelete r f w).2)

/-- The delete steps entered in a trace, in order. -/
def deletesEntered (trace : List Call) : List Fn :=
  trace.filterMap (fun c =>
    match c with
    | Call.enter f => if f ∈ finalizeSteps then some f else none
    | _ => none)

end Finalization

/-- The reconciler over a store from which every managed object is already gone:
every delete reports not-found. -/
def goneReconciler : ReconcileManilaDriver Cluster :=
  { memReconciler with
    pkg := { idlePackage with
      deleteManilaDriverNamespace := fun s => (some notFoundError, s)
      deleteManilaStorageClasses := fun s => (some notFoundError, s)
      deleteCredentialsRequest := fun s => (some notFoundError, s)
      deleteSecurityContextConstraints := fun s => (some notFoundError, s)
      deleteCSIDriver := fun s => (some notFoundError, s)
      deleteManilaNodePluginClusterRole := fun s => (some notFoundError, s)
      deleteNFSNodePluginClusterRole := fun s => (some notFoundError, s)
      deleteManilaNodePluginClusterRoleBinding := fun s => (some notFoundError, s)
      deleteNFSNodePluginClusterRoleBinding := fun s => (some notFoundError, s) } }

/-- The outcomes of the delete steps of refusingReconciler: the steps of the rest
of the package succeed, the two deletes sent through the client are refused. -/
def refusedOutcomes : Fn → Option Error
  | Fn.deleteManilaControllerPluginClusterRole => some (Error.other "refused")
  | Fn.deleteManilaControllerPluginClusterRoleBinding => some (Error.other "refused")
  | _ => none

/-- A configuration as JSON text: an object with the fields name and rules. -/
def sampleText : Bytes :=
  [Token.lbrace, Token.str "name", Token.colon, Token.str "x", Token.comma,
   Token.str "rules", Token.colon, Token.lbrack, Token.num "1", Token.rbrack, Token.rbrace]

/-- The same configuration with the two fields in the other order and with whitespace. -/
def sampleTextReordered : Bytes :=
  [Token.lbrace, Token.ws, Token.str "rules", Token.colon, Token.ws, Token.lbrack,
   Token.num "1", Token.rbrack, Token.comma, Token.ws, Token.str "name", Token.colon,
   Token.str "x", Token.ws, Token.rbrace]

/-- The configuration with another value in the field name. -/
def sampleTextChanged : Bytes :=
  [Token.lbrace, Token.str "name", Token.colon, Token.str "y", Token.comma,
   Token.str "rules", Token.colon, Token.lbrack, Token.num "1", Token.rbrack, Token.rbrace]

/-- The configuration with one more element in the array of the field rules. -/
def sampleTextExtended : Bytes :=
  [Token.lbrace, Token.str "name", Token.colon, Token.str "x", Token.comma,
   Token.str "rules", Token.colon, Token.lbrack, Token.num "1", Token.comma, Token.num "2",
   Token.rbrack, Token.rbrace]

/-- An annotator whose objects carry one of the four sample texts, chosen by
the value of the annotation. -/
def sampleAnnotator : Annotator :=
  { SetLastAppliedAnnotation := fun o =>
      Except.ok { o with ObjectMeta := { o.ObjectMeta with
        Annotations := [(lastAppliedAnnotationName, "sample")] } }
    GetOriginalConfiguration := fun o =>
      match o.ObjectMeta.Annotations.lookup lastAppliedAnnotationName with
      | some "sample" => Except.ok sampleText
      | some "reordered" => Except.ok sampleTextReordered
      | some "changed" => Except.ok sampleTextChanged
      | some "extended" => Except.ok sampleTextExtended
      | _ => Except.ok [] }

/-- An object carrying the given value in its last-applied annotation. -/
def withApplied (o : Object) (value : String) : Object :=
  { o with ObjectMeta := { o.ObjectMeta with
      Annotations := [(lastAppliedAnnotationName, value)] } }

/-- The reconciler over the store in memory with the sample annotator. -/
def sampleReconciler : ReconcileManilaDriver Cluster :=
  { memReconciler with annotator := sampleAnnotator }

section Traces

variable {σ : Type}

/-- The calls a run has added to the trace: what the world after it holds
beyond the trace of the world before it. -/
def callsSince (before after : World σ) : List Call :=
  after.trace.drop before.trace.length

/-- The package functions entered in a trace, in order. -/
def entered (trace : List Call) : List Fn :=
  trace.filterMap (fun c =>
    match c with
    | Call.enter f => some f
    | _ => none)

/-- In a list of functions, `f` and `g` both occur and `f` stands before `g`. -/
def issuedBefore (f g : Fn) (fs : List Fn) : Bool :=
  decide (f ∈ fs) && decide (g ∈ fs) && decide (fs.indexOf f < fs.indexOf g)

end Traces

section Steps

variable {σ : Type}

/-- A call site of a pass: the package function called and what the call does
to the world. -/
structure Step (σ : Type) where
  fn : Fn
  run : World σ → Option Error × World σ

/-- Call sites run in order; the first error ends the run and is returned, as
in the source, where each call is followed by `if err != nil { return ... }`. -/
def runSteps : List (Step σ) → World σ → Option Error × World σ
  | [], w => (none, w)
  | s :: ss, w =>
    match s.run w with
    | (some err, w) => (some err, w)
    | (none, w) => runSteps ss w

/-- The call of a package method that is declared in another file. -/
def pkgStep (f : Fn) (body : σ → Option Error × σ) : Step σ :=
  { fn := f, run := fun w => w.call f body }

/-- The five calls of handleManilaControllerPluginRBAC, in its order. -/
def rbacSteps (r : ReconcileManilaDriver σ) (inst : Object) : List (Step σ) :=
  (controllerPluginRBACHandlers σ).map (fun h => { fn := h.fn, run := h.run r inst })

/-- The eight calls of handleManilariverDeployment, in its order. -/
def deploymentSteps (r : ReconcileManilaDriver σ) (inst : Object) : List (Step σ) :=
  [pkgStep Fn.handleSecurityContextConstraints (r.pkg.handleSecurityContextConstraints inst),
   pkgStep Fn.handleNFSNodePluginRBAC (r.pkg.handleNFSNodePluginRBAC inst),
   pkgStep Fn.handleNFSNodePluginDaemonSet (r.pkg.handleNFSNodePluginDaemonSet inst),
   pkgStep Fn.handleManilaCSIDriver (r.pkg.handleManilaCSIDriver inst),
   { fn := Fn.handleManilaControllerPluginRBAC, run := handleManilaControllerPluginRBAC r inst },
   pkgStep Fn.handleManilaControllerPluginDeployment
     (r.pkg.handleManilaControllerPluginDeployment inst),
   pkgStep Fn.handleManilaNodePluginRBAC (r.pkg.handleManilaNodePluginRBAC inst),
   pkgStep Fn.handleManilaNodePluginDaemonSet (r.pkg.handleManilaNodePluginDaemonSet inst)]

/-- The first three calls of a pass in Reconcile, in its order. -/
def firstSteps (r : ReconcileManilaDriver σ) (inst : Object) : List (Step σ) :=
  [pkgStep Fn.handleManilaDriverNamespace (r.pkg.handleManilaDriverNamespace inst),
   pkgStep Fn.handleCACertConfigMap (r.pkg.handleCACertConfigMap inst),
   pkgStep Fn.handleCredentialsRequest (r.pkg.handleCredentialsRequest inst)]

/-- The part of Reconcile from the comment "StorageClasses" to its end, as a
function of the instance, the share types and the world it starts with. -/
def reconcileFromInventory (r : ReconcileManilaDriver σ) (inst : Object)
    (shareTypes : List ShareType) (w : World σ) : (Result × Option Error) × World σ :=
  match w.call Fn.handleManilaStorageClasses
      (r.pkg.handleManilaStorageClasses inst shareTypes) with
  | (some err, w) => (({}, some err), w)
  | (none, w) => handleManilariverDeployment r inst w

/-- The part of Reconcile from the comment "Get the cloud credentials" to its
end, as a function of the instance and the world it starts with. -/
def reconcileFromSecret (r : ReconcileManilaDriver σ) (inst : Object) (w : World σ) :
    (Result × Option Error) × World σ :=
  match getCloudFromSecret r w with
  | ((_, some err), w) =>
    if errors.IsNotFound err then (({ RequeueAfter := 10 }, none), w)
    else (({}, some err), w)
  | ((cloud, none), w) =>
  match w.call Fn.createDriverCredentialsSecret
      (r.pkg.createDriverCredentialsSecret inst cloud) with
  | (some err, w) => (({}, some err), w)
  | (none, w) =>
  match getManilaShareTypes r cloud w with
  | ((_, some err), w) =>
    if !isErrDefault404 err then (({}, some err), w)
    else (({}, none), w)
  | ((shareTypes, none), w) => reconcileFromInventory r inst shareTypes w

end Steps

section Adding

variable {σ : Type}

/-- The trace of `after` is the trace of `before` followed by new calls, and
the new calls satisfy `Q`. -/
def Adds (Q : List Call → Prop) (before after : World σ) : Prop :=
  ∃ new, after.trace = before.trace ++ new ∧ Q new

/-- What a call site adds to the list of entered functions when it succeeds:
the call of handleManilaControllerPluginRBAC enters its five handlers, every
other call only the function called. -/
def enteredBy (f : Fn) : List Fn :=
  match f with
  | Fn.handleManilaControllerPluginRBAC =>
    [Fn.handleManilaControllerPluginRBAC, Fn.handleManilaControllerPluginServiceAccount,
     Fn.handleManilaControllerPluginClusterRole,
     Fn.handleManilaControllerPluginClusterRoleBinding, Fn.handleManilaControllerPluginRole,
     Fn.handleManilaControllerPluginRoleBinding]
  | f => [f]

/-- The handlers of a pass in the order of the spec (4.2), the inventory gate
being getCloudFromSecret followed by getManilaShareTypes. -/
def handlerOrder : List Fn :=
  [Fn.handleManilaDriverNamespace, Fn.handleCACertConfigMap, Fn.handleCredentialsRequest,
   Fn.getCloudFromSecret, Fn.getManilaShareTypes, Fn.handleManilaStorageClasses,
   Fn.handleSecurityContextConstraints, Fn.handleNFSNodePluginRBAC,
   Fn.handleNFSNodePluginDaemonSet, Fn.handleManilaCSIDriver,
   Fn.handleManilaControllerPluginRBAC, Fn.handleManilaControllerPluginDeployment,
   Fn.handleManilaNodePluginRBAC, Fn.handleManilaNodePluginDaemonSet]

/-- The handlers called by handleManilaControllerPluginRBAC, by the kind of
object they converge: ServiceAccount, ClusterRole, ClusterRoleBinding, Role,
RoleBinding. -/
def rbacOrder : List Fn :=
  [Fn.handleManilaControllerPluginServiceAccount, Fn.handleManilaControllerPluginClusterRole,
   Fn.handleManilaControllerPluginClusterRoleBinding, Fn.handleManilaControllerPluginRole,
   Fn.handleManilaControllerPluginRoleBinding]

/-- The package functions a pass enters after the finalizer step when every
call succeeds, in order. -/
def passOrder : List Fn :=
  [Fn.handleManilaDriverNamespace, Fn.handleCACertConfigMap, Fn.handleCredentialsRequest,
   Fn.getCloudFromSecret, Fn.createDriverCredentialsSecret, Fn.getManilaShareTypes,
   Fn.getCloudProviderCert, Fn.handleManilaStorageClasses, Fn.handleManilariverDeployment,
   Fn.handleSecurityContextConstraints, Fn.handleNFSNodePluginRBAC,
   Fn.handleNFSNodePluginDaemonSet, Fn.handleManilaCSIDriver,
   Fn.handleManilaControllerPluginRBAC, Fn.handleManilaControllerPluginServiceAccount,
   Fn.handleManilaControllerPluginClusterRole,
   Fn.handleManilaControllerPluginClusterRoleBinding, Fn.handleManilaControllerPluginRole,
   Fn.handleManilaControllerPluginRoleBinding, Fn.handleManilaControllerPluginDeployment,
   Fn.handleManilaNodePluginRBAC, Fn.handleManilaNodePluginDaemonSet]

end Adding

/-- The reconciler over a package whose handleCACertConfigMap fails. -/
def failingCAReconciler : ReconcileManilaDriver Cluster :=
  { memReconciler with
    pkg := { idlePackage with
      handleCACertConfigMap := fun _ s => (some (Error.other "no CA bundle"), s) } }
section Terminating

variable {σ : Type}

/-- The objects a trace asks the store to update, in order. -/
def updates (trace : List Call) : List Object :=
  trace.filterMap (fun c =>
    match c with
    | Call.update o => some o
    | _ => none)

/-- The calls finalizeManilaDriver can add to the trace: entering itself or one
of its delete steps, and the two deletes it sends through the client. -/
def finalizationCall (c : Call) : Bool :=
  match c with
  | Call.enter f => decide (f = Fn.finalizeManilaDriver) || decide (f ∈ finalizeSteps)
  | Call.delete o =>
    decide (o = generateManilaControllerPluginClusterRole)
      || decide (o = generateManilaControllerPluginClusterRoleBinding)
  | _ => false

/-- The world finalizeManilaDriver leaves when Reconcile calls it on the fetched
instance. -/
def finalized (r : ReconcileManilaDriver σ) (request : Request) (inst : Object)
    (w : World σ) : World σ :=
  (finalizeManilaDriver r inst (afterFetch request w)).2

end Terminating

/-- A ManilaDriver called "cluster" that is marked for deletion and carries the
given finalizers. -/
def terminatingDriver (finalizers : List String) : Object :=
  { kind := Kind.ManilaDriver
    ObjectMeta := { Name := manilaDriverCRName, DeletionTimestamp := some 1,
                    Finalizers := finalizers } }

section HandlerCalls

variable {σ : Type}

/-- A call the handlers of a pass may add to the trace: it is not the entry of
addFinalizer, and if it is an update, it is the update of the desired object of
one of the five handlers of the RBAC set, that is, of its template carrying the
last-applied annotation. -/
def HandlerCall (r : ReconcileManilaDriver σ) (c : Call) : Prop :=
  c ≠ Call.enter Fn.addFinalizer
  ∧ ∀ o, c = Call.update o →
      ∃ h ∈ controllerPluginRBACHandlers σ,
        r.annotator.SetLastAppliedAnnotation h.template = Except.ok o

/-- The calls with which Reconcile adds the finalizer to the fetched instance. -/
def addFinalizerCalls (request : Request) (inst : Object) : List Call :=
  [Call.enter Fn.Reconcile, Call.list Kind.ManilaDriver,
   Call.get Kind.ManilaDriver request.NamespacedName, Call.enter Fn.addFinalizer,
   Call.update (controllerutil.AddFinalizer inst manilaDriverFinalizer)]

/-- The calls with which Reconcile reaches its handlers when the fetched
instance carries the finalizer. -/
def fetchCalls (request : Request) : List Call :=
  [Call.enter Fn.Reconcile, Call.list Kind.ManilaDriver,
   Call.get Kind.ManilaDriver request.NamespacedName]

/-- The world addFinalizer leaves when Reconcile calls it on the fetched instance. -/
def afterAddFinalizer (r : ReconcileManilaDriver σ) (request : Request) (inst : Object)
    (w : World σ) : World σ :=
  { store := (r.client.Update (controllerutil.AddFinalizer inst manilaDriverFinalizer)
      w.store).2
    trace := w.trace ++ addFinalizerCalls request inst }

end HandlerCalls

/-- A ManilaDriver called "cluster" that is not marked for deletion and carries
the given finalizers. -/
def activeDriver (finalizers : List String) : Object :=
  { kind := Kind.ManilaDriver
    ObjectMeta := { Name := manilaDriverCRName, Finalizers := finalizers } }


/-! ## Theorems -/

section Converge

variable {σ : Type}

/-- Each handler of the table is the shared body at its own arguments. -/
theorem handler_eq_converge (h : ConvergeHandler σ) (hh : h ∈ controllerPluginRBACHandlers σ)
    (r : ReconcileManilaDriver σ) (inst : Object) (w : World σ) :
    h.run r inst w = converge r h.fn h.kind h.template h.namespaced w := by
  simp only [controllerPluginRBACHandlers, List.mem_cons, List.mem_singleton,
    List.not_mem_nil, or_false] at hh
  rcases hh with rfl | rfl | rfl | rfl | rfl <;> rfl

/-- Annotating the template fails: the error is returned before any request. -/
theorem converge_annotate_error (r : ReconcileManilaDriver σ) (fn : Fn) (kind : Kind)
    (template : Object) (namespaced : Bool) (w : World σ) (e : Error)
    (hann : r.annotator.SetLastAppliedAnnotation template = Except.error e) :
    converge r fn kind template namespaced w = (some e, w.enter fn) := by
  unfold converge
  simp only [hann]

/-- Nothing is found: the desired object is created. -/
theorem converge_created (r : ReconcileManilaDriver σ) (fn : Fn) (kind : Kind)
    (template desired : Object) (namespaced : Bool) (w : World σ) (e : Error)
    (hann : r.annotator.SetLastAppliedAnnotation template = Except.ok desired)
    (hget : r.apiReader.Get kind (fetchKey namespaced desired) w.store = Except.error e)
    (hnf : errors.IsNotFound e = true) :
    converge r fn kind template namespaced w =
      ((r.client.Create desired w.store).1,
       { store := (r.client.Create desired w.store).2
         trace := w.trace ++ [Call.enter fn, Call.get kind (fetchKey namespaced desired),
           Call.create desired] }) := by
  unfold converge
  simp only [hann, apiReaderGet, World.enter, hget, hnf, if_true, clientCreate]
  cases hc : (r.client.Create desired w.store).1 <;> simp [hc]

/-- The fetch fails with an error that is not not-found: it is returned, nothing is written. -/
theorem converge_fetch_error (r : ReconcileManilaDriver σ) (fn : Fn) (kind : Kind)
    (template desired : Object) (namespaced : Bool) (w : World σ) (e : Error)
    (hann : r.annotator.SetLastAppliedAnnotation template = Except.ok desired)
    (hget : r.apiReader.Get kind (fetchKey namespaced desired) w.store = Except.error e)
    (hnf : errors.IsNotFound e = false) :
    converge r fn kind template namespaced w =
      (some e, { store := w.store
                 trace := w.trace ++ [Call.enter fn,
                   Call.get kind (fetchKey namespaced desired)] }) := by
  unfold converge
  simp [hann, apiReaderGet, World.enter, hget, hnf]

/-- An object is found and the comparison fails: its error is returned, nothing is written. -/
theorem converge_compare_error (r : ReconcileManilaDriver σ) (fn : Fn) (kind : Kind)
    (template desired found : Object) (namespaced : Bool) (w : World σ) (b : Bool) (e : Error)
    (hann : r.annotator.SetLastAppliedAnnotation template = Except.ok desired)
    (hget : r.apiReader.Get kind (fetchKey namespaced desired) w.store = Except.ok found)
    (hcmp : compareLastAppliedAnnotations r.annotator found desired = (b, some e)) :
    converge r fn kind template namespaced w =
      (some e, { store := w.store
                 trace := w.trace ++ [Call.enter fn,
                   Call.get kind (fetchKey namespaced desired)] }) := by
  unfold converge
  simp [hann, apiReaderGet, World.enter, hget, hcmp]

/-- An object is found and the comparison says equal: nothing is written. -/
theorem converge_unchanged (r : ReconcileManilaDriver σ) (fn : Fn) (kind : Kind)
    (template desired found : Object) (namespaced : Bool) (w : World σ)
    (hann : r.annotator.SetLastAppliedAnnotation template = Except.ok desired)
    (hget : r.apiReader.Get kind (fetchKey namespaced desired) w.store = Except.ok found)
    (hcmp : compareLastAppliedAnnotations r.annotator found desired = (true, none)) :
    converge r fn kind template namespaced w =
      (none, { store := w.store
               trace := w.trace ++ [Call.enter fn,
                 Call.get kind (fetchKey namespaced desired)] }) := by
  unfold converge
  simp [hann, apiReaderGet, World.enter, hget, hcmp]

/-- An object is found and the comparison says different: the desired object is written. -/
theorem converge_updated (r : ReconcileManilaDriver σ) (fn : Fn) (kind : Kind)
    (template desired found : Object) (namespaced : Bool) (w : World σ)
    (hann : r.annotator.SetLastAppliedAnnotation template = Except.ok desired)
    (hget : r.apiReader.Get kind (fetchKey namespaced desired) w.store = Except.ok found)
    (hcmp : compareLastAppliedAnnotations r.annotator found desired = (false, none)) :
    converge r fn kind template namespaced w =
      ((r.client.Update desired w.store).1,
       { store := (r.client.Update desired w.store).2
         trace := w.trace ++ [Call.enter fn, Call.get kind (fetchKey namespaced desired),
           Call.update desired] }) := by
  unfold converge
  simp only [hann, apiReaderGet, World.enter, hget, hcmp, clientUpdate]
  cases hc : (r.client.Update desired w.store).1 <;> simp [hc]

/-- C1. For each of the five converge handlers of the controller-plugin RBAC
set, with `desired` the template carrying its last-applied annotation: if the
fetch at the desired identity reports not-found and the create succeeds, the
handler returns nil and the requests it issued are the fetch and one create of
`desired`; if an object is found and compareLastAppliedAnnotations returns
(true, nil), it returns nil, the only request is the fetch and the store is
unchanged; if an object is found, the comparison returns (false, nil) and the
update succeeds, it returns nil and the requests are the fetch and one update of
`desired`. -/
theorem converge_handlers_create_skip_update (h : ConvergeHandler σ)
    (hh : h ∈ controllerPluginRBACHandlers σ) (r : ReconcileManilaDriver σ) (inst : Object)
    (w : World σ) (desired : Object)
    (hann : r.annotator.SetLastAppliedAnnotation h.template = Except.ok desired) :
    (∀ e, r.apiReader.Get h.kind (fetchKey h.namespaced desired) w.store = Except.error e →
      errors.IsNotFound e = true → (r.client.Create desired w.store).1 = none →
      h.run r inst w =
        (none, { store := (r.client.Create desired w.store).2
                 trace := w.trace ++ [Call.enter h.fn,
                   Call.get h.kind (fetchKey h.namespaced desired), Call.create desired] }))
    ∧ (∀ found, r.apiReader.Get h.kind (fetchKey h.namespaced desired) w.store
          = Except.ok found →
      compareLastAppliedAnnotations r.annotator found desired = (true, none) →
      h.run r inst w =
        (none, { store := w.store
                 trace := w.trace ++ [Call.enter h.fn,
                   Call.get h.kind (fetchKey h.namespaced desired)] }))
    ∧ (∀ found, r.apiReader.Get h.kind (fetchKey h.namespaced desired) w.store
          = Except.ok found →
      compareLastAppliedAnnotations r.annotator found desired = (false, none) →
      (r.client.Update desired w.store).1 = none →
      h.run r inst w =
        (none, { store := (r.client.Update desired w.store).2
                 trace := w.trace ++ [Call.enter h.fn,
                   Call.get h.kind (fetchKey h.namespaced desired), Call.update desired] })) := by
  rw [handler_eq_converge h hh]
  refine ⟨?_, ?_, ?_⟩
  · intro e hget hnf hc
    rw [converge_created r _ _ _ desired _ w e hann hget hnf, hc]
  · intro found hget hcmp
    exact converge_unchanged r _ _ _ desired found _ w hann hget hcmp
  · intro found hget hcmp hu
    rw [converge_updated r _ _ _ desired found _ w hann hget hcmp, hu]

end Converge

theorem converge_handlers_create_skip_update_witness :
    handleManilaControllerPluginServiceAccount memReconciler desiredServiceAccount (worldOf [])
      = (none, { store := { objects := [annotated desiredServiceAccount] }
                 trace := [Call.enter Fn.handleManilaControllerPluginServiceAccount,
                   Call.get Kind.ServiceAccount (fetchKey true desiredServiceAccount),
                   Call.create (annotated desiredServiceAccount)] })
    ∧ handleManilaControllerPluginServiceAccount memReconciler desiredServiceAccount
        (worldOf [annotated desiredServiceAccount])
      = (none, { store := { objects := [annotated desiredServiceAccount] }
                 trace := [Call.enter Fn.handleManilaControllerPluginServiceAccount,
                   Call.get Kind.ServiceAccount (fetchKey true desiredServiceAccount)] })
    ∧ handleManilaControllerPluginServiceAccount memReconciler desiredServiceAccount
        (worldOf [stale desiredServiceAccount])
      = (none, { store := { objects := [annotated desiredServiceAccount] }
                 trace := [Call.enter Fn.handleManilaControllerPluginServiceAccount,
                   Call.get Kind.ServiceAccount (fetchKey true desiredServiceAccount),
                   Call.update (annotated desiredServiceAccount)] }) :=
  ⟨(converge_handlers_create_skip_update serviceAccountHandler (List.Mem.head _) memReconciler
      desiredServiceAccount (worldOf []) (annotated desiredServiceAccount) rfl).1
      notFoundError rfl rfl rfl,
   (converge_handlers_create_skip_update serviceAccountHandler (List.Mem.head _) memReconciler
      desiredServiceAccount (worldOf [annotated desiredServiceAccount])
      (annotated desiredServiceAccount) rfl).2.1
      (annotated desiredServiceAccount) rfl rfl,
   (converge_handlers_create_skip_update serviceAccountHandler (List.Mem.head _) memReconciler
      desiredServiceAccount (worldOf [stale desiredServiceAccount])
      (annotated desiredServiceAccount) rfl).2.2
      (stale desiredServiceAccount) rfl rfl rfl⟩

section ConvergeErrors

variable {σ : Type}

/-- The requests a run of the shared body adds to the trace hold at most one write. -/
theorem converge_at_most_one_write (r : ReconcileManilaDriver σ) (fn : Fn) (kind : Kind)
    (template : Object) (namespaced : Bool) (w : World σ) :
    (((converge r fn kind template namespaced w).2.trace.drop w.trace.length).filter
      Call.isWrite).length ≤ 1 := by
  cases hann : r.annotator.SetLastAppliedAnnotation template with
  | error e =>
    rw [converge_annotate_error r fn kind template namespaced w e hann]
    simp [World.enter, Call.isWrite]
  | ok desired =>
    cases hget : r.apiReader.Get kind (fetchKey namespaced desired) w.store with
    | error e =>
      cases hnf : errors.IsNotFound e with
      | true =>
        rw [converge_created r fn kind template desired namespaced w e hann hget hnf]
        simp [Call.isWrite]
      | false =>
        rw [converge_fetch_error r fn kind template desired namespaced w e hann hget hnf]
        simp [Call.isWrite]
    | ok found =>
      rcases hcmp : compareLastAppliedAnnotations r.annotator found desired with ⟨b, oe⟩
      cases oe with
      | some e =>
        rw [converge_compare_error r fn kind template desired found namespaced w b e
          hann hget hcmp]
        simp [Call.isWrite]
      | none =>
        cases b with
        | true =>
          rw [converge_unchanged r fn kind template desired found namespaced w hann hget hcmp]
          simp [Call.isWrite]
        | false =>
          rw [converge_updated r fn kind template desired found namespaced w hann hget hcmp]
          simp [Call.isWrite]

/-- C3. For each of the five converge handlers of the controller-plugin RBAC
set, with `desired` the annotated template: if the fetch fails with an error
`e` that is not not-found, the handler returns exactly `e`, its only request is
the fetch and the store is unchanged; if nothing is found and the create fails
with `e`, it returns exactly `e` after that one create; if the found object
compares as different and the update fails with `e`, it returns exactly `e`
after that one update; and in every run, whatever the store answers, the
requests of the handler hold at most one write. -/
theorem converge_handlers_errors_pass_through (h : ConvergeHandler σ)
    (hh : h ∈ controllerPluginRBACHandlers σ) (r : ReconcileManilaDriver σ) (inst : Object)
    (w : World σ) :
    (∀ desired e, r.annotator.SetLastAppliedAnnotation h.template = Except.ok desired →
      r.apiReader.Get h.kind (fetchKey h.namespaced desired) w.store = Except.error e →
      errors.IsNotFound e = false →
      h.run r inst w =
        (some e, { store := w.store
                   trace := w.trace ++ [Call.enter h.fn,
                     Call.get h.kind (fetchKey h.namespaced desired)] }))
    ∧ (∀ desired e₀ e, r.annotator.SetLastAppliedAnnotation h.template = Except.ok desired →
      r.apiReader.Get h.kind (fetchKey h.namespaced desired) w.store = Except.error e₀ →
      errors.IsNotFound e₀ = true → (r.client.Create desired w.store).1 = some e →
      h.run r inst w =
        (some e, { store := (r.client.Create desired w.store).2
                   trace := w.trace ++ [Call.enter h.fn,
                     Call.get h.kind (fetchKey h.namespaced desired), Call.create desired] }))
    ∧ (∀ desired found e, r.annotator.SetLastAppliedAnnotation h.template = Except.ok desired →
      r.apiReader.Get h.kind (fetchKey h.namespaced desired) w.store = Except.ok found →
      compareLastAppliedAnnotations r.annotator found desired = (false, none) →
      (r.client.Update desired w.store).1 = some e →
      h.run r inst w =
        (some e, { store := (r.client.Update desired w.store).2
                   trace := w.trace ++ [Call.enter h.fn,
                     Call.get h.kind (fetchKey h.namespaced desired), Call.update desired] }))
    ∧ (((h.run r inst w).2.trace.drop w.trace.length).filter Call.isWrite).length ≤ 1 := by
  rw [handler_eq_converge h hh]
  refine ⟨?_, ?_, ?_, converge_at_most_one_write r _ _ _ _ w⟩
  · intro desired e hann hget hnf
    exact converge_fetch_error r _ _ _ desired _ w e hann hget hnf
  · intro desired e₀ e hann hget hnf hc
    rw [converge_created r _ _ _ desired _ w e₀ hann hget hnf, hc]
  · intro desired found e hann hget hcmp hu
    rw [converge_updated r _ _ _ desired found _ w hann hget hcmp, hu]

end ConvergeErrors

theorem converge_handlers_errors_pass_through_witness :
    handleManilaControllerPluginServiceAccount unavailableReconciler desiredServiceAccount
        (worldOf [])
      = (some (Error.other "unavailable"),
         { store := { objects := [] }
           trace := [Call.enter Fn.handleManilaControllerPluginServiceAccount,
             Call.get Kind.ServiceAccount (fetchKey true desiredServiceAccount)] })
    ∧ handleManilaControllerPluginServiceAccount refusingReconciler desiredServiceAccount
        (worldOf [])
      = (some (Error.other "refused"),
         { store := { objects := [] }
           trace := [Call.enter Fn.handleManilaControllerPluginServiceAccount,
             Call.get Kind.ServiceAccount (fetchKey true desiredServiceAccount),
             Call.create (annotated desiredServiceAccount)] })
    ∧ handleManilaControllerPluginServiceAccount refusingReconciler desiredServiceAccount
        (worldOf [stale desiredServiceAccount])
      = (some (Error.other "refused"),
         { store := { objects := [stale desiredServiceAccount] }
           trace := [Call.enter Fn.handleManilaControllerPluginServiceAccount,
             Call.get Kind.ServiceAccount (fetchKey true desiredServiceAccount),
             Call.update (annotated desiredServiceAccount)] }) :=
  ⟨(converge_handlers_errors_pass_through serviceAccountHandler (List.Mem.head _)
      unavailableReconciler desiredServiceAccount (worldOf [])).1
      (annotated desiredServiceAccount) (Error.other "unavailable") rfl rfl rfl,
   (converge_handlers_errors_pass_through serviceAccountHandler (List.Mem.head _)
      refusingReconciler desiredServiceAccount (worldOf [])).2.1
      (annotated desiredServiceAccount) notFoundError (Error.other "refused") rfl rfl rfl rfl,
   (converge_handlers_errors_pass_through serviceAccountHandler (List.Mem.head _)
      refusingReconciler desiredServiceAccount (worldOf [stale desiredServiceAccount])).2.2.1
      (annotated desiredServiceAccount) (stale desiredServiceAccount) (Error.other "refused")
      rfl rfl rfl rfl⟩

section ReconcileGuards

variable {σ : Type}

/-- Reconcile when the list holds more than one ManilaDriver. -/
theorem Reconcile_too_many (r : ReconcileManilaDriver σ) (request : Request) (w : World σ)
    (items : List Object)
    (hlist : r.apiReader.List Kind.ManilaDriver w.store = Except.ok items)
    (hmany : 1 < items.length) :
    Reconcile r request w =
      (({}, some singletonError),
       { store := w.store
         trace := w.trace ++ [Call.enter Fn.Reconcile, Call.list Kind.ManilaDriver] }) := by
  unfold Reconcile
  simp [apiReaderList, World.enter, hlist, hmany, singletonError]

/-- Reconcile when the fetched instance is not called "cluster". -/
theorem Reconcile_wrong_name (r : ReconcileManilaDriver σ) (request : Request) (w : World σ)
    (items : List Object) (inst : Object)
    (hlist : r.apiReader.List Kind.ManilaDriver w.store = Except.ok items)
    (hone : items.length ≤ 1)
    (hget : r.apiReader.Get Kind.ManilaDriver request.NamespacedName w.store = Except.ok inst)
    (hname : inst.ObjectMeta.Name ≠ manilaDriverCRName) :
    Reconcile r request w =
      (({}, some (namingError inst.ObjectMeta.Name)), afterFetch request w) := by
  unfold Reconcile
  have hnot : ¬ 1 < items.length := by omega
  simp [apiReaderList, apiReaderGet, World.enter, hlist, hnot, hget, hname, namingError,
    afterFetch]

/-- C5. Singleton enforcement: whenever listing the ManilaDriver objects returns
more than one item, for every request, Reconcile returns the singleton error
with an empty result, the store is unchanged, and all it has done is enter
Reconcile and issue that list request: no handler, no finalization, no create,
update or delete. -/
theorem Reconcile_singleton_enforced (r : ReconcileManilaDriver σ) (request : Request)
    (w : World σ) (items : List Object)
    (hlist : r.apiReader.List Kind.ManilaDriver w.store = Except.ok items)
    (hmany : 1 < items.length) :
    (Reconcile r request w).1 = ({}, some singletonError)
    ∧ (Reconcile r request w).2.store = w.store
    ∧ (Reconcile r request w).2.trace
        = w.trace ++ [Call.enter Fn.Reconcile, Call.list Kind.ManilaDriver] := by
  rw [Reconcile_too_many r request w items hlist hmany]
  exact ⟨rfl, rfl, rfl⟩

/-- C6. Identity validation: whenever the list holds at most one ManilaDriver and
the fetched instance is not called "cluster", with or without a deletion
timestamp, Reconcile returns the naming error with an empty result, the store is
unchanged, and all it has done is enter Reconcile and issue the list and the
fetch: no write, no finalizer change, no finalization, no handler. -/
theorem Reconcile_identity_validated (r : ReconcileManilaDriver σ) (request : Request)
    (w : World σ) (items : List Object) (inst : Object)
    (hlist : r.apiReader.List Kind.ManilaDriver w.store = Except.ok items)
    (hone : items.length ≤ 1)
    (hget : r.apiReader.Get Kind.ManilaDriver request.NamespacedName w.store = Except.ok inst)
    (hname : inst.ObjectMeta.Name ≠ manilaDriverCRName) :
    (Reconcile r request w).1 = ({}, some (namingError inst.ObjectMeta.Name))
    ∧ (Reconcile r request w).2.store = w.store
    ∧ (Reconcile r request w).2.trace
        = w.trace ++ [Call.enter Fn.Reconcile, Call.list Kind.ManilaDriver,
            Call.get Kind.ManilaDriver request.NamespacedName] := by
  rw [Reconcile_wrong_name r request w items inst hlist hone hget hname]
  exact ⟨rfl, rfl, rfl⟩

/-- C7, as amended. On the singleton violation and on the wrong-name error
Reconcile returns an empty result (no Requeue, no RequeueAfter) together with a
non-nil error, and by the rule of its doc comment that outcome does requeue the
request. -/
theorem Reconcile_fatal_errors_requeued (r : ReconcileManilaDriver σ) (request : Request)
    (w : World σ) (items : List Object)
    (hlist : r.apiReader.List Kind.ManilaDriver w.store = Except.ok items) :
    (1 < items.length →
      (Reconcile r request w).1 = ({}, some singletonError)
      ∧ requeued (Reconcile r request w).1 = true)
    ∧ (∀ inst, items.length ≤ 1 →
      r.apiReader.Get Kind.ManilaDriver request.NamespacedName w.store = Except.ok inst →
      inst.ObjectMeta.Name ≠ manilaDriverCRName →
      (Reconcile r request w).1 = ({}, some (namingError inst.ObjectMeta.Name))
      ∧ requeued (Reconcile r request w).1 = true) := by
  constructor
  · intro hmany
    rw [Reconcile_too_many r request w items hlist hmany]
    exact ⟨rfl, rfl⟩
  · intro inst hone hget hname
    rw [Reconcile_wrong_name r request w items inst hlist hone hget hname]
    exact ⟨rfl, rfl⟩

end ReconcileGuards

theorem Reconcile_singleton_enforced_witness :
    (Reconcile memReconciler (requestFor "cluster")
        (worldOf [driverNamed "cluster", driverNamed "other"])).1 = ({}, some singletonError)
    ∧ (Reconcile memReconciler (requestFor "cluster")
        (worldOf [driverNamed "cluster", driverNamed "other"])).2.store
        = { objects := [driverNamed "cluster", driverNamed "other"] }
    ∧ (Reconcile memReconciler (requestFor "cluster")
        (worldOf [driverNamed "cluster", driverNamed "other"])).2.trace
        = [Call.enter Fn.Reconcile, Call.list Kind.ManilaDriver] :=
  Reconcile_singleton_enforced memReconciler (requestFor "cluster")
    (worldOf [driverNamed "cluster", driverNamed "other"])
    [driverNamed "cluster", driverNamed "other"] rfl (by decide)

theorem Reconcile_identity_validated_witness :
    (Reconcile memReconciler (requestFor "other") (worldOf [driverNamed "other"])).1
        = ({}, some (namingError "other"))
    ∧ (Reconcile memReconciler (requestFor "other") (worldOf [driverNamed "other"])).2.store
        = { objects := [driverNamed "other"] }
    ∧ (Reconcile memReconciler (requestFor "other") (worldOf [driverNamed "other"])).2.trace
        = [Call.enter Fn.Reconcile, Call.list Kind.ManilaDriver,
            Call.get Kind.ManilaDriver { Name := "other" }] :=
  Reconcile_identity_validated memReconciler (requestFor "other")
    (worldOf [driverNamed "other"]) [driverNamed "other"] (driverNamed "other") rfl
    (by decide) rfl (by decide)

/-- C7, as stated, fails: with two ManilaDriver objects in the store Reconcile
reports the singleton violation, and the outcome it returns requeues the request. -/
theorem Reconcile_singleton_error_is_requeued :
    (Reconcile memReconciler (requestFor "cluster")
        (worldOf [driverNamed "cluster", driverNamed "other"])).1.2 = some singletonError
    ∧ requeued (Reconcile memReconciler (requestFor "cluster")
        (worldOf [driverNamed "cluster", driverNamed "other"])).1 = true := by
  constructor <;> rfl

theorem Reconcile_fatal_errors_requeued_witness :
    ((Reconcile memReconciler (requestFor "cluster")
        (worldOf [driverNamed "cluster", driverNamed "other"])).1 = ({}, some singletonError)
      ∧ requeued (Reconcile memReconciler (requestFor "cluster")
        (worldOf [driverNamed "cluster", driverNamed "other"])).1 = true)
    ∧ ((Reconcile memReconciler (requestFor "other") (worldOf [driverNamed "other"])).1
        = ({}, some (namingError "other"))
      ∧ requeued (Reconcile memReconciler (requestFor "other")
        (worldOf [driverNamed "other"])).1 = true) :=
  ⟨(Reconcile_fatal_errors_requeued memReconciler (requestFor "cluster")
      (worldOf [driverNamed "cluster", driverNamed "other"])
      [driverNamed "cluster", driverNamed "other"] rfl).1 (by decide),
   (Reconcile_fatal_errors_requeued memReconciler (requestFor "other")
      (worldOf [driverNamed "other"]) [driverNamed "other"] rfl).2
      (driverNamed "other") (by decide) rfl (by decide)⟩

section ReconcileActive

variable {σ : Type}

/-- Under the conditions of an Active pass Reconcile runs the handlers, on the
instance and in the world left by the finalizer step. -/
theorem Reconcile_active (r : ReconcileManilaDriver σ) (request : Request) (inst : Object)
    (w : World σ) (hactive : ActivePass r request inst w) :
    Reconcile r request w
      = reconcileActive r (activeInstance inst) (activeStart r request inst w) := by
  obtain ⟨⟨items, hlist, hone⟩, hget, hname, hdel, hfin⟩ := hactive
  have hnot : ¬ 1 < items.length := by omega
  unfold Reconcile reconcileActive
  by_cases hc : contains inst.GetFinalizers manilaDriverFinalizer = true
  · simp [apiReaderList, apiReaderGet, World.enter, hlist, hnot, hget, hname, hdel, hc,
      activeInstance, activeStart, afterFetch, finalizerStepCalls]
  · have hu := hfin.resolve_left hc
    simp only [Bool.not_eq_true] at hc
    simp [apiReaderList, apiReaderGet, World.enter, hlist, hnot, hget, hname, hdel, hc,
      activeInstance, activeStart, afterFetch, finalizerStepCalls, addFinalizer, clientUpdate,
      hu]

/-- What getCloudFromSecret leaves: the store as it was, two more calls. -/
theorem getCloudFromSecret_world (r : ReconcileManilaDriver σ) (w : World σ) :
    (getCloudFromSecret r w).2
      = { store := w.store
          trace := w.trace ++ [Call.enter Fn.getCloudFromSecret,
            Call.get Kind.Secret (installerSecretKey r)] } := by
  unfold getCloudFromSecret
  simp only [apiReaderGet, World.enter, installerSecretKey]
  cases r.apiReader.Get Kind.Secret
      { Namespace := r.pkg.secretNamespace, Name := r.pkg.installerSecretName } w.store with
  | error e => simp
  | ok secret =>
    simp only []
    cases secret.Data.lookup r.pkg.cloudsSecretKey with
    | none => simp
    | some content => cases h : r.openstack.yamlUnmarshal content <;> simp [h]

/-- The error of getCloudFromSecret when the read of the secret fails: the error of the read. -/
theorem getCloudFromSecret_read_error (r : ReconcileManilaDriver σ) (w : World σ) (e : Error)
    (hget : r.apiReader.Get Kind.Secret (installerSecretKey r) w.store = Except.error e) :
    (getCloudFromSecret r w).1 = ({}, some e) := by
  unfold getCloudFromSecret
  simp only [installerSecretKey] at hget
  simp [apiReaderGet, World.enter, hget]

/-- The handlers up to the read of the secret, when the first three succeed. -/
theorem reconcileActive_to_secret (r : ReconcileManilaDriver σ) (inst : Object) (w : World σ)
    (s₁ s₂ s₃ : σ)
    (hns : r.pkg.handleManilaDriverNamespace inst w.store = (none, s₁))
    (hca : r.pkg.handleCACertConfigMap inst s₁ = (none, s₂))
    (hcr : r.pkg.handleCredentialsRequest inst s₂ = (none, s₃)) :
    reconcileActive r inst w =
      match getCloudFromSecret r
          { store := s₃
            trace := w.trace ++ [Call.enter Fn.handleManilaDriverNamespace,
              Call.enter Fn.handleCACertConfigMap, Call.enter Fn.handleCredentialsRequest] } with
      | ((_, some err), w) =>
        if errors.IsNotFound err then (({ RequeueAfter := 10 }, none), w)
        else (({}, some err), w)
      | ((cloud, none), w) =>
      match w.call Fn.createDriverCredentialsSecret
          (r.pkg.createDriverCredentialsSecret inst cloud) with
      | (some err, w) => (({}, some err), w)
      | (none, w) =>
      match getManilaShareTypes r cloud w with
      | ((_, some err), w) =>
        if !isErrDefault404 err then (({}, some err), w)
        else (({}, none), w)
      | ((shareTypes, none), w) =>
      match w.call Fn.handleManilaStorageClasses
          (r.pkg.handleManilaStorageClasses inst shareTypes) with
      | (some err, w) => (({}, some err), w)
      | (none, w) => handleManilariverDeployment r inst w := by
  unfold reconcileActive
  simp [World.call, hns, hca, hcr]

end ReconcileActive

section Deferred

variable {σ : Type}

/-- The pass when getCloudFromSecret returns an error. -/
theorem reconcileActive_secret_error (r : ReconcileManilaDriver σ) (inst : Object)
    (w : World σ) (s₁ s₂ s₃ : σ) (e : Error)
    (hns : r.pkg.handleManilaDriverNamespace inst w.store = (none, s₁))
    (hca : r.pkg.handleCACertConfigMap inst s₁ = (none, s₂))
    (hcr : r.pkg.handleCredentialsRequest inst s₂ = (none, s₃))
    (herr : (getCloudFromSecret r
      { store := s₃, trace := w.trace ++ firstHandlerCalls }).1.2 = some e) :
    reconcileActive r inst w =
      ((if errors.IsNotFound e then ({ RequeueAfter := 10 }, none) else ({}, some e)),
       { store := s₃, trace := w.trace ++ credentialCalls r }) := by
  rw [reconcileActive_to_secret r inst w s₁ s₂ s₃ hns hca hcr]
  have hw := getCloudFromSecret_world r { store := s₃, trace := w.trace ++ firstHandlerCalls }
  have hpair : getCloudFromSecret r { store := s₃, trace := w.trace ++ firstHandlerCalls }
      = (((getCloudFromSecret r
            { store := s₃, trace := w.trace ++ firstHandlerCalls }).1.1, some e),
         { store := s₃, trace := w.trace ++ credentialCalls r }) := by
    refine Prod.ext (Prod.ext rfl herr) ?_
    rw [hw]
    simp [credentialCalls, firstHandlerCalls]
  simp only [firstHandlerCalls] at hpair
  rw [hpair]
  by_cases hnf : errors.IsNotFound e = true
  · simp [hnf]
  · simp only [Bool.not_eq_true] at hnf
    simp [hnf]

/-- The error of getCloudFromSecret for a secret that lacks the clouds key. -/
theorem getCloudFromSecret_missing_key (r : ReconcileManilaDriver σ) (w : World σ)
    (secret : Object)
    (hget : r.apiReader.Get Kind.Secret (installerSecretKey r) w.store = Except.ok secret)
    (hkey : secret.Data.lookup r.pkg.cloudsSecretKey = none) :
    (getCloudFromSecret r w).1 = ({}, some (missingKeyError r)) := by
  unfold getCloudFromSecret
  simp only [installerSecretKey] at hget
  simp [apiReaderGet, World.enter, hget, hkey, missingKeyError]

/-- The error of getCloudFromSecret for a document that does not parse. -/
theorem getCloudFromSecret_unmarshal_error (r : ReconcileManilaDriver σ) (w : World σ)
    (secret : Object) (content msg : String)
    (hget : r.apiReader.Get Kind.Secret (installerSecretKey r) w.store = Except.ok secret)
    (hkey : secret.Data.lookup r.pkg.cloudsSecretKey = some content)
    (hyaml : r.openstack.yamlUnmarshal content = Except.error msg) :
    (getCloudFromSecret r w).1 = ({}, some (unmarshalError r msg)) := by
  unfold getCloudFromSecret
  simp only [installerSecretKey] at hget
  simp [apiReaderGet, World.enter, hget, hkey, hyaml, unmarshalError]

/-- C8. In an Active pass (one ManilaDriver, called "cluster", no deletion
timestamp, finalizer present or added) whose namespace, CA-certificate and
credentials-request handlers succeed: if the read of the credential secret
reports not-found, Reconcile returns a nil error with RequeueAfter = 10, and
after that read it calls nothing more (the trace ends with the read, so none of
createDriverCredentialsSecret, getManilaShareTypes, handleManilaStorageClasses,
handleManilariverDeployment is entered); any error of getCloudFromSecret that is
not not-found is returned as the error of Reconcile with an empty result, in
particular the errors for a secret without the clouds key and for a document
that does not parse. -/
theorem Reconcile_deferred_availability (r : ReconcileManilaDriver σ) (request : Request)
    (inst : Object) (w : World σ) (s₁ s₂ s₃ : σ)
    (hactive : ActivePass r request inst w)
    (hns : r.pkg.handleManilaDriverNamespace (activeInstance inst)
      (activeStart r request inst w).store = (none, s₁))
    (hca : r.pkg.handleCACertConfigMap (activeInstance inst) s₁ = (none, s₂))
    (hcr : r.pkg.handleCredentialsRequest (activeInstance inst) s₂ = (none, s₃)) :
    (∀ e, r.apiReader.Get Kind.Secret (installerSecretKey r) s₃ = Except.error e →
      errors.IsNotFound e = true →
      Reconcile r request w =
        (({ RequeueAfter := 10 }, none),
         { store := s₃, trace := (activeStart r request inst w).trace ++ credentialCalls r }))
    ∧ (∀ e, (getCloudFromSecret r
          { store := s₃
            trace := (activeStart r request inst w).trace ++ firstHandlerCalls }).1.2 = some e →
      errors.IsNotFound e = false →
      Reconcile r request w =
        (({}, some e),
         { store := s₃, trace := (activeStart r request inst w).trace ++ credentialCalls r }))
    ∧ (∀ secret, r.apiReader.Get Kind.Secret (installerSecretKey r) s₃ = Except.ok secret →
      secret.Data.lookup r.pkg.cloudsSecretKey = none →
      (Reconcile r request w).1 = ({}, some (missingKeyError r)))
    ∧ (∀ secret content msg,
      r.apiReader.Get Kind.Secret (installerSecretKey r) s₃ = Except.ok secret →
      secret.Data.lookup r.pkg.cloudsSecretKey = some content →
      r.openstack.yamlUnmarshal content = Except.error msg →
      (Reconcile r request w).1 = ({}, some (unmarshalError r msg))) := by
  rw [Reconcile_active r request inst w hactive]
  refine ⟨?_, ?_, ?_, ?_⟩
  · intro e hget hnf
    have herr := getCloudFromSecret_read_error r
      { store := s₃, trace := (activeStart r request inst w).trace ++ firstHandlerCalls } e hget
    rw [reconcileActive_secret_error r _ _ s₁ s₂ s₃ e hns hca hcr (by rw [herr]), hnf]
    rfl
  · intro e herr hnf
    rw [reconcileActive_secret_error r _ _ s₁ s₂ s₃ e hns hca hcr herr, hnf]
    rfl
  · intro secret hget hkey
    have herr := getCloudFromSecret_missing_key r
      { store := s₃, trace := (activeStart r request inst w).trace ++ firstHandlerCalls }
      secret hget hkey
    rw [reconcileActive_secret_error r _ _ s₁ s₂ s₃ _ hns hca hcr (by rw [herr])]
    rfl
  · intro secret content msg hget hkey hyaml
    have herr := getCloudFromSecret_unmarshal_error r
      { store := s₃, trace := (activeStart r request inst w).trace ++ firstHandlerCalls }
      secret content msg hget hkey hyaml
    rw [reconcileActive_secret_error r _ _ s₁ s₂ s₃ _ hns hca hcr (by rw [herr])]
    rfl

end Deferred

section FeatureAbsence

variable {σ : Type}

/-- Whatever happens in getManilaShareTypes, all it adds to the trace are its
own entry, the read of the CA certificate and the two requests to the cloud. -/
theorem getManilaShareTypes_trace (r : ReconcileManilaDriver σ) (cloud : Cloud) (w : World σ) :
    (getManilaShareTypes r cloud w).2.trace ∈
      [w.trace ++ [Call.enter Fn.getManilaShareTypes],
       w.trace ++ [Call.enter Fn.getManilaShareTypes, Call.enter Fn.getCloudProviderCert],
       w.trace ++ [Call.enter Fn.getManilaShareTypes, Call.enter Fn.getCloudProviderCert,
         Call.cloud CloudRequest.Authenticate],
       w.trace ++ [Call.enter Fn.getManilaShareTypes, Call.enter Fn.getCloudProviderCert,
         Call.cloud CloudRequest.Authenticate, Call.cloud CloudRequest.ListShareTypes]] := by
  unfold getManilaShareTypes
  simp only [World.enter, World.call, cloudAuthenticate, cloudListAllPages]
  repeat' split
  all_goals
    simp only [Prod.mk.injEq] at *
    try casesm* _ ∧ _
    subst_vars
    simp

/-- The pass when the inventory lookup returns an error. -/
theorem reconcileActive_gate_error (r : ReconcileManilaDriver σ) (inst : Object)
    (w : World σ) (s₁ s₂ s₃ s₅ : σ) (cloud : Cloud) (e : Error)
    (hns : r.pkg.handleManilaDriverNamespace inst w.store = (none, s₁))
    (hca : r.pkg.handleCACertConfigMap inst s₁ = (none, s₂))
    (hcr : r.pkg.handleCredentialsRequest inst s₂ = (none, s₃))
    (hcloud : (getCloudFromSecret r
      { store := s₃, trace := w.trace ++ firstHandlerCalls }).1 = (cloud, none))
    (hsecret : r.pkg.createDriverCredentialsSecret inst cloud s₃ = (none, s₅))
    (herr : (getManilaShareTypes r cloud
      { store := s₅
        trace := w.trace ++ credentialCalls r
          ++ [Call.enter Fn.createDriverCredentialsSecret] }).1.2 = some e) :
    reconcileActive r inst w =
      (({}, if isErrDefault404 e then none else some e),
       (getManilaShareTypes r cloud
         { store := s₅
           trace := w.trace ++ credentialCalls r
             ++ [Call.enter Fn.createDriverCredentialsSecret] }).2) := by
  rw [reconcileActive_to_secret r inst w s₁ s₂ s₃ hns hca hcr]
  have hw := getCloudFromSecret_world r { store := s₃, trace := w.trace ++ firstHandlerCalls }
  have hpair : getCloudFromSecret r { store := s₃, trace := w.trace ++ firstHandlerCalls }
      = ((cloud, none), { store := s₃, trace := w.trace ++ credentialCalls r }) := by
    refine Prod.ext hcloud ?_
    rw [hw]
    simp [credentialCalls, firstHandlerCalls]
  simp only [firstHandlerCalls] at hpair
  rw [hpair]
  simp only [World.call, hsecret]
  generalize hg : getManilaShareTypes r cloud
    { store := s₅
      trace := w.trace ++ credentialCalls r
        ++ [Call.enter Fn.createDriverCredentialsSecret] } = g at herr
  obtain ⟨⟨sts, oe⟩, w₆⟩ := g
  simp only at herr
  subst herr
  by_cases h404 : isErrDefault404 e = true
  · simp [h404]
  · simp only [Bool.not_eq_true] at h404
    simp [h404]

/-- C9. In an Active pass whose handlers up to createDriverCredentialsSecret
succeed and in which getManilaShareTypes fails with an error `e`: if `e` is a
gophercloud.ErrDefault404, Reconcile returns an empty result and a nil error;
for every other `e` it returns exactly `e` with an empty result; and in both
cases Reconcile ends in the world getManilaShareTypes leaves, so after the
call of createDriverCredentialsSecret the trace holds only calls of the
inventory lookup: neither handleManilaStorageClasses nor handleManilariverDeployment
or any of its handlers is entered. -/
theorem Reconcile_feature_absence (r : ReconcileManilaDriver σ) (request : Request)
    (inst : Object) (w : World σ) (s₁ s₂ s₃ s₅ : σ) (cloud : Cloud)
    (hactive : ActivePass r request inst w)
    (hns : r.pkg.handleManilaDriverNamespace (activeInstance inst)
      (activeStart r request inst w).store = (none, s₁))
    (hca : r.pkg.handleCACertConfigMap (activeInstance inst) s₁ = (none, s₂))
    (hcr : r.pkg.handleCredentialsRequest (activeInstance inst) s₂ = (none, s₃))
    (hcloud : (getCloudFromSecret r
      { store := s₃
        trace := (activeStart r request inst w).trace ++ firstHandlerCalls }).1 = (cloud, none))
    (hsecret : r.pkg.createDriverCredentialsSecret (activeInstance inst) cloud s₃ = (none, s₅))
    (e : Error)
    (herr : (getManilaShareTypes r cloud
      { store := s₅
        trace := (activeStart r request inst w).trace ++ credentialCalls r
          ++ [Call.enter Fn.createDriverCredentialsSecret] }).1.2 = some e) :
    (isErrDefault404 e = true → (Reconcile r request w).1 = ({}, none))
    ∧ (isErrDefault404 e = false → (Reconcile r request w).1 = ({}, some e))
    ∧ (Reconcile r request w).2
        = (getManilaShareTypes r cloud
            { store := s₅
              trace := (activeStart r request inst w).trace ++ credentialCalls r
                ++ [Call.enter Fn.createDriverCredentialsSecret] }).2
    ∧ ∃ gate, (Reconcile r request w).2.trace
        = (activeStart r request inst w).trace ++ credentialCalls r
            ++ [Call.enter Fn.createDriverCredentialsSecret] ++ gate
      ∧ ∀ c ∈ gate, c ∈ gateCalls := by
  rw [Reconcile_active r request inst w hactive,
    reconcileActive_gate_error r _ _ s₁ s₂ s₃ s₅ cloud e hns hca hcr hcloud hsecret herr]
  refine ⟨?_, ?_, rfl, ?_⟩
  · intro h404
    simp [h404]
  · intro h404
    simp [h404]
  · have hmem := getManilaShareTypes_trace r cloud
      { store := s₅
        trace := (activeStart r request inst w).trace ++ credentialCalls r
          ++ [Call.enter Fn.createDriverCredentialsSecret] }
    simp only [List.mem_cons, List.mem_singleton, List.not_mem_nil, or_false] at hmem
    rcases hmem with h | h | h | h
    all_goals
      refine ⟨_, h, ?_⟩
      simp [gateCalls]

end FeatureAbsence

theorem Reconcile_deferred_availability_witness :
    Reconcile memReconciler (requestFor "cluster") (worldOf [driverNamed "cluster"])
      = (({ RequeueAfter := 10 }, none),
         { store := { objects :=
             [controllerutil.AddFinalizer (driverNamed "cluster") manilaDriverFinalizer] }
           trace := [Call.enter Fn.Reconcile, Call.list Kind.ManilaDriver,
             Call.get Kind.ManilaDriver { Name := "cluster" }, Call.enter Fn.addFinalizer,
             Call.update
               (controllerutil.AddFinalizer (driverNamed "cluster") manilaDriverFinalizer),
             Call.enter Fn.handleManilaDriverNamespace, Call.enter Fn.handleCACertConfigMap,
             Call.enter Fn.handleCredentialsRequest, Call.enter Fn.getCloudFromSecret,
             Call.get Kind.Secret { Namespace := "openshift-manila-csi-driver"
                                    Name := "installer-cloud-credentials" }] }) :=
  (Reconcile_deferred_availability memReconciler (requestFor "cluster")
    (driverNamed "cluster") (worldOf [driverNamed "cluster"]) _ _ _
    ⟨⟨[driverNamed "cluster"], rfl, by decide⟩, rfl, rfl, rfl, Or.inr rfl⟩ rfl rfl rfl).1
    notFoundError rfl rfl

theorem Reconcile_feature_absence_witness :
    (Reconcile noManilaReconciler (requestFor "cluster")
        (worldOf [driverNamed "cluster", installerSecret])).1 = ({}, none)
    ∧ (Reconcile brokenCloudReconciler (requestFor "cluster")
        (worldOf [driverNamed "cluster", installerSecret])).1
        = ({}, some (Error.other "timeout")) :=
  ⟨(Reconcile_feature_absence noManilaReconciler (requestFor "cluster")
      (driverNamed "cluster") (worldOf [driverNamed "cluster", installerSecret]) _ _ _ _ _
      ⟨⟨[driverNamed "cluster"], rfl, by decide⟩, rfl, rfl, rfl, Or.inr rfl⟩ rfl rfl rfl rfl rfl
      (Error.errDefault404 "no manila endpoint") rfl).1 rfl,
   (Reconcile_feature_absence brokenCloudReconciler (requestFor "cluster")
      (driverNamed "cluster") (worldOf [driverNamed "cluster", installerSecret]) _ _ _ _ _
      ⟨⟨[driverNamed "cluster"], rfl, by decide⟩, rfl, rfl, rfl, Or.inr rfl⟩ rfl rfl rfl rfl rfl
      (Error.other "timeout") rfl).2.1 rfl⟩

section Finalize

variable {σ : Type}

/-- The method finalizeManilaDriver runs its eleven steps in order. -/
theorem finalizeManilaDriver_eq_runDeletes (r : ReconcileManilaDriver σ) (inst : Object)
    (w : World σ) :
    finalizeManilaDriver r inst w
      = runDeletes r finalizeSteps (w.enter Fn.finalizeManilaDriver) := rfl

theorem deletesEntered_append (a b : List Call) :
    deletesEntered (a ++ b) = deletesEntered a ++ deletesEntered b := by
  simp [deletesEntered, List.filterMap_append]

/-- A delete step adds its own entry to the trace and enters no other delete step. -/
theorem runDelete_trace (r : ReconcileManilaDriver σ) (f : Fn) (hf : f ∈ finalizeSteps)
    (w : World σ) :
    ∃ new, (runDelete r f w).2.trace = w.trace ++ new ∧ deletesEntered new = [f] := by
  simp only [finalizeSteps, List.mem_cons, List.mem_singleton, List.not_mem_nil,
    or_false] at hf
  rcases hf with rfl | rfl | rfl | rfl | rfl | rfl | rfl | rfl | rfl | rfl | rfl
  case inr.inr.inr.inr.inr.inl =>
    refine ⟨[Call.enter Fn.deleteManilaControllerPluginClusterRole,
      Call.delete generateManilaControllerPluginClusterRole], ?_, by decide⟩
    simp only [runDelete, deleteManilaControllerPluginClusterRole, clientDelete, World.enter]
    cases (r.client.Delete generateManilaControllerPluginClusterRole w.store).1 <;> simp
  case inr.inr.inr.inr.inr.inr.inr.inr.inl =>
    refine ⟨[Call.enter Fn.deleteManilaControllerPluginClusterRoleBinding,
      Call.delete generateManilaControllerPluginClusterRoleBinding], ?_, by decide⟩
    simp only [runDelete, deleteManilaControllerPluginClusterRoleBinding, clientDelete,
      World.enter]
    cases (r.client.Delete generateManilaControllerPluginClusterRoleBinding w.store).1 <;> simp
  all_goals exact ⟨[Call.enter _], rfl, by decide⟩

/-- A run of a list of delete steps whose outcomes all let it go on: it returns
nil and has entered every step, in order. -/
theorem runDeletes_all_tolerated (r : ReconcileManilaDriver σ) (out : Fn → Option Error) :
    ∀ (fs : List Fn) (w : World σ), (∀ f ∈ fs, f ∈ finalizeSteps) → Yields r out fs w →
      (∀ f ∈ fs, notNilNorNotFound (out f) = false) →
      (runDeletes r fs w).1 = none
        ∧ ∃ new, (runDeletes r fs w).2.trace = w.trace ++ new ∧ deletesEntered new = fs := by
  intro fs
  induction fs with
  | nil =>
    intro w _ _ _
    exact ⟨rfl, [], by simp [runDeletes], rfl⟩
  | cons f fs ih =>
    intro w hsub hy hok
    obtain ⟨hout, hrest⟩ := hy
    have hf : notNilNorNotFound (out f) = false := hok f (List.mem_cons_self _ _)
    obtain ⟨new₁, ht₁, hd₁⟩ := runDelete_trace r f (hsub f (List.mem_cons_self _ _)) w
    obtain ⟨hnil, new₂, ht₂, hd₂⟩ := ih (runDelete r f w).2
      (fun g hg => hsub g (List.mem_cons_of_mem _ hg)) (hrest hf)
      (fun g hg => hok g (List.mem_cons_of_mem _ hg))
    have hstep : runDeletes r (f :: fs) w = runDeletes r fs (runDelete r f w).2 := by
      simp only [runDeletes]
      rw [hout, hf]
      simp
    rw [hstep]
    refine ⟨hnil, new₁ ++ new₂, ?_, ?_⟩
    · rw [ht₂, ht₁, List.append_assoc]
    · rw [deletesEntered_append, hd₁, hd₂]
      rfl

/-- A run of a list of delete steps stops at the first outcome that is an error
other than not-found: it returns that error and has entered the steps up to
that one only. -/
theorem runDeletes_first_error (r : ReconcileManilaDriver σ) (out : Fn → Option Error) :
    ∀ (pre : List Fn) (f : Fn) (post : List Fn) (w : World σ),
      (∀ g ∈ pre ++ f :: post, g ∈ finalizeSteps) → Yields r out (pre ++ f :: post) w →
      (∀ g ∈ pre, notNilNorNotFound (out g) = false) → notNilNorNotFound (out f) = true →
      (runDeletes r (pre ++ f :: post) w).1 = out f
        ∧ ∃ new, (runDeletes r (pre ++ f :: post) w).2.trace = w.trace ++ new
            ∧ deletesEntered new = pre ++ [f] := by
  intro pre
  induction pre with
  | nil =>
    intro f post w hsub hy _ hbad
    obtain ⟨hout, -⟩ := hy
    obtain ⟨new₁, ht₁, hd₁⟩ := runDelete_trace r f (hsub f (List.mem_cons_self _ _)) w
    have hstep : runDeletes r ([] ++ f :: post) w = (out f, (runDelete r f w).2) := by
      simp only [List.nil_append, runDeletes]
      rw [hout, hbad]
      simp
    rw [hstep]
    exact ⟨rfl, new₁, ht₁, hd₁⟩
  | cons g pre ih =>
    intro f post w hsub hy hok hbad
    obtain ⟨hout, hrest⟩ := hy
    have hg : notNilNorNotFound (out g) = false := hok g (List.mem_cons_self _ _)
    obtain ⟨new₁, ht₁, hd₁⟩ := runDelete_trace r g (hsub g (List.mem_cons_self _ _)) w
    obtain ⟨hres, new₂, ht₂, hd₂⟩ := ih f post (runDelete r g w).2
      (fun x hx => hsub x (List.mem_cons_of_mem _ hx)) (hrest hg)
      (fun x hx => hok x (List.mem_cons_of_mem _ hx)) hbad
    have hstep : runDeletes r (g :: pre ++ f :: post) w
        = runDeletes r (pre ++ f :: post) (runDelete r g w).2 := by
      simp only [List.cons_append, runDeletes]
      rw [hout, hg]
      simp
    rw [hstep]
    refine ⟨hres, new₁ ++ new₂, ?_, ?_⟩
    · rw [ht₂, ht₁, List.append_assoc]
    · rw [deletesEntered_append, hd₁, hd₂]
      rfl

/-- A run of a list of delete steps returns nil exactly when no outcome is an
error other than not-found. -/
theorem runDeletes_nil_iff (r : ReconcileManilaDriver σ) (out : Fn → Option Error) :
    ∀ (fs : List Fn) (w : World σ), Yields r out fs w →
      ((runDeletes r fs w).1 = none ↔ ∀ f ∈ fs, notNilNorNotFound (out f) = false) := by
  intro fs
  induction fs with
  | nil => intro w _; simp [runDeletes]
  | cons f fs ih =>
    intro w hy
    obtain ⟨hout, hrest⟩ := hy
    cases hf : notNilNorNotFound (out f) with
    | true =>
      have hstep : runDeletes r (f :: fs) w = (out f, (runDelete r f w).2) := by
        simp only [runDeletes]
        rw [hout, hf]
        simp
      rw [hstep]
      constructor
      · intro hnone
        simp only at hnone
        rw [hnone] at hf
        simp [notNilNorNotFound] at hf
      · intro hall
        have := hall f (List.mem_cons_self _ _)
        rw [hf] at this
        exact absurd this (by decide)
    | false =>
      have hstep : runDeletes r (f :: fs) w = runDeletes r fs (runDelete r f w).2 := by
        simp only [runDeletes]
        rw [hout, hf]
        simp
      rw [hstep, ih _ (hrest hf)]
      simp [hf]

end Finalize

section FinalizeClaim

variable {σ : Type}

/-- C10. Let `out` assign to each of the eleven delete steps of
finalizeManilaDriver the outcome it yields when the run reaches it (nil, a
not-found error, or another error).  Then finalizeManilaDriver returns nil if
and only if no step yields an error other than not-found; if some step does, it
returns exactly the outcome of the first such step and the delete steps it has
entered are those up to that one, none after it; when every step reports
not-found it returns nil after entering all eleven; and a run in which every
step succeeds followed by a run in which every step reports not-found both
return nil. -/
theorem finalizeManilaDriver_tolerates_not_found (r : ReconcileManilaDriver σ)
    (inst : Object) (w : World σ) (out : Fn → Option Error)
    (hy : Yields r out finalizeSteps (w.enter Fn.finalizeManilaDriver)) :
    ((finalizeManilaDriver r inst w).1 = none
      ↔ ∀ f ∈ finalizeSteps, notNilNorNotFound (out f) = false)
    ∧ (∀ pre f post, finalizeSteps = pre ++ f :: post →
      (∀ g ∈ pre, notNilNorNotFound (out g) = false) → notNilNorNotFound (out f) = true →
      (finalizeManilaDriver r inst w).1 = out f
        ∧ ∃ new, (finalizeManilaDriver r inst w).2.trace
              = w.trace ++ Call.enter Fn.finalizeManilaDriver :: new
            ∧ deletesEntered new = pre ++ [f])
    ∧ ((∀ f ∈ finalizeSteps, ∃ e, out f = some e ∧ errors.IsNotFound e = true) →
      (finalizeManilaDriver r inst w).1 = none
        ∧ ∃ new, (finalizeManilaDriver r inst w).2.trace
              = w.trace ++ Call.enter Fn.finalizeManilaDriver :: new
            ∧ deletesEntered new = finalizeSteps)
    ∧ (∀ out₂, (∀ f ∈ finalizeSteps, out f = none) →
      Yields r out₂ finalizeSteps
        ((finalizeManilaDriver r inst w).2.enter Fn.finalizeManilaDriver) →
      (∀ f ∈ finalizeSteps, ∃ e, out₂ f = some e ∧ errors.IsNotFound e = true) →
      (finalizeManilaDriver r inst w).1 = none
        ∧ (finalizeManilaDriver r inst (finalizeManilaDriver r inst w).2).1 = none) := by
  have hnf : ∀ (o : Fn → Option Error),
      (∀ f ∈ finalizeSteps, ∃ e, o f = some e ∧ errors.IsNotFound e = true) →
      ∀ f ∈ finalizeSteps, notNilNorNotFound (o f) = false := by
    intro o h f hf
    obtain ⟨e, he, hn⟩ := h f hf
    simp [he, notNilNorNotFound, hn]
  refine ⟨?_, ?_, ?_, ?_⟩
  · rw [finalizeManilaDriver_eq_runDeletes]
    exact runDeletes_nil_iff r out finalizeSteps _ hy
  · intro pre f post hsplit hok hbad
    rw [finalizeManilaDriver_eq_runDeletes]
    have hsub : ∀ g ∈ pre ++ f :: post, g ∈ finalizeSteps := by
      intro g hg
      rw [hsplit]
      exact hg
    rw [hsplit] at hy ⊢
    obtain ⟨hres, new, ht, hd⟩ := runDeletes_first_error r out pre f post _ hsub hy hok hbad
    refine ⟨hres, new, ?_, hd⟩
    rw [ht]
    simp [World.enter]
  · intro hall
    rw [finalizeManilaDriver_eq_runDeletes]
    obtain ⟨hres, new, ht, hd⟩ := runDeletes_all_tolerated r out finalizeSteps _
      (fun f hf => hf) hy (hnf out hall)
    refine ⟨hres, new, ?_, hd⟩
    rw [ht]
    simp [World.enter]
  · intro out₂ hall₁ hy₂ hall₂
    constructor
    · rw [finalizeManilaDriver_eq_runDeletes]
      refine (runDeletes_nil_iff r out finalizeSteps _ hy).2 ?_
      intro f hf
      simp [hall₁ f hf, notNilNorNotFound]
    · rw [finalizeManilaDriver_eq_runDeletes r inst (finalizeManilaDriver r inst w).2]
      exact (runDeletes_nil_iff r out₂ finalizeSteps _ hy₂).2 (hnf out₂ hall₂)

end FinalizeClaim

theorem finalizeManilaDriver_tolerates_not_found_witness :
    (finalizeManilaDriver goneReconciler (driverNamed "cluster") (worldOf [])).1 = none
    ∧ (finalizeManilaDriver refusingReconciler (driverNamed "cluster") (worldOf [])).1
        = some (Error.other "refused") :=
  ⟨((finalizeManilaDriver_tolerates_not_found goneReconciler (driverNamed "cluster")
      (worldOf []) (fun _ => some notFoundError)
      (by repeat (first | exact trivial | refine ⟨rfl, fun _ => ?_⟩))).2.2.1
      (fun _ _ => ⟨notFoundError, rfl, rfl⟩)).1,
   ((finalizeManilaDriver_tolerates_not_found refusingReconciler (driverNamed "cluster")
      (worldOf []) refusedOutcomes
      (by repeat (first | exact trivial | refine ⟨rfl, fun _ => ?_⟩))).2.1
      [Fn.deleteManilaDriverNamespace, Fn.deleteManilaStorageClasses,
        Fn.deleteCredentialsRequest, Fn.deleteSecurityContextConstraints, Fn.deleteCSIDriver]
      Fn.deleteManilaControllerPluginClusterRole
      [Fn.deleteManilaNodePluginClusterRole, Fn.deleteNFSNodePluginClusterRole,
        Fn.deleteManilaControllerPluginClusterRoleBinding,
        Fn.deleteManilaNodePluginClusterRoleBinding, Fn.deleteNFSNodePluginClusterRoleBinding]
      rfl (by decide) rfl).1⟩

section Json

/-- The verdict of a compound value is a full match only if both parts are. -/
theorem Difference.result_eq_fullMatch (d₁ d₂ : Difference) :
    d₁.result d₂ = Difference.FullMatch
      ↔ d₁ = Difference.FullMatch ∧ d₂ = Difference.FullMatch := by
  cases d₁ <;> cases d₂ <;> simp [Difference.result]

theorem lookupField_of_mem (k : String) (v : JSON) :
    ∀ (fb : List (String × JSON)), (JSON.keys fb).Nodup → (k, v) ∈ fb →
      lookupField k fb = some v := by
  intro fb
  induction fb with
  | nil => intro _ h; simp at h
  | cons p rest ih =>
    obtain ⟨k', v'⟩ := p
    intro hnd hmem
    simp only [JSON.keys, List.map_cons, List.nodup_cons] at hnd
    simp only [List.mem_cons, Prod.mk.injEq] at hmem
    rcases hmem with ⟨rfl, rfl⟩ | hmem
    · simp [lookupField]
    · have hne : k' ≠ k := by
        rintro rfl
        exact hnd.1 (List.mem_map_of_mem Prod.fst hmem)
      simp only [lookupField, hne, if_false]
      exact ih hnd.2 hmem

theorem lookupField_none_of_not_mem (k : String) :
    ∀ (fb : List (String × JSON)), k ∉ JSON.keys fb → lookupField k fb = none := by
  intro fb
  induction fb with
  | nil => intro _; rfl
  | cons p rest ih =>
    obtain ⟨k', v'⟩ := p
    intro h
    simp only [JSON.keys, List.map_cons, List.mem_cons, not_or] at h
    have hne : k' ≠ k := fun h' => h.1 h'.symm
    simp only [lookupField, hne, if_false]
    exact ih h.2

theorem wfFields_mem (k : String) (v : JSON) :
    ∀ (fb : List (String × JSON)), wfFields fb = true → (k, v) ∈ fb → v.wf = true := by
  intro fb
  induction fb with
  | nil => intro _ h; simp at h
  | cons p rest ih =>
    obtain ⟨k', v'⟩ := p
    intro hwf hmem
    simp only [wfFields, Bool.and_eq_true] at hwf
    simp only [List.mem_cons, Prod.mk.injEq] at hmem
    rcases hmem with ⟨rfl, rfl⟩ | hmem
    · exact hwf.1
    · exact ih hwf.2 hmem

/-- Reordered field lists have the same keys. -/
theorem ReorderedFields_keys :
    ∀ (fa fb : List (String × JSON)), ReorderedFields fa fb →
      ∀ k, k ∈ JSON.keys fb ↔ k ∈ JSON.keys fa := by
  intro fa
  induction fa with
  | nil =>
    intro fb h k
    simp only [ReorderedFields] at h
    simp [h]
  | cons p rest ih =>
    obtain ⟨k₀, v₀⟩ := p
    intro fb h k
    simp only [ReorderedFields] at h
    obtain ⟨pre, v', post, rfl, -, hrest⟩ := h
    have := ih (pre ++ post) hrest k
    simp only [JSON.keys, List.map_append, List.map_cons, List.mem_append, List.mem_cons,
      List.mem_map] at this ⊢
    constructor
    · rintro (h | h | h)
      · exact Or.inr (this.1 (Or.inl h))
      · exact Or.inl h
      · exact Or.inr (this.1 (Or.inr h))
    · rintro (h | h)
      · exact Or.inr (Or.inl h)
      · rcases this.2 h with h | h
        · exact Or.inl h
        · exact Or.inr (Or.inr h)

mutual
/-- A value compared with a reordering of itself is a full match. -/
theorem printDiff_of_reordered :
    ∀ (a b : JSON), Reordered a b → b.wf = true → printDiff a b = Difference.FullMatch
  | JSON.null, b, h, _ => by
    simp only [Reordered] at h
    subst h
    simp [printDiff]
  | JSON.bool x, b, h, _ => by
    simp only [Reordered] at h
    subst h
    simp [printDiff]
  | JSON.num n, b, h, _ => by
    simp only [Reordered] at h
    subst h
    simp [printDiff]
  | JSON.str s, b, h, _ => by
    simp only [Reordered] at h
    subst h
    simp [printDiff]
  | JSON.arr xs, b, h, hw => by
    simp only [Reordered] at h
    obtain ⟨ys, rfl, hel⟩ := h
    simp only [JSON.wf] at hw
    simp only [printDiff]
    exact printDiffSlice_of_reordered xs ys hel hw
  | JSON.obj fa, b, h, hw => by
    simp only [Reordered] at h
    obtain ⟨fb, rfl, hf⟩ := h
    simp only [JSON.wf, Bool.and_eq_true, decide_eq_true_eq] at hw
    simp only [printDiff]
    rw [Difference.result_eq_fullMatch]
    constructor
    · exact printDiffMap_of_reordered fa fb fb hf hw.1 (fun _ hp => hp) hw.1 hw.2
    · have hkeys := ReorderedFields_keys fa fb hf
      have : (JSON.keys fb).all (fun k => (JSON.keys fa).contains k) = true := by
        simp only [List.all_eq_true, List.contains_iff_exists_mem_beq, beq_iff_eq]
        intro k hk
        exact ⟨k, (hkeys k).1 hk, rfl⟩
      rw [this]
      rfl
theorem printDiffSlice_of_reordered :
    ∀ (xs ys : List JSON), ReorderedElems xs ys → wfElems ys = true →
      printDiffSlice xs ys = Difference.FullMatch
  | [], ys, h, _ => by
    simp only [ReorderedElems] at h
    subst h
    simp [printDiffSlice]
  | x :: xs, ys, h, hw => by
    simp only [ReorderedElems] at h
    obtain ⟨y, ys', rfl, hxy, hrest⟩ := h
    simp only [wfElems, Bool.and_eq_true] at hw
    simp only [printDiffSlice]
    rw [Difference.result_eq_fullMatch]
    exact ⟨printDiff_of_reordered x y hxy hw.1, printDiffSlice_of_reordered xs ys' hrest hw.2⟩
theorem printDiffMap_of_reordered :
    ∀ (fa sub fb : List (String × JSON)), ReorderedFields fa sub → (JSON.keys sub).Nodup →
      (∀ p ∈ sub, p ∈ fb) → (JSON.keys fb).Nodup → wfFields fb = true →
      printDiffMap fa fb = Difference.FullMatch
  | [], _, _, _, _, _, _, _ => by simp [printDiffMap]
  | (k, v) :: rest, sub, fb, h, hnd, hsub, hndb, hwf => by
    simp only [ReorderedFields] at h
    obtain ⟨pre, v', post, rfl, hv, hrest⟩ := h
    have hmem : (k, v') ∈ fb := hsub (k, v') (by simp)
    have hlook := lookupField_of_mem k v' fb hndb hmem
    have hnd' : (JSON.keys (pre ++ post)).Nodup := by
      simp only [JSON.keys, List.map_append, List.map_cons] at hnd ⊢
      exact (List.nodup_cons.1 (List.nodup_middle.1 hnd)).2
    simp only [printDiffMap, hlook]
    rw [Difference.result_eq_fullMatch]
    refine ⟨printDiff_of_reordered v v' hv (wfFields_mem k v' fb hwf hmem),
      printDiffMap_of_reordered rest (pre ++ post) fb hrest hnd' ?_ hndb hwf⟩
    intro p hp
    apply hsub
    simp only [List.mem_append, List.mem_cons] at hp ⊢
    rcases hp with hp | hp
    · exact Or.inl hp
    · exact Or.inr (Or.inr hp)
end

mutual
/-- Every value is a reordering of itself. -/
theorem Reordered_refl : ∀ (a : JSON), Reordered a a
  | JSON.null => by simp [Reordered]
  | JSON.bool _ => by simp [Reordered]
  | JSON.num _ => by simp [Reordered]
  | JSON.str _ => by simp [Reordered]
  | JSON.arr xs => by
    simp only [Reordered]
    exact ⟨xs, rfl, ReorderedElems_refl xs⟩
  | JSON.obj fa => by
    simp only [Reordered]
    exact ⟨fa, rfl, ReorderedFields_refl fa⟩
theorem ReorderedElems_refl : ∀ (xs : List JSON), ReorderedElems xs xs
  | [] => by simp [ReorderedElems]
  | x :: xs => by
    simp only [ReorderedElems]
    exact ⟨x, xs, rfl, Reordered_refl x, ReorderedElems_refl xs⟩
theorem ReorderedFields_refl : ∀ (fa : List (String × JSON)), ReorderedFields fa fa
  | [] => by simp [ReorderedFields]
  | (k, v) :: rest => by
    simp only [ReorderedFields]
    exact ⟨[], v, rest, rfl, Reordered_refl v, ReorderedFields_refl rest⟩
end

/-- A well-formed value compared with itself is a full match. -/
theorem printDiff_self (a : JSON) (hw : a.wf = true) : printDiff a a = Difference.FullMatch :=
  printDiff_of_reordered a a (Reordered_refl a) hw

end Json

section JsonDecode

theorem insertField_nodup (k : String) (v : JSON) (fs : List (String × JSON))
    (h : (JSON.keys fs).Nodup) : (JSON.keys (insertField k v fs)).Nodup := by
  unfold insertField
  split
  · exact h
  · rename_i hk
    simp only [JSON.keys, List.map_cons, List.nodup_cons]
    exact ⟨hk, h⟩

theorem insertField_wf (k : String) (v : JSON) (fs : List (String × JSON))
    (hv : v.wf = true) (h : wfFields fs = true) : wfFields (insertField k v fs) = true := by
  unfold insertField
  split
  · exact h
  · simp [wfFields, hv, h]

/-- What the three readers return is well formed. -/
theorem parse_wf : ∀ (fuel : Nat),
    (∀ ts v rest, parseValue fuel ts = some (v, rest) → v.wf = true)
    ∧ (∀ ts vs rest, parseElems fuel ts = some (vs, rest) → wfElems vs = true)
    ∧ (∀ ts fs rest, parseFields fuel ts = some (fs, rest) →
        (JSON.keys fs).Nodup ∧ wfFields fs = true) := by
  intro fuel
  induction fuel with
  | zero =>
    refine ⟨?_, ?_, ?_⟩ <;> intro ts x rest h
    · simp [parseValue] at h
    · simp [parseElems] at h
    · simp [parseFields] at h
  | succ fuel ih =>
    obtain ⟨ihv, ihe, ihf⟩ := ih
    have harr : ∀ ts v rest, parseValue (fuel + 1) (Token.lbrack :: ts) = some (v, rest) →
        v.wf = true := by
      intro ts v rest h
      rcases ts with _ | ⟨t, ts⟩
      · simp only [parseValue] at h
        split at h
        · rename_i vs ts' heq
          simp only [Option.some.injEq, Prod.mk.injEq] at h
          obtain ⟨rfl, -⟩ := h
          simp only [JSON.wf]
          exact ihe _ _ _ heq
        · simp at h
      · cases t
        case rbrack =>
          simp only [parseValue, Option.some.injEq, Prod.mk.injEq] at h
          obtain ⟨rfl, -⟩ := h
          simp [JSON.wf, wfElems]
        all_goals
          simp only [parseValue] at h
          split at h
          · rename_i vs ts' heq
            simp only [Option.some.injEq, Prod.mk.injEq] at h
            obtain ⟨rfl, -⟩ := h
            simp only [JSON.wf]
            exact ihe _ _ _ heq
          · simp at h
    have hobj : ∀ ts v rest, parseValue (fuel + 1) (Token.lbrace :: ts) = some (v, rest) →
        v.wf = true := by
      intro ts v rest h
      rcases ts with _ | ⟨t, ts⟩
      · simp only [parseValue] at h
        split at h
        · rename_i fs ts' heq
          simp only [Option.some.injEq, Prod.mk.injEq] at h
          obtain ⟨rfl, -⟩ := h
          simp only [JSON.wf, Bool.and_eq_true, decide_eq_true_eq]
          exact ihf _ _ _ heq
        · simp at h
      · cases t
        case rbrace =>
          simp only [parseValue, Option.some.injEq, Prod.mk.injEq] at h
          obtain ⟨rfl, -⟩ := h
          simp [JSON.wf, wfFields, JSON.keys]
        all_goals
          simp only [parseValue] at h
          split at h
          · rename_i fs ts' heq
            simp only [Option.some.injEq, Prod.mk.injEq] at h
            obtain ⟨rfl, -⟩ := h
            simp only [JSON.wf, Bool.and_eq_true, decide_eq_true_eq]
            exact ihf _ _ _ heq
          · simp at h
    refine ⟨?_, ?_, ?_⟩
    · intro ts v rest h
      rcases ts with _ | ⟨t, ts⟩
      · simp [parseValue] at h
      · cases t
        case lbrack => exact harr _ _ _ h
        case lbrace => exact hobj _ _ _ h
        all_goals
          simp only [parseValue, Option.some.injEq, Prod.mk.injEq] at h
          first
            | (cases h; done)
            | (obtain ⟨rfl, -⟩ := h; simp [JSON.wf])
    · intro ts vs rest h
      simp only [parseElems] at h
      split at h
      · rename_i v ts' heq
        split at h
        · rename_i vs' ts'' heq'
          simp only [Option.some.injEq, Prod.mk.injEq] at h
          obtain ⟨rfl, -⟩ := h
          simp only [wfElems, Bool.and_eq_true]
          exact ⟨ihv _ _ _ heq, ihe _ _ _ heq'⟩
        · simp at h
      · rename_i v ts' heq
        simp only [Option.some.injEq, Prod.mk.injEq] at h
        obtain ⟨rfl, -⟩ := h
        simp only [wfElems, Bool.and_eq_true, and_true]
        exact ihv _ _ _ heq
      · simp at h
    · intro ts fs rest h
      rcases ts with _ | ⟨t, ts⟩
      · simp [parseFields] at h
      · rcases ts with _ | ⟨t2, ts⟩
        · cases t <;> simp [parseFields] at h
        · cases t <;> cases t2 <;> simp only [parseFields] at h <;> try contradiction
          split at h
          · rename_i v ts' heq
            split at h
            · rename_i fs' ts'' heq'
              simp only [Option.some.injEq, Prod.mk.injEq] at h
              obtain ⟨rfl, -⟩ := h
              have := ihf _ _ _ heq'
              exact ⟨insertField_nodup _ _ _ this.1,
                insertField_wf _ _ _ (ihv _ _ _ heq) this.2⟩
            · simp at h
          · rename_i v ts' heq
            simp only [Option.some.injEq, Prod.mk.injEq] at h
            obtain ⟨rfl, -⟩ := h
            simp only [JSON.keys, List.map_cons, List.map_nil, List.nodup_cons,
              List.not_mem_nil, not_false_eq_true, List.nodup_nil, and_self, wfFields,
              Bool.and_eq_true, and_true, true_and]
            exact ihv _ _ _ heq
          · simp at h

/-- A decoded value is well formed. -/
theorem decode_wf (a : Bytes) (v : JSON) (h : decode a = some v) : v.wf = true := by
  unfold decode at h
  split at h
  · rename_i v' rest heq
    simp only [Option.some.injEq] at h
    subst h
    exact (parse_wf _).1 _ _ _ heq
  · simp at h

/-- Texts that differ only in whitespace tokens decode alike. -/
theorem decode_congr (a a' : Bytes) (h : stripWs a = stripWs a') : decode a = decode a' := by
  unfold decode
  rw [h]

end JsonDecode

section Structural

theorem lookupField_middle (k : String) (v' : JSON) (post : List (String × JSON)) :
    ∀ (pre : List (String × JSON)), k ∉ JSON.keys pre →
      lookupField k (pre ++ (k, v') :: post) = some v' := by
  intro pre
  induction pre with
  | nil => intro _; simp [lookupField]
  | cons p rest ih =>
    obtain ⟨k', v₀⟩ := p
    intro h
    simp only [JSON.keys, List.map_cons, List.mem_cons, not_or] at h
    have hne : k' ≠ k := fun h' => h.1 h'.symm
    simp only [List.cons_append, lookupField, hne, if_false]
    exact ih h.2

theorem printDiffMap_ne (k : String) (v v' : JSON) (post mb : List (String × JSON))
    (hlook : lookupField k mb = some v') (hne : printDiff v v' ≠ Difference.FullMatch) :
    ∀ (pre : List (String × JSON)),
      printDiffMap (pre ++ (k, v) :: post) mb ≠ Difference.FullMatch := by
  intro pre
  induction pre with
  | nil =>
    intro h
    simp only [List.nil_append, printDiffMap, hlook] at h
    exact hne ((Difference.result_eq_fullMatch _ _).1 h).1
  | cons p rest ih =>
    obtain ⟨k₀, v₀⟩ := p
    intro h
    simp only [List.cons_append, printDiffMap] at h
    split at h
    · exact ih ((Difference.result_eq_fullMatch _ _).1 h).2
    · exact ih ((Difference.result_eq_fullMatch _ _).1 h).2

theorem printDiffSlice_ne (v v' : JSON) (post : List JSON)
    (hne : printDiff v v' ≠ Difference.FullMatch) :
    ∀ (pre : List JSON),
      printDiffSlice (pre ++ v :: post) (pre ++ v' :: post) ≠ Difference.FullMatch := by
  intro pre
  induction pre with
  | nil =>
    intro h
    simp only [List.nil_append, printDiffSlice] at h
    exact hne ((Difference.result_eq_fullMatch _ _).1 h).1
  | cons p rest ih =>
    intro h
    simp only [List.cons_append, printDiffSlice] at h
    exact ih ((Difference.result_eq_fullMatch _ _).1 h).2

/-- Arrays that compare as a full match have the same length. -/
theorem printDiffSlice_length :
    ∀ (xs ys : List JSON), printDiffSlice xs ys = Difference.FullMatch →
      xs.length = ys.length := by
  intro xs
  induction xs with
  | nil =>
    intro ys h
    cases ys with
    | nil => rfl
    | cons y ys => simp [printDiffSlice] at h
  | cons x xs ih =>
    intro ys h
    cases ys with
    | nil => simp [printDiffSlice] at h
    | cons y ys =>
      simp only [printDiffSlice] at h
      simp [ih ys ((Difference.result_eq_fullMatch _ _).1 h).2]

theorem lookupField_isSome (k : String) :
    ∀ (fb : List (String × JSON)) (v : JSON), lookupField k fb = some v → k ∈ JSON.keys fb := by
  intro fb
  induction fb with
  | nil => intro v h; simp [lookupField] at h
  | cons p rest ih =>
    obtain ⟨k', v'⟩ := p
    intro v h
    simp only [lookupField] at h
    by_cases hk : k' = k
    · simp [JSON.keys, hk]
    · simp only [hk, if_false] at h
      simp only [JSON.keys, List.map_cons, List.mem_cons]
      exact Or.inr (ih v h)

/-- When the fields of the first object all match, each of its keys is a key of
the second. -/
theorem printDiffMap_keys :
    ∀ (fa fb : List (String × JSON)), printDiffMap fa fb = Difference.FullMatch →
      ∀ k ∈ JSON.keys fa, k ∈ JSON.keys fb := by
  intro fa
  induction fa with
  | nil => intro fb _ k hk; simp [JSON.keys] at hk
  | cons p rest ih =>
    obtain ⟨k₀, v₀⟩ := p
    intro fb h k hk
    simp only [printDiffMap] at h
    cases hl : lookupField k₀ fb with
    | none =>
      rw [hl] at h
      simp only [] at h
      have := ((Difference.result_eq_fullMatch _ _).1 h).1
      cases this
    | some vb =>
      rw [hl] at h
      simp only [] at h
      simp only [JSON.keys, List.map_cons, List.mem_cons] at hk
      rcases hk with rfl | hk
      · exact lookupField_isSome _ fb vb hl
      · exact ih fb ((Difference.result_eq_fullMatch _ _).1 h).2 k hk

/-- When two objects compare as a full match, each key of the second is a key
of the first. -/
theorem printDiff_obj_keys (fa fb : List (String × JSON))
    (h : printDiff (JSON.obj fa) (JSON.obj fb) = Difference.FullMatch) :
    printDiffMap fa fb = Difference.FullMatch
      ∧ ∀ k ∈ JSON.keys fb, k ∈ JSON.keys fa := by
  simp only [printDiff] at h
  obtain ⟨hmap, hkeys⟩ := (Difference.result_eq_fullMatch _ _).1 h
  refine ⟨hmap, ?_⟩
  by_cases hall : (JSON.keys fb).all (fun k => (JSON.keys fa).contains k) = true
  · intro k hk
    simp only [List.all_eq_true] at hall
    simpa using hall k hk
  · simp only [hall] at hkeys
    cases hkeys

theorem lookupField_split (k : String) (v : JSON) :
    ∀ (fb : List (String × JSON)), lookupField k fb = some v →
      ∃ pre post, fb = pre ++ (k, v) :: post ∧ k ∉ JSON.keys pre := by
  intro fb
  induction fb with
  | nil => intro h; simp [lookupField] at h
  | cons p rest ih =>
    obtain ⟨k', v'⟩ := p
    intro h
    simp only [lookupField] at h
    by_cases hk : k' = k
    · simp only [hk, if_true, Option.some.injEq] at h
      subst hk
      subst h
      exact ⟨[], rest, rfl, by simp [JSON.keys]⟩
    · simp only [hk, if_false] at h
      obtain ⟨pre, post, rfl, hpre⟩ := ih h
      refine ⟨(k', v') :: pre, post, rfl, ?_⟩
      simp only [JSON.keys, List.map_cons, List.mem_cons, not_or]
      exact ⟨fun h' => hk h'.symm, hpre⟩

theorem lookupField_remove (k k' : String) (v : JSON) (post : List (String × JSON))
    (hne : k' ≠ k) :
    ∀ (pre : List (String × JSON)),
      lookupField k' (pre ++ (k, v) :: post) = lookupField k' (pre ++ post) := by
  intro pre
  induction pre with
  | nil =>
    have : ¬ k = k' := fun h => hne h.symm
    simp [lookupField, this]
  | cons p rest ih =>
    obtain ⟨k₀, v₀⟩ := p
    show lookupField k' ((k₀, v₀) :: (rest ++ (k, v) :: post))
      = lookupField k' ((k₀, v₀) :: (rest ++ post))
    simp only [lookupField, ih]

/-- The verdict on the fields of the first object depends on the second only
through the values under the keys of the first. -/
theorem printDiffMap_congr :
    ∀ (fa fb fb' : List (String × JSON)),
      (∀ k ∈ JSON.keys fa, lookupField k fb = lookupField k fb') →
      printDiffMap fa fb = printDiffMap fa fb' := by
  intro fa
  induction fa with
  | nil => intro fb fb' _; simp [printDiffMap]
  | cons p rest ih =>
    obtain ⟨k₀, v₀⟩ := p
    intro fb fb' h
    have h₀ := h k₀ (by simp [JSON.keys])
    have hrest := ih fb fb' (fun k hk => h k (by
      simp only [JSON.keys, List.map_cons, List.mem_cons] at hk ⊢
      exact Or.inr hk))
    simp only [printDiffMap, h₀, hrest]

theorem wfFields_iff :
    ∀ (fb : List (String × JSON)), wfFields fb = true ↔ ∀ p ∈ fb, p.2.wf = true := by
  intro fb
  induction fb with
  | nil => simp [wfFields]
  | cons p rest ih =>
    obtain ⟨k, v⟩ := p
    simp only [wfFields, Bool.and_eq_true, ih, List.mem_cons, forall_eq_or_imp]

mutual
/-- Well-formed values that compare as a full match are reorderings of one
another: the converse of printDiff_of_reordered. -/
theorem reordered_of_printDiff :
    ∀ (a b : JSON), a.wf = true → b.wf = true → printDiff a b = Difference.FullMatch →
      Reordered a b
  | JSON.null, b, _, _, h => by
    cases b <;> simp [printDiff] at h
    simp [Reordered]
  | JSON.bool x, b, _, _, h => by
    cases b <;> simp [printDiff] at h
    simp [Reordered, h]
  | JSON.num n, b, _, _, h => by
    cases b <;> simp [printDiff] at h
    simp [Reordered, h]
  | JSON.str s, b, _, _, h => by
    cases b <;> simp [printDiff] at h
    simp [Reordered, h]
  | JSON.arr xs, b, ha, hb, h => by
    cases b with
    | arr ys =>
      simp only [printDiff] at h
      simp only [JSON.wf] at ha hb
      simp only [Reordered]
      exact ⟨ys, rfl, reorderedElems_of_printDiffSlice xs ys ha hb h⟩
    | null => simp [printDiff] at h
    | bool _ => simp [printDiff] at h
    | num _ => simp [printDiff] at h
    | str _ => simp [printDiff] at h
    | obj _ => simp [printDiff] at h
  | JSON.obj fa, b, ha, hb, h => by
    cases b with
    | obj fb =>
      obtain ⟨hmap, hkeys⟩ := printDiff_obj_keys fa fb h
      simp only [JSON.wf, Bool.and_eq_true, decide_eq_true_eq] at ha hb
      simp only [Reordered]
      exact ⟨fb, rfl, reorderedFields_of_printDiffMap fa fb ha.1 ha.2 hb.1 hb.2 hmap hkeys⟩
    | null => simp [printDiff] at h
    | bool _ => simp [printDiff] at h
    | num _ => simp [printDiff] at h
    | str _ => simp [printDiff] at h
    | arr _ => simp [printDiff] at h
theorem reorderedElems_of_printDiffSlice :
    ∀ (xs ys : List JSON), wfElems xs = true → wfElems ys = true →
      printDiffSlice xs ys = Difference.FullMatch → ReorderedElems xs ys
  | [], ys, _, _, h => by
    cases ys with
    | nil => simp [ReorderedElems]
    | cons y ys => simp [printDiffSlice] at h
  | x :: xs, ys, ha, hb, h => by
    cases ys with
    | nil => simp [printDiffSlice] at h
    | cons y ys =>
      simp only [printDiffSlice] at h
      obtain ⟨h₁, h₂⟩ := (Difference.result_eq_fullMatch _ _).1 h
      simp only [wfElems, Bool.and_eq_true] at ha hb
      simp only [ReorderedElems]
      exact ⟨y, ys, rfl, reordered_of_printDiff x y ha.1 hb.1 h₁,
        reorderedElems_of_printDiffSlice xs ys ha.2 hb.2 h₂⟩
theorem reorderedFields_of_printDiffMap :
    ∀ (fa fb : List (String × JSON)), (JSON.keys fa).Nodup → wfFields fa = true →
      (JSON.keys fb).Nodup → wfFields fb = true →
      printDiffMap fa fb = Difference.FullMatch → (∀ k ∈ JSON.keys fb, k ∈ JSON.keys fa) →
      ReorderedFields fa fb
  | [], fb, _, _, _, _, _, hkeys => by
    simp only [ReorderedFields]
    cases fb with
    | nil => rfl
    | cons p rest =>
      have := hkeys p.1 (by simp [JSON.keys])
      simp [JSON.keys] at this
  | (k, v) :: rest, fb, hnda, hwa, hndb, hwb, hmap, hkeys => by
    simp only [printDiffMap] at hmap
    cases hl : lookupField k fb with
    | none =>
      rw [hl] at hmap
      simp only [] at hmap
      have := ((Difference.result_eq_fullMatch _ _).1 hmap).1
      cases this
    | some vb =>
      rw [hl] at hmap
      simp only [] at hmap
      obtain ⟨hv, hrest⟩ := (Difference.result_eq_fullMatch _ _).1 hmap
      obtain ⟨pre, post, rfl, -⟩ := lookupField_split k vb fb hl
      simp only [JSON.keys, List.map_cons, List.nodup_cons] at hnda
      simp only [wfFields, Bool.and_eq_true] at hwa
      have hndb' : k ∉ JSON.keys (pre ++ post) ∧ (JSON.keys (pre ++ post)).Nodup := by
        simp only [JSON.keys, List.map_append, List.map_cons] at hndb ⊢
        exact List.nodup_cons.1 (List.nodup_middle.1 hndb)
      have hwb' := (wfFields_iff _).1 hwb
      have hvb : vb.wf = true := hwb' (k, vb) (by simp)
      have hwpost : wfFields (pre ++ post) = true := by
        rw [wfFields_iff]
        intro p hp
        apply hwb'
        simp only [List.mem_append, List.mem_cons] at hp ⊢
        rcases hp with hp | hp
        · exact Or.inl hp
        · exact Or.inr (Or.inr hp)
      have hrest' : printDiffMap rest (pre ++ post) = Difference.FullMatch := by
        rw [← hrest]
        apply printDiffMap_congr
        intro k' hk'
        have hne : k' ≠ k := by
          rintro rfl
          exact hnda.1 hk'
        exact (lookupField_remove k k' vb post hne pre).symm
      have hkeys' : ∀ k' ∈ JSON.keys (pre ++ post), k' ∈ JSON.keys rest := by
        intro k' hk'
        have hne : k' ≠ k := by
          rintro rfl
          exact hndb'.1 hk'
        have hin : k' ∈ JSON.keys (pre ++ (k, vb) :: post) := by
          simp only [JSON.keys, List.map_append, List.map_cons, List.mem_append,
            List.mem_cons] at hk' ⊢
          rcases hk' with h | h
          · exact Or.inl h
          · exact Or.inr (Or.inr h)
        have := hkeys k' hin
        simp only [JSON.keys, List.map_cons, List.mem_cons] at this
        rcases this with h | h
        · exact absurd h hne
        · exact h
      simp only [ReorderedFields]
      exact ⟨pre, vb, post, rfl, reordered_of_printDiff v vb hwa.1 hvb hv,
        reorderedFields_of_printDiffMap rest (pre ++ post) hnda.2 hwa.2 hndb'.2 hwpost
          hrest' hkeys'⟩
end

/-- Well-formed values compare as a full match exactly when one is the other
with the fields of its objects in another order. -/
theorem printDiff_fullMatch_iff (a b : JSON) (ha : a.wf = true) (hb : b.wf = true) :
    printDiff a b = Difference.FullMatch ↔ Reordered a b :=
  ⟨reordered_of_printDiff a b ha hb, fun h => printDiff_of_reordered a b h hb⟩

/-- Values that differ in the value of one field do not compare as a full match. -/
theorem printDiff_of_changed (a b : JSON) (h : Changed a b) :
    printDiff a b ≠ Difference.FullMatch := by
  induction h with
  | leaf a b hs hne =>
    cases a <;> cases b <;> simp_all [printDiff, JSON.isScalar]
  | field pre k v v' post hk _ ih =>
    intro h
    simp only [printDiff] at h
    exact printDiffMap_ne k v v' post _ (lookupField_middle k v' post pre hk) ih pre
      ((Difference.result_eq_fullMatch _ _).1 h).1
  | elem pre v v' post _ ih =>
    intro h
    simp only [printDiff] at h
    exact printDiffSlice_ne v v' post ih pre h
  | length xs ys hlen =>
    intro h
    simp only [printDiff] at h
    exact hlen (printDiffSlice_length xs ys h)
  | keys fa fb k hk =>
    intro h
    obtain ⟨hmap, hkeys⟩ := printDiff_obj_keys fa fb h
    rcases hk with ⟨ha, hb⟩ | ⟨hb, ha⟩
    · exact hb (printDiffMap_keys fa fb hmap k ha)
    · exact ha (hkeys k hb)
  | arrObj xs fb => simp [printDiff]
  | objArr fa ys => simp [printDiff]

/-- The verdict of compareLastAppliedAnnotations on two objects whose configurations decode. -/
theorem compareLastAppliedAnnotations_decoded (annotator : Annotator) (found desired : Object)
    (a b : Bytes) (va vb : JSON)
    (ha : annotator.GetOriginalConfiguration found = Except.ok a)
    (hb : annotator.GetOriginalConfiguration desired = Except.ok b)
    (hva : decode a = some va) (hvb : decode b = some vb) :
    compareLastAppliedAnnotations annotator found desired
      = (printDiff va vb == Difference.FullMatch, none) := by
  simp [compareLastAppliedAnnotations, ha, hb, jsondiff.Compare, hva, hvb]

end Structural

section StructuralClaim

/-- C4. Let the last-applied configurations of `found` and `desired` be JSON
texts that decode to `va` and `vb`.  If `vb` is `va` with the fields of its
objects in another order, compareLastAppliedAnnotations returns (true, nil) and
each converge handler that fetches `found` for its desired object issues no
write; if `vb` differs from `va` in the value of one field, be it a scalar that
changed, an array that gained or lost an element or an object that gained or
lost a field, it returns (false, nil) and the handler issues exactly one write,
the update of `desired`.  More generally it returns (true, nil) exactly when
`vb` is `va` with fields reordered, and (false, nil) in every other case.
Whitespace does not count: texts that agree after their whitespace tokens are
removed get the same verdict. -/
theorem compareLastAppliedAnnotations_structural (annotator : Annotator)
    (found desired : Object) (a b : Bytes) (va vb : JSON)
    (ha : annotator.GetOriginalConfiguration found = Except.ok a)
    (hb : annotator.GetOriginalConfiguration desired = Except.ok b)
    (hva : decode a = some va) (hvb : decode b = some vb) :
    (Reordered va vb → compareLastAppliedAnnotations annotator found desired = (true, none))
    ∧ (Changed va vb → compareLastAppliedAnnotations annotator found desired = (false, none))
    ∧ (∀ a' b', stripWs a' = stripWs a → stripWs b' = stripWs b →
        jsondiff.Compare a' b' = jsondiff.Compare a b)
    ∧ (∀ (σ : Type) (r : ReconcileManilaDriver σ) (h : ConvergeHandler σ) (inst : Object)
        (w : World σ), h ∈ controllerPluginRBACHandlers σ → r.annotator = annotator →
        r.annotator.SetLastAppliedAnnotation h.template = Except.ok desired →
        r.apiReader.Get h.kind (fetchKey h.namespaced desired) w.store = Except.ok found →
        (Reordered va vb →
          h.run r inst w =
            (none, { store := w.store
                     trace := w.trace ++ [Call.enter h.fn,
                       Call.get h.kind (fetchKey h.namespaced desired)] }))
        ∧ (Changed va vb →
          h.run r inst w =
            ((r.client.Update desired w.store).1,
             { store := (r.client.Update desired w.store).2
               trace := w.trace ++ [Call.enter h.fn,
                 Call.get h.kind (fetchKey h.namespaced desired), Call.update desired] }))
        ∧ (¬ Reordered va vb →
          h.run r inst w =
            ((r.client.Update desired w.store).1,
             { store := (r.client.Update desired w.store).2
               trace := w.trace ++ [Call.enter h.fn,
                 Call.get h.kind (fetchKey h.namespaced desired), Call.update desired] })))
    ∧ (¬ Reordered va vb →
        compareLastAppliedAnnotations annotator found desired = (false, none))
    ∧ (compareLastAppliedAnnotations annotator found desired = (true, none)
        ↔ Reordered va vb) := by
  have hcmp := compareLastAppliedAnnotations_decoded annotator found desired a b va vb
    ha hb hva hvb
  have hiff := printDiff_fullMatch_iff va vb (decode_wf a va hva) (decode_wf b vb hvb)
  have hsame : Reordered va vb →
      compareLastAppliedAnnotations annotator found desired = (true, none) := by
    intro hr
    rw [hcmp, hiff.2 hr]
    rfl
  have hdiff : Changed va vb →
      compareLastAppliedAnnotations annotator found desired = (false, none) := by
    intro hc
    rw [hcmp]
    have := printDiff_of_changed va vb hc
    simp [this]
  have hother : ¬ Reordered va vb →
      compareLastAppliedAnnotations annotator found desired = (false, none) := by
    intro hn
    rw [hcmp]
    have : printDiff va vb ≠ Difference.FullMatch := fun h => hn (hiff.1 h)
    simp [this]
  refine ⟨hsame, hdiff, ?_, ?_, hother, ?_⟩
  · intro a' b' hwa hwb
    simp only [jsondiff.Compare, decode_congr a' a hwa, decode_congr b' b hwb]
  · intro σ r h inst w hh hr hann hget
    subst hr
    rw [handler_eq_converge h hh]
    exact ⟨fun hre => converge_unchanged r _ _ _ desired found _ w hann hget (hsame hre),
      fun hc => converge_updated r _ _ _ desired found _ w hann hget (hdiff hc),
      fun hn => converge_updated r _ _ _ desired found _ w hann hget (hother hn)⟩
  · constructor
    · intro htrue
      by_contra hn
      rw [hother hn] at htrue
      cases htrue
    · exact hsame

end StructuralClaim

theorem compareLastAppliedAnnotations_structural_witness :
    compareLastAppliedAnnotations sampleAnnotator
        (withApplied desiredServiceAccount "sample")
        (withApplied desiredServiceAccount "reordered") = (true, none)
    ∧ compareLastAppliedAnnotations sampleAnnotator
        (withApplied desiredServiceAccount "sample")
        (withApplied desiredServiceAccount "changed") = (false, none)
    ∧ compareLastAppliedAnnotations sampleAnnotator
        (withApplied desiredServiceAccount "sample")
        (withApplied desiredServiceAccount "extended") = (false, none)
    ∧ compareLastAppliedAnnotations sampleAnnotator
        (withApplied desiredServiceAccount "extended")
        (withApplied desiredServiceAccount "sample") = (false, none) :=
  ⟨(compareLastAppliedAnnotations_structural sampleAnnotator
      (withApplied desiredServiceAccount "sample")
      (withApplied desiredServiceAccount "reordered") sampleText sampleTextReordered
      (JSON.obj [("name", JSON.str "x"), ("rules", JSON.arr [JSON.num "1"])])
      (JSON.obj [("rules", JSON.arr [JSON.num "1"]), ("name", JSON.str "x")])
      rfl rfl rfl rfl).1
      (by
        simp only [Reordered, ReorderedFields, ReorderedElems]
        exact ⟨_, rfl, [("rules", JSON.arr [JSON.num "1"])], JSON.str "x", [], rfl, rfl,
          [], JSON.arr [JSON.num "1"], [], rfl, ⟨_, rfl, _, _, rfl, rfl, rfl⟩, rfl⟩),
   (compareLastAppliedAnnotations_structural sampleAnnotator
      (withApplied desiredServiceAccount "sample")
      (withApplied desiredServiceAccount "changed") sampleText sampleTextChanged
      (JSON.obj [("name", JSON.str "x"), ("rules", JSON.arr [JSON.num "1"])])
      (JSON.obj [("name", JSON.str "y"), ("rules", JSON.arr [JSON.num "1"])])
      rfl rfl rfl rfl).2.1
      (Changed.field [] "name" (JSON.str "x") (JSON.str "y")
        [("rules", JSON.arr [JSON.num "1"])] (by simp [JSON.keys])
        (Changed.leaf _ _ (Or.inl rfl) (by simp))),
   (compareLastAppliedAnnotations_structural sampleAnnotator
      (withApplied desiredServiceAccount "sample")
      (withApplied desiredServiceAccount "extended") sampleText sampleTextExtended
      (JSON.obj [("name", JSON.str "x"), ("rules", JSON.arr [JSON.num "1"])])
      (JSON.obj [("name", JSON.str "x"), ("rules", JSON.arr [JSON.num "1", JSON.num "2"])])
      rfl rfl rfl rfl).2.1
      (Changed.field [("name", JSON.str "x")] "rules" (JSON.arr [JSON.num "1"])
        (JSON.arr [JSON.num "1", JSON.num "2"]) [] (by simp [JSON.keys])
        (Changed.length _ _ (by decide))),
   (compareLastAppliedAnnotations_structural sampleAnnotator
      (withApplied desiredServiceAccount "extended")
      (withApplied desiredServiceAccount "sample") sampleTextExtended sampleText
      (JSON.obj [("name", JSON.str "x"), ("rules", JSON.arr [JSON.num "1", JSON.num "2"])])
      (JSON.obj [("name", JSON.str "x"), ("rules", JSON.arr [JSON.num "1"])])
      rfl rfl rfl rfl).2.1
      (Changed.field [("name", JSON.str "x")] "rules"
        (JSON.arr [JSON.num "1", JSON.num "2"]) (JSON.arr [JSON.num "1"]) []
        (by simp [JSON.keys]) (Changed.length _ _ (by decide)))⟩

section Idempotence

variable {σ : Type}

/-- An object whose configuration is JSON text compares as equal to itself. -/
theorem compareLastAppliedAnnotations_self (annotator : Annotator) (desired : Object)
    (a : Bytes) (v : JSON)
    (hread : annotator.GetOriginalConfiguration desired = Except.ok a)
    (hjson : decode a = some v) :
    compareLastAppliedAnnotations annotator desired desired = (true, none) := by
  rw [compareLastAppliedAnnotations_decoded annotator desired desired a a v v hread hread
    hjson hjson, printDiff_self v (decode_wf a v hjson)]
  rfl

/-- The shared body run a second time, on the store the first run left. -/
theorem converge_idempotent (r : ReconcileManilaDriver σ) (fn : Fn) (kind : Kind)
    (template desired : Object) (namespaced : Bool) (w : World σ) (a : Bytes) (v : JSON)
    (hann : r.annotator.SetLastAppliedAnnotation template = Except.ok desired)
    (hread : r.annotator.GetOriginalConfiguration desired = Except.ok a)
    (hjson : decode a = some v)
    (hcreated : (r.client.Create desired w.store).1 = none →
      r.apiReader.Get kind (fetchKey namespaced desired) (r.client.Create desired w.store).2
        = Except.ok desired)
    (hupdated : (r.client.Update desired w.store).1 = none →
      r.apiReader.Get kind (fetchKey namespaced desired) (r.client.Update desired w.store).2
        = Except.ok desired)
    (hfirst : (converge r fn kind template namespaced w).1 = none) :
    converge r fn kind template namespaced (converge r fn kind template namespaced w).2
      = (none, { store := (converge r fn kind template namespaced w).2.store
                 trace := (converge r fn kind template namespaced w).2.trace
                   ++ [Call.enter fn, Call.get kind (fetchKey namespaced desired)] }) := by
  have hself := compareLastAppliedAnnotations_self r.annotator desired a v hread hjson
  cases hget : r.apiReader.Get kind (fetchKey namespaced desired) w.store with
  | error e =>
    cases hnf : errors.IsNotFound e with
    | true =>
      rw [converge_created r fn kind template desired namespaced w e hann hget hnf] at hfirst ⊢
      exact converge_unchanged r fn kind template desired desired namespaced _ hann
        (hcreated hfirst) hself
    | false =>
      rw [converge_fetch_error r fn kind template desired namespaced w e hann hget hnf]
        at hfirst
      simp at hfirst
  | ok found =>
    rcases hcmp : compareLastAppliedAnnotations r.annotator found desired with ⟨b, oe⟩
    cases oe with
    | some e =>
      rw [converge_compare_error r fn kind template desired found namespaced w b e
        hann hget hcmp] at hfirst
      simp at hfirst
    | none =>
      cases b with
      | true =>
        rw [converge_unchanged r fn kind template desired found namespaced w hann hget hcmp]
        exact converge_unchanged r fn kind template desired found namespaced _ hann hget hcmp
      | false =>
        rw [converge_updated r fn kind template desired found namespaced w hann hget hcmp]
          at hfirst ⊢
        exact converge_unchanged r fn kind template desired desired namespaced _ hann
          (hupdated hfirst) hself

/-- C2. Idempotence: let a converge handler of the controller-plugin RBAC set
return nil on a store in which a fetch after a successful create or update
returns exactly the object written, and let the configuration the annotator
reads back from the desired object be JSON text.  Then a second run on the
world the first one left returns nil, leaves the store as it is and issues a
single request, the fetch: no create and no update, whether the first run
created, updated or left the object unchanged. -/
theorem converge_handlers_idempotent (h : ConvergeHandler σ)
    (hh : h ∈ controllerPluginRBACHandlers σ) (r : ReconcileManilaDriver σ) (inst : Object)
    (w : World σ) (desired : Object) (a : Bytes) (v : JSON)
    (hann : r.annotator.SetLastAppliedAnnotation h.template = Except.ok desired)
    (hread : r.annotator.GetOriginalConfiguration desired = Except.ok a)
    (hjson : decode a = some v)
    (hcreated : (r.client.Create desired w.store).1 = none →
      r.apiReader.Get h.kind (fetchKey h.namespaced desired)
        (r.client.Create desired w.store).2 = Except.ok desired)
    (hupdated : (r.client.Update desired w.store).1 = none →
      r.apiReader.Get h.kind (fetchKey h.namespaced desired)
        (r.client.Update desired w.store).2 = Except.ok desired)
    (hfirst : (h.run r inst w).1 = none) :
    h.run r inst (h.run r inst w).2
      = (none, { store := (h.run r inst w).2.store
                 trace := (h.run r inst w).2.trace
                   ++ [Call.enter h.fn, Call.get h.kind (fetchKey h.namespaced desired)] }) := by
  rw [handler_eq_converge h hh] at hfirst
  rw [handler_eq_converge h hh, handler_eq_converge h hh]
  exact converge_idempotent r _ _ _ desired _ w a v hann hread hjson hcreated hupdated hfirst

end Idempotence

theorem converge_handlers_idempotent_witness :
    handleManilaControllerPluginServiceAccount memReconciler desiredServiceAccount
        (handleManilaControllerPluginServiceAccount memReconciler desiredServiceAccount
          (worldOf [])).2
      = (none, { store := { objects := [annotated desiredServiceAccount] }
                 trace := [Call.enter Fn.handleManilaControllerPluginServiceAccount,
                   Call.get Kind.ServiceAccount (fetchKey true desiredServiceAccount),
                   Call.create (annotated desiredServiceAccount),
                   Call.enter Fn.handleManilaControllerPluginServiceAccount,
                   Call.get Kind.ServiceAccount (fetchKey true desiredServiceAccount)] })
    ∧ handleManilaControllerPluginServiceAccount memReconciler desiredServiceAccount
        (handleManilaControllerPluginServiceAccount memReconciler desiredServiceAccount
          (worldOf [stale desiredServiceAccount])).2
      = (none, { store := { objects := [annotated desiredServiceAccount] }
                 trace := [Call.enter Fn.handleManilaControllerPluginServiceAccount,
                   Call.get Kind.ServiceAccount (fetchKey true desiredServiceAccount),
                   Call.update (annotated desiredServiceAccount),
                   Call.enter Fn.handleManilaControllerPluginServiceAccount,
                   Call.get Kind.ServiceAccount (fetchKey true desiredServiceAccount)] }) :=
  ⟨converge_handlers_idempotent serviceAccountHandler (List.Mem.head _) memReconciler
      desiredServiceAccount (worldOf []) (annotated desiredServiceAccount)
      [Token.str "openstack-manila-csi-controllerplugin"]
      (JSON.str "openstack-manila-csi-controllerplugin") rfl rfl rfl
      (fun _ => rfl) (fun h => absurd h (by decide)) rfl,
   converge_handlers_idempotent serviceAccountHandler (List.Mem.head _) memReconciler
      desiredServiceAccount (worldOf [stale desiredServiceAccount])
      (annotated desiredServiceAccount)
      [Token.str "openstack-manila-csi-controllerplugin"]
      (JSON.str "openstack-manila-csi-controllerplugin") rfl rfl rfl
      (fun h => absurd h (by decide)) (fun _ => rfl) rfl⟩

section FinalizeOrder

variable {σ : Type}

/-- The calls added by a run whose trace extends the one before it. -/
theorem callsSince_of_append (before after : World σ) (new : List Call)
    (h : after.trace = before.trace ++ new) : callsSince before after = new := by
  simp [callsSince, h]

/-- C11, as amended. In every run of finalizeManilaDriver in which each delete
step succeeds or reports not-found, it returns nil and the delete steps are
entered in the fixed order of the source: the namespace first, then the storage
classes, the credentials request, the security context constraints, the CSI
driver, the cluster roles of the controller plugin, the node plugin and the NFS
node plugin, and the cluster role bindings of the same three; so the namespace
delete is issued before every other delete. -/
theorem finalizeManilaDriver_namespace_first (r : ReconcileManilaDriver σ) (inst : Object)
    (w : World σ) (out : Fn → Option Error)
    (hy : Yields r out finalizeSteps (w.enter Fn.finalizeManilaDriver))
    (hok : ∀ f ∈ finalizeSteps, notNilNorNotFound (out f) = false) :
    (finalizeManilaDriver r inst w).1 = none
    ∧ deletesEntered (callsSince w (finalizeManilaDriver r inst w).2)
        = [Fn.deleteManilaDriverNamespace, Fn.deleteManilaStorageClasses,
           Fn.deleteCredentialsRequest, Fn.deleteSecurityContextConstraints,
           Fn.deleteCSIDriver, Fn.deleteManilaControllerPluginClusterRole,
           Fn.deleteManilaNodePluginClusterRole, Fn.deleteNFSNodePluginClusterRole,
           Fn.deleteManilaControllerPluginClusterRoleBinding,
           Fn.deleteManilaNodePluginClusterRoleBinding,
           Fn.deleteNFSNodePluginClusterRoleBinding]
    ∧ ∀ f ∈ finalizeSteps, f ≠ Fn.deleteManilaDriverNamespace →
        issuedBefore Fn.deleteManilaDriverNamespace f
          (deletesEntered (callsSince w (finalizeManilaDriver r inst w).2)) = true := by
  rw [finalizeManilaDriver_eq_runDeletes]
  obtain ⟨hres, new, ht, hd⟩ := runDeletes_all_tolerated r out finalizeSteps _
    (fun f hf => hf) hy hok
  have hsince : callsSince w (runDeletes r finalizeSteps (w.enter Fn.finalizeManilaDriver)).2
      = Call.enter Fn.finalizeManilaDriver :: new := by
    apply callsSince_of_append
    rw [ht]
    simp [World.enter]
  have hentered : deletesEntered
      (callsSince w (runDeletes r finalizeSteps (w.enter Fn.finalizeManilaDriver)).2)
      = finalizeSteps := by
    rw [hsince]
    have : deletesEntered (Call.enter Fn.finalizeManilaDriver :: new) = deletesEntered new := by
      simp [deletesEntered, finalizeSteps]
    rw [this, hd]
  refine ⟨hres, ?_, ?_⟩
  · rw [hentered]
    rfl
  · rw [hentered]
    decide

end FinalizeOrder

/-- C11, as stated, fails: in a run on the store in memory in which every delete
step succeeds or reports not-found, the namespace delete is not issued after
the delete of the storage classes; it is issued before it, as the first of all. -/
theorem finalizeManilaDriver_namespace_not_last :
    (finalizeManilaDriver memReconciler (driverNamed "cluster") (worldOf [])).1 = none
    ∧ issuedBefore Fn.deleteManilaStorageClasses Fn.deleteManilaDriverNamespace
        (deletesEntered
          (finalizeManilaDriver memReconciler (driverNamed "cluster") (worldOf [])).2.trace)
        = false
    ∧ (deletesEntered
        (finalizeManilaDriver memReconciler (driverNamed "cluster") (worldOf [])).2.trace).head?
        = some Fn.deleteManilaDriverNamespace := by
  refine ⟨rfl, ?_, ?_⟩ <;> decide

theorem finalizeManilaDriver_namespace_first_witness :
    (finalizeManilaDriver goneReconciler (driverNamed "cluster") (worldOf [])).1 = none
    ∧ issuedBefore Fn.deleteManilaDriverNamespace Fn.deleteNFSNodePluginClusterRoleBinding
        (deletesEntered (callsSince (worldOf [])
          (finalizeManilaDriver goneReconciler (driverNamed "cluster") (worldOf [])).2))
        = true :=
  ⟨(finalizeManilaDriver_namespace_first goneReconciler (driverNamed "cluster") (worldOf [])
      (fun _ => some notFoundError)
      (by repeat (first | exact trivial | refine ⟨rfl, fun _ => ?_⟩))
      (fun _ _ => rfl)).1,
   (finalizeManilaDriver_namespace_first goneReconciler (driverNamed "cluster") (worldOf [])
      (fun _ => some notFoundError)
      (by repeat (first | exact trivial | refine ⟨rfl, fun _ => ?_⟩))
      (fun _ _ => rfl)).2.2 Fn.deleteNFSNodePluginClusterRoleBinding (by decide) (by decide)⟩

section StepLists

variable {σ : Type}

/-- The method handleManilaControllerPluginRBAC runs its five calls in order. -/
theorem handleManilaControllerPluginRBAC_eq_runSteps (r : ReconcileManilaDriver σ)
    (inst : Object) (w : World σ) :
    handleManilaControllerPluginRBAC r inst w
      = runSteps (rbacSteps r inst) (w.enter Fn.handleManilaControllerPluginRBAC) := rfl

/-- A run of call sites that starts with an error ends there. -/
theorem runSteps_cons_error (s : Step σ) (ss : List (Step σ)) (w : World σ) (e : Error)
    (h : (s.run w).1 = some e) : runSteps (s :: ss) w = (some e, (s.run w).2) := by
  simp only [runSteps]
  generalize s.run w = p at h
  obtain ⟨oe, w'⟩ := p
  simp only at h
  subst h
  rfl

/-- A run of call sites whose first call succeeds goes on with the rest. -/
theorem runSteps_cons_ok (s : Step σ) (ss : List (Step σ)) (w : World σ)
    (h : (s.run w).1 = none) : runSteps (s :: ss) w = runSteps ss (s.run w).2 := by
  simp only [runSteps]
  generalize s.run w = p at h
  obtain ⟨oe, w'⟩ := p
  simp only at h
  subst h
  rfl

/-- The method handleManilariverDeployment runs its eight calls in order. -/
theorem handleManilariverDeployment_eq_runSteps (r : ReconcileManilaDriver σ)
    (inst : Object) (w : World σ) :
    handleManilariverDeployment r inst w
      = (({}, (runSteps (deploymentSteps r inst)
            (w.enter Fn.handleManilariverDeployment)).1),
         (runSteps (deploymentSteps r inst) (w.enter Fn.handleManilariverDeployment)).2) := by
  unfold handleManilariverDeployment
  simp only [deploymentSteps, runSteps, pkgStep]
  repeat' split
  all_goals simp_all

end StepLists

section AddsLemmas

variable {σ : Type}

theorem entered_append (a b : List Call) : entered (a ++ b) = entered a ++ entered b := by
  simp [entered, List.filterMap_append]

theorem Adds.refl (Q : List Call → Prop) (hQ : Q []) (w : World σ) : Adds Q w w :=
  ⟨[], by simp, hQ⟩

theorem callsSince_of_adds (Q : List Call → Prop) (a b : World σ) (h : Adds Q a b) :
    Q (callsSince a b) := by
  obtain ⟨new, ht, hq⟩ := h
  rw [callsSince_of_append a b new ht]
  exact hq

/-- Entered functions of two runs in sequence. -/
theorem Adds.trans_entered (fs gs : List Fn) (a b c : World σ)
    (h₁ : Adds (fun new => entered new = fs) a b)
    (h₂ : Adds (fun new => entered new = gs) b c) :
    Adds (fun new => entered new = fs ++ gs) a c := by
  obtain ⟨n₁, t₁, q₁⟩ := h₁
  obtain ⟨n₂, t₂, q₂⟩ := h₂
  refine ⟨n₁ ++ n₂, ?_, ?_⟩
  · rw [t₂, t₁, List.append_assoc]
  · show entered (n₁ ++ n₂) = fs ++ gs
    rw [entered_append, q₁, q₂]

/-- Calls of two runs in sequence that all satisfy a property. -/
theorem Adds.trans_all (P : Call → Prop) (a b c : World σ)
    (h₁ : Adds (fun new => ∀ x ∈ new, P x) a b)
    (h₂ : Adds (fun new => ∀ x ∈ new, P x) b c) :
    Adds (fun new => ∀ x ∈ new, P x) a c := by
  obtain ⟨n₁, t₁, q₁⟩ := h₁
  obtain ⟨n₂, t₂, q₂⟩ := h₂
  refine ⟨n₁ ++ n₂, ?_, ?_⟩
  · rw [t₂, t₁, List.append_assoc]
  · intro x hx
    rcases List.mem_append.1 hx with h | h
    · exact q₁ x h
    · exact q₂ x h

/-- A converge handler enters itself and no other package function, whatever happens. -/
theorem converge_enters (r : ReconcileManilaDriver σ) (fn : Fn) (kind : Kind)
    (template : Object) (namespaced : Bool) (w : World σ) :
    Adds (fun new => entered new = [fn]) w (converge r fn kind template namespaced w).2 := by
  cases hann : r.annotator.SetLastAppliedAnnotation template with
  | error e =>
    rw [converge_annotate_error r fn kind template namespaced w e hann]
    exact ⟨[Call.enter fn], rfl, rfl⟩
  | ok desired =>
    cases hget : r.apiReader.Get kind (fetchKey namespaced desired) w.store with
    | error e =>
      cases hnf : errors.IsNotFound e with
      | true =>
        rw [converge_created r fn kind template desired namespaced w e hann hget hnf]
        exact ⟨_, rfl, rfl⟩
      | false =>
        rw [converge_fetch_error r fn kind template desired namespaced w e hann hget hnf]
        exact ⟨_, rfl, rfl⟩
    | ok found =>
      rcases hcmp : compareLastAppliedAnnotations r.annotator found desired with ⟨b, oe⟩
      cases oe with
      | some e =>
        rw [converge_compare_error r fn kind template desired found namespaced w b e
          hann hget hcmp]
        exact ⟨_, rfl, rfl⟩
      | none =>
        cases b with
        | true =>
          rw [converge_unchanged r fn kind template desired found namespaced w hann hget hcmp]
          exact ⟨_, rfl, rfl⟩
        | false =>
          rw [converge_updated r fn kind template desired found namespaced w hann hget hcmp]
          exact ⟨_, rfl, rfl⟩

/-- A successful run of call sites enters what each of them enters, in order. -/
theorem runSteps_enters (ent : Fn → List Fn) :
    ∀ (steps : List (Step σ)) (w : World σ),
      (∀ s ∈ steps, ∀ w', (s.run w').1 = none →
        Adds (fun new => entered new = ent s.fn) w' (s.run w').2) →
      (runSteps steps w).1 = none →
      Adds (fun new => entered new = (steps.map (fun s => ent s.fn)).flatten) w
        (runSteps steps w).2 := by
  intro steps
  induction steps with
  | nil =>
    intro w _ _
    exact ⟨[], by simp [runSteps], rfl⟩
  | cons s ss ih =>
    intro w hs hok
    cases h : (s.run w).1 with
    | some e =>
      rw [runSteps_cons_error s ss w e h] at hok
      simp at hok
    | none =>
      rw [runSteps_cons_ok s ss w h] at hok ⊢
      have h₁ := hs s (List.mem_cons_self _ _) w h
      have h₂ := ih (s.run w).2 (fun t ht => hs t (List.mem_cons_of_mem _ ht)) hok
      simpa using Adds.trans_entered _ _ _ _ _ h₁ h₂

/-- The call of a package method of another file enters that method. -/
theorem pkgStep_enters (f : Fn) (body : σ → Option Error × σ) (w : World σ) :
    Adds (fun new => entered new = [f]) w ((pkgStep f body).run w).2 :=
  ⟨[Call.enter f], rfl, rfl⟩

/-- When handleManilaControllerPluginRBAC returns nil it has entered itself and
its five handlers: ServiceAccount, ClusterRole, ClusterRoleBinding, Role,
RoleBinding. -/
theorem handleManilaControllerPluginRBAC_enters (r : ReconcileManilaDriver σ)
    (inst : Object) (w : World σ)
    (hok : (handleManilaControllerPluginRBAC r inst w).1 = none) :
    Adds (fun new => entered new = enteredBy Fn.handleManilaControllerPluginRBAC) w
      (handleManilaControllerPluginRBAC r inst w).2 := by
  rw [handleManilaControllerPluginRBAC_eq_runSteps] at hok ⊢
  have h₁ : Adds (fun new => entered new = [Fn.handleManilaControllerPluginRBAC]) w
      (w.enter Fn.handleManilaControllerPluginRBAC) := ⟨_, rfl, rfl⟩
  have h₂ := runSteps_enters (fun f => [f]) (rbacSteps r inst)
    (w.enter Fn.handleManilaControllerPluginRBAC) (by
      intro s hs w' _
      simp only [rbacSteps, List.mem_map] at hs
      obtain ⟨h, hh, rfl⟩ := hs
      show Adds _ w' (h.run r inst w').2
      rw [handler_eq_converge h hh]
      exact converge_enters r _ _ _ _ w') hok
  exact Adds.trans_entered _ _ _ _ _ h₁ h₂

/-- When handleManilariverDeployment returns a nil error it has entered itself
and, in order, its eight calls, the fifth with its five handlers. -/
theorem handleManilariverDeployment_enters (r : ReconcileManilaDriver σ)
    (inst : Object) (w : World σ)
    (hok : (handleManilariverDeployment r inst w).1.2 = none) :
    Adds (fun new => entered new = passOrder.drop 8) w
      (handleManilariverDeployment r inst w).2 := by
  rw [handleManilariverDeployment_eq_runSteps] at hok ⊢
  have h₁ : Adds (fun new => entered new = [Fn.handleManilariverDeployment]) w
      (w.enter Fn.handleManilariverDeployment) := ⟨_, rfl, rfl⟩
  have h₂ := runSteps_enters enteredBy (deploymentSteps r inst)
    (w.enter Fn.handleManilariverDeployment) (by
      intro s hs w' hs'
      simp only [deploymentSteps, List.mem_cons, List.mem_singleton, List.not_mem_nil,
        or_false] at hs
      rcases hs with rfl | rfl | rfl | rfl | rfl | rfl | rfl | rfl
      case inr.inr.inr.inr.inl =>
        exact handleManilaControllerPluginRBAC_enters r inst w' hs'
      all_goals exact pkgStep_enters _ _ w') hok
  exact Adds.trans_entered _ _ _ _ _ h₁ h₂

end AddsLemmas

section Phases

variable {σ : Type}

/-- The handlers of a pass: the first three calls, then the part from the read
of the credentials on. -/
theorem reconcileActive_phases (r : ReconcileManilaDriver σ) (inst : Object) (w : World σ) :
    reconcileActive r inst w =
      match runSteps (firstSteps r inst) w with
      | (some e, w) => (({}, some e), w)
      | (none, w) => reconcileFromSecret r inst w := by
  unfold reconcileActive reconcileFromSecret reconcileFromInventory
  simp only [firstSteps, runSteps, pkgStep, World.call]
  cases (r.pkg.handleManilaDriverNamespace inst w.store).1 with
  | some e => rfl
  | none =>
    simp only []
    cases (r.pkg.handleCACertConfigMap inst
      (r.pkg.handleManilaDriverNamespace inst w.store).2).1 with
    | some e => rfl
    | none =>
      simp only []
      cases (r.pkg.handleCredentialsRequest inst
        (r.pkg.handleCACertConfigMap inst
          (r.pkg.handleManilaDriverNamespace inst w.store).2).2).1 with
      | some e => rfl
      | none => rfl

/-- When getManilaShareTypes returns a nil error it has read the CA certificate
and sent both requests to the cloud. -/
theorem getManilaShareTypes_success (r : ReconcileManilaDriver σ) (cloud : Cloud)
    (w : World σ) :
    (getManilaShareTypes r cloud w).1.2 = none →
    (getManilaShareTypes r cloud w).2.trace
      = w.trace ++ [Call.enter Fn.getManilaShareTypes, Call.enter Fn.getCloudProviderCert,
          Call.cloud CloudRequest.Authenticate, Call.cloud CloudRequest.ListShareTypes] := by
  unfold getManilaShareTypes
  simp only [World.enter, World.call, cloudAuthenticate, cloudListAllPages]
  repeat' split
  all_goals
    simp only [Prod.mk.injEq] at *
    try casesm* _ ∧ _
    subst_vars
    simp

end Phases

section HandlerOrder

variable {σ : Type}

/-- The pass from the read of the credentials on, when every call succeeds and
the inventory returns share types. -/
theorem reconcileFromSecret_success (r : ReconcileManilaDriver σ) (inst : Object)
    (W₃ W₄ W₅ W₆ W₇ : World σ) (cloud : Cloud) (shareTypes : List ShareType)
    (hcloud : getCloudFromSecret r W₃ = ((cloud, none), W₄))
    (hsecret : W₄.call Fn.createDriverCredentialsSecret
      (r.pkg.createDriverCredentialsSecret inst cloud) = (none, W₅))
    (hst : getManilaShareTypes r cloud W₅ = ((shareTypes, none), W₆))
    (hsc : W₆.call Fn.handleManilaStorageClasses
      (r.pkg.handleManilaStorageClasses inst shareTypes) = (none, W₇)) :
    reconcileFromSecret r inst W₃ = handleManilariverDeployment r inst W₇ := by
  unfold reconcileFromSecret reconcileFromInventory
  simp only [hcloud, hsecret, hst, hsc]

/-- What a pass enters from its first handler on, when every call succeeds and
the inventory returns share types. -/
theorem reconcileActive_enters (r : ReconcileManilaDriver σ) (inst : Object)
    (W₀ W₃ W₄ W₅ W₆ W₇ : World σ) (cloud : Cloud) (shareTypes : List ShareType)
    (hfirst : runSteps (firstSteps r inst) W₀ = (none, W₃))
    (hcloud : getCloudFromSecret r W₃ = ((cloud, none), W₄))
    (hsecret : W₄.call Fn.createDriverCredentialsSecret
      (r.pkg.createDriverCredentialsSecret inst cloud) = (none, W₅))
    (hst : getManilaShareTypes r cloud W₅ = ((shareTypes, none), W₆))
    (hsc : W₆.call Fn.handleManilaStorageClasses
      (r.pkg.handleManilaStorageClasses inst shareTypes) = (none, W₇))
    (hdep : (handleManilariverDeployment r inst W₇).1.2 = none) :
    reconcileActive r inst W₀ = (({}, none), (handleManilariverDeployment r inst W₇).2)
    ∧ Adds (fun new => entered new = passOrder) W₀
        (handleManilariverDeployment r inst W₇).2 := by
  constructor
  · rw [reconcileActive_phases, hfirst]
    simp only []
    rw [reconcileFromSecret_success r inst W₃ W₄ W₅ W₆ W₇ cloud shareTypes hcloud hsecret
      hst hsc]
    rw [handleManilariverDeployment_eq_runSteps] at hdep ⊢
    simp only at hdep
    rw [hdep]
  · have a₁ : Adds (fun new => entered new = [Fn.handleManilaDriverNamespace,
        Fn.handleCACertConfigMap, Fn.handleCredentialsRequest]) W₀ W₃ := by
      have := runSteps_enters (fun f => [f]) (firstSteps r inst) W₀ (by
        intro s hs w' _
        simp only [firstSteps, List.mem_cons, List.mem_singleton, List.not_mem_nil,
          or_false] at hs
        rcases hs with rfl | rfl | rfl <;> exact pkgStep_enters _ _ w') (by rw [hfirst])
      rw [hfirst] at this
      exact this
    have a₂ : Adds (fun new => entered new = [Fn.getCloudFromSecret]) W₃ W₄ := by
      have := getCloudFromSecret_world r W₃
      rw [hcloud] at this
      simp only at this
      exact ⟨[Call.enter Fn.getCloudFromSecret, Call.get Kind.Secret (installerSecretKey r)],
        by rw [this], rfl⟩
    have a₃ : Adds (fun new => entered new = [Fn.createDriverCredentialsSecret]) W₄ W₅ := by
      have := congrArg Prod.snd hsecret
      simp only [World.call] at this
      exact ⟨[Call.enter Fn.createDriverCredentialsSecret], by rw [← this], rfl⟩
    have a₄ : Adds (fun new => entered new
        = [Fn.getManilaShareTypes, Fn.getCloudProviderCert]) W₅ W₆ := by
      have := getManilaShareTypes_success r cloud W₅ (by rw [hst])
      rw [hst] at this
      exact ⟨_, this, rfl⟩
    have a₅ : Adds (fun new => entered new = [Fn.handleManilaStorageClasses]) W₆ W₇ := by
      have := congrArg Prod.snd hsc
      simp only [World.call] at this
      exact ⟨[Call.enter Fn.handleManilaStorageClasses], by rw [← this], rfl⟩
    have a₆ := handleManilariverDeployment_enters r inst W₇ hdep
    exact Adds.trans_entered _ _ _ _ _
      (Adds.trans_entered _ _ _ _ _
        (Adds.trans_entered _ _ _ _ _
          (Adds.trans_entered _ _ _ _ _ (Adds.trans_entered _ _ _ _ _ a₁ a₂) a₃) a₄) a₅) a₆

/-- What Reconcile has added to the trace when the handlers of a pass start. -/
theorem activeStart_adds (r : ReconcileManilaDriver σ) (request : Request) (inst : Object)
    (w : World σ) :
    Adds (fun new => entered new = Fn.Reconcile :: entered (finalizerStepCalls inst)) w
      (activeStart r request inst w) := by
  refine ⟨[Call.enter Fn.Reconcile, Call.list Kind.ManilaDriver,
    Call.get Kind.ManilaDriver request.NamespacedName] ++ finalizerStepCalls inst, ?_, ?_⟩
  · simp [activeStart, afterFetch]
  · show entered (_ ++ finalizerStepCalls inst) = _
    rw [entered_append]
    rfl

/-- C13. In an Active pass in which every call succeeds and the inventory
returns share types, Reconcile returns a nil error with an empty result, and
the package functions it enters are, in order: Reconcile, addFinalizer if the
finalizer was absent, then handleManilaDriverNamespace, handleCACertConfigMap,
handleCredentialsRequest, getCloudFromSecret, createDriverCredentialsSecret,
getManilaShareTypes (which reads the CA certificate), handleManilaStorageClasses,
handleManilariverDeployment, handleSecurityContextConstraints,
handleNFSNodePluginRBAC, handleNFSNodePluginDaemonSet, handleManilaCSIDriver,
handleManilaControllerPluginRBAC with its handlers for ServiceAccount,
ClusterRole, ClusterRoleBinding, Role and RoleBinding,
handleManilaControllerPluginDeployment, handleManilaNodePluginRBAC and
handleManilaNodePluginDaemonSet, each once.  Restricted to the handlers of the
spec's order, and to the five handlers of the RBAC set, the entered functions
are exactly those lists. -/
theorem Reconcile_handler_order (r : ReconcileManilaDriver σ) (request : Request)
    (inst : Object) (w W₃ W₄ W₅ W₆ W₇ : World σ) (cloud : Cloud)
    (shareTypes : List ShareType)
    (hactive : ActivePass r request inst w)
    (hfirst : runSteps (firstSteps r (activeInstance inst)) (activeStart r request inst w)
      = (none, W₃))
    (hcloud : getCloudFromSecret r W₃ = ((cloud, none), W₄))
    (hsecret : W₄.call Fn.createDriverCredentialsSecret
      (r.pkg.createDriverCredentialsSecret (activeInstance inst) cloud) = (none, W₅))
    (hst : getManilaShareTypes r cloud W₅ = ((shareTypes, none), W₆))
    (hsc : W₆.call Fn.handleManilaStorageClasses
      (r.pkg.handleManilaStorageClasses (activeInstance inst) shareTypes) = (none, W₇))
    (hdep : (handleManilariverDeployment r (activeInstance inst) W₇).1.2 = none) :
    (Reconcile r request w).1 = ({}, none)
    ∧ entered (callsSince w (Reconcile r request w).2)
        = Fn.Reconcile :: entered (finalizerStepCalls inst) ++ passOrder
    ∧ (entered (callsSince w (Reconcile r request w).2)).filter (fun f => f ∈ handlerOrder)
        = handlerOrder
    ∧ (entered (callsSince w (Reconcile r request w).2)).filter (fun f => f ∈ rbacOrder)
        = rbacOrder
    ∧ (entered (callsSince w (Reconcile r request w).2)).Nodup := by
  obtain ⟨hres, hadds⟩ := reconcileActive_enters r (activeInstance inst)
    (activeStart r request inst w) W₃ W₄ W₅ W₆ W₇ cloud shareTypes hfirst hcloud hsecret hst
    hsc hdep
  rw [Reconcile_active r request inst w hactive, hres]
  have hall := callsSince_of_adds _ _ _
    (Adds.trans_entered _ _ _ _ _ (activeStart_adds r request inst w) hadds)
  simp only at hall
  rw [hall]
  have he : entered (finalizerStepCalls inst)
      = if contains inst.GetFinalizers manilaDriverFinalizer then [] else [Fn.addFinalizer] := by
    unfold finalizerStepCalls
    split <;> rfl
  rw [he]
  refine ⟨rfl, rfl, ?_, ?_, ?_⟩
  all_goals
    split <;> decide

end HandlerOrder

theorem Reconcile_handler_order_witness :
    (Reconcile memReconciler (requestFor "cluster")
        (worldOf [driverNamed "cluster", installerSecret])).1 = ({}, none)
    ∧ (entered (callsSince (worldOf [driverNamed "cluster", installerSecret])
        (Reconcile memReconciler (requestFor "cluster")
          (worldOf [driverNamed "cluster", installerSecret])).2)).filter
        (fun f => f ∈ handlerOrder) = handlerOrder :=
  ⟨(Reconcile_handler_order memReconciler (requestFor "cluster") (driverNamed "cluster")
      (worldOf [driverNamed "cluster", installerSecret]) _ _ _ _ _ _ _
      ⟨⟨[driverNamed "cluster"], rfl, by decide⟩, rfl, rfl, rfl, Or.inr rfl⟩
      rfl rfl rfl rfl rfl rfl).1,
   (Reconcile_handler_order memReconciler (requestFor "cluster") (driverNamed "cluster")
      (worldOf [driverNamed "cluster", installerSecret]) _ _ _ _ _ _ _
      ⟨⟨[driverNamed "cluster"], rfl, by decide⟩, rfl, rfl, rfl, Or.inr rfl⟩
      rfl rfl rfl rfl rfl rfl).2.2.1⟩

section FailFast

variable {σ : Type}

/-- A run of call sites in which the calls before one succeed and that one
fails: the run returns its error and ends in the world it left. -/
theorem runSteps_first_error (s : Step σ) (post : List (Step σ)) (e : Error) :
    ∀ (pre : List (Step σ)) (w : World σ), (runSteps pre w).1 = none →
      (s.run (runSteps pre w).2).1 = some e →
      runSteps (pre ++ s :: post) w = (some e, (s.run (runSteps pre w).2).2) := by
  intro pre
  induction pre with
  | nil =>
    intro w _ hs
    exact runSteps_cons_error s post w e hs
  | cons t pre ih =>
    intro w hpre hs
    cases ht : (t.run w).1 with
    | some e' =>
      rw [runSteps_cons_error t pre w e' ht] at hpre
      simp at hpre
    | none =>
      rw [runSteps_cons_ok t pre w ht] at hpre hs
      rw [List.cons_append, runSteps_cons_ok t (pre ++ s :: post) w ht,
        runSteps_cons_ok t pre w ht]
      exact ih (t.run w).2 hpre hs

/-- The pass from the read of the credentials on, up to the call of
createDriverCredentialsSecret. -/
theorem reconcileFromSecret_to_secret (r : ReconcileManilaDriver σ) (inst : Object)
    (W₃ W₄ : World σ) (cloud : Cloud)
    (hcloud : getCloudFromSecret r W₃ = ((cloud, none), W₄)) :
    reconcileFromSecret r inst W₃ =
      match W₄.call Fn.createDriverCredentialsSecret
          (r.pkg.createDriverCredentialsSecret inst cloud) with
      | (some err, w) => (({}, some err), w)
      | (none, w) =>
      match getManilaShareTypes r cloud w with
      | ((_, some err), w) =>
        if !isErrDefault404 err then (({}, some err), w)
        else (({}, none), w)
      | ((shareTypes, none), w) => reconcileFromInventory r inst shareTypes w := by
  unfold reconcileFromSecret
  simp only [hcloud]

/-- C14. Fail-fast.  Let the calls before one call site succeed and let that
call return an error `e`.  Among the five calls of
handleManilaControllerPluginRBAC: it returns exactly `e` and ends in the world
the failing handler left, so no later handler of the set is entered.  Among the
eight calls of handleManilariverDeployment: it returns `e` with an empty result
and ends in that world.  In an Active pass of Reconcile, for the first three
handlers, for createDriverCredentialsSecret, for handleManilaStorageClasses and
for each call of handleManilariverDeployment: Reconcile returns exactly `e`
with an empty result and ends in the world the failing call left, so no later
handler is entered and no further request is sent to the store.  The two
functions of the inventory gate, which are not resource handlers, end the pass
in the same way for every error but the two conditions they are read for: a
not-found from getCloudFromSecret and an ErrDefault404 from getManilaShareTypes. -/
theorem Reconcile_fail_fast (r : ReconcileManilaDriver σ) (request : Request)
    (inst : Object) (w : World σ) (e : Error) :
    (∀ (i : Object) (v : World σ) pre s post, rbacSteps r i = pre ++ s :: post →
      (runSteps pre (v.enter Fn.handleManilaControllerPluginRBAC)).1 = none →
      (s.run (runSteps pre (v.enter Fn.handleManilaControllerPluginRBAC)).2).1 = some e →
      handleManilaControllerPluginRBAC r i v
        = (some e, (s.run (runSteps pre (v.enter Fn.handleManilaControllerPluginRBAC)).2).2))
    ∧ (∀ (i : Object) (v : World σ) pre s post, deploymentSteps r i = pre ++ s :: post →
      (runSteps pre (v.enter Fn.handleManilariverDeployment)).1 = none →
      (s.run (runSteps pre (v.enter Fn.handleManilariverDeployment)).2).1 = some e →
      handleManilariverDeployment r i v
        = (({}, some e),
           (s.run (runSteps pre (v.enter Fn.handleManilariverDeployment)).2).2))
    ∧ (ActivePass r request inst w →
      ∀ pre s post, firstSteps r (activeInstance inst) = pre ++ s :: post →
      (runSteps pre (activeStart r request inst w)).1 = none →
      (s.run (runSteps pre (activeStart r request inst w)).2).1 = some e →
      Reconcile r request w
        = (({}, some e), (s.run (runSteps pre (activeStart r request inst w)).2).2))
    ∧ (ActivePass r request inst w → ∀ W₃,
      runSteps (firstSteps r (activeInstance inst)) (activeStart r request inst w)
        = (none, W₃) →
      (∀ c W₄, getCloudFromSecret r W₃ = ((c, some e), W₄) → errors.IsNotFound e = false →
        Reconcile r request w = (({}, some e), W₄))
      ∧ (∀ W₄ cloud, getCloudFromSecret r W₃ = ((cloud, none), W₄) →
        (∀ s', r.pkg.createDriverCredentialsSecret (activeInstance inst) cloud W₄.store
            = (some e, s') →
          Reconcile r request w
            = (({}, some e),
               { store := s'
                 trace := W₄.trace ++ [Call.enter Fn.createDriverCredentialsSecret] }))
        ∧ (∀ W₅,
          W₄.call Fn.createDriverCredentialsSecret
            (r.pkg.createDriverCredentialsSecret (activeInstance inst) cloud) = (none, W₅) →
          (∀ sts W₆, getManilaShareTypes r cloud W₅ = ((sts, some e), W₆) →
            isErrDefault404 e = false → Reconcile r request w = (({}, some e), W₆))
          ∧ (∀ W₆ shareTypes, getManilaShareTypes r cloud W₅ = ((shareTypes, none), W₆) →
            (∀ s', r.pkg.handleManilaStorageClasses (activeInstance inst) shareTypes W₆.store
                = (some e, s') →
              Reconcile r request w
                = (({}, some e),
                   { store := s'
                     trace := W₆.trace ++ [Call.enter Fn.handleManilaStorageClasses] }))
            ∧ (∀ W₇ pre s post,
              W₆.call Fn.handleManilaStorageClasses
                (r.pkg.handleManilaStorageClasses (activeInstance inst) shareTypes)
                = (none, W₇) →
              deploymentSteps r (activeInstance inst) = pre ++ s :: post →
              (runSteps pre (W₇.enter Fn.handleManilariverDeployment)).1 = none →
              (s.run (runSteps pre (W₇.enter Fn.handleManilariverDeployment)).2).1
                = some e →
              Reconcile r request w
                = (({}, some e),
                   (s.run (runSteps pre (W₇.enter Fn.handleManilariverDeployment)).2).2)))))) := by
  have hdeploy : ∀ (i : Object) (v : World σ) pre s post,
      deploymentSteps r i = pre ++ s :: post →
      (runSteps pre (v.enter Fn.handleManilariverDeployment)).1 = none →
      (s.run (runSteps pre (v.enter Fn.handleManilariverDeployment)).2).1 = some e →
      handleManilariverDeployment r i v
        = (({}, some e),
           (s.run (runSteps pre (v.enter Fn.handleManilariverDeployment)).2).2) := by
    intro i v pre s post hsplit hpre hs
    rw [handleManilariverDeployment_eq_runSteps, hsplit,
      runSteps_first_error s post e pre _ hpre hs]
  refine ⟨?_, hdeploy, ?_, ?_⟩
  · intro i v pre s post hsplit hpre hs
    rw [handleManilaControllerPluginRBAC_eq_runSteps, hsplit,
      runSteps_first_error s post e pre _ hpre hs]
  · intro hactive pre s post hsplit hpre hs
    rw [Reconcile_active r request inst w hactive, reconcileActive_phases, hsplit,
      runSteps_first_error s post e pre _ hpre hs]
  · intro hactive W₃ hfirst
    have hstart : Reconcile r request w
        = reconcileFromSecret r (activeInstance inst) W₃ := by
      rw [Reconcile_active r request inst w hactive, reconcileActive_phases, hfirst]
    rw [hstart]
    constructor
    · intro c W₄ hcloud hnf
      unfold reconcileFromSecret
      simp [hcloud, hnf]
    · intro W₄ cloud hcloud
      rw [reconcileFromSecret_to_secret r _ W₃ W₄ cloud hcloud]
      constructor
      · intro s' hfail
        simp only [World.call, hfail]
      · intro W₅ hsecret
        rw [hsecret]
        constructor
        · intro sts W₆ hst h404
          simp [hst, h404]
        · intro W₆ shareTypes hst
          simp only [hst, reconcileFromInventory]
          constructor
          · intro s' hfail
            simp only [World.call, hfail]
          · intro W₇ pre s post hsc hsplit hpre hs
            rw [hsc]
            exact hdeploy _ W₇ pre s post hsplit hpre hs

end FailFast

theorem Reconcile_fail_fast_witness :
    handleManilaControllerPluginRBAC refusingReconciler (driverNamed "cluster")
        (worldOf [annotated desiredServiceAccount])
      = (some (Error.other "refused"),
         { store := { objects := [annotated desiredServiceAccount] }
           trace := [Call.enter Fn.handleManilaControllerPluginRBAC,
             Call.enter Fn.handleManilaControllerPluginServiceAccount,
             Call.get Kind.ServiceAccount (fetchKey true desiredServiceAccount),
             Call.enter Fn.handleManilaControllerPluginClusterRole,
             Call.get Kind.ClusterRole
               (fetchKey false generateManilaControllerPluginClusterRole),
             Call.create (annotated generateManilaControllerPluginClusterRole)] })
    ∧ (Reconcile failingCAReconciler (requestFor "cluster")
        (worldOf [driverNamed "cluster"])).1 = ({}, some (Error.other "no CA bundle")) :=
  ⟨(Reconcile_fail_fast refusingReconciler (requestFor "cluster") (driverNamed "cluster")
      (worldOf [driverNamed "cluster"]) (Error.other "refused")).1
      (driverNamed "cluster") (worldOf [annotated desiredServiceAccount])
      [{ fn := Fn.handleManilaControllerPluginServiceAccount
         run := handleManilaControllerPluginServiceAccount refusingReconciler
           (driverNamed "cluster") }]
      { fn := Fn.handleManilaControllerPluginClusterRole
        run := handleManilaControllerPluginClusterRole refusingReconciler
          (driverNamed "cluster") }
      [{ fn := Fn.handleManilaControllerPluginClusterRoleBinding
         run := handleManilaControllerPluginClusterRoleBinding refusingReconciler
           (driverNamed "cluster") },
       { fn := Fn.handleManilaControllerPluginRole
         run := handleManilaControllerPluginRole refusingReconciler (driverNamed "cluster") },
       { fn := Fn.handleManilaControllerPluginRoleBinding
         run := handleManilaControllerPluginRoleBinding refusingReconciler
           (driverNamed "cluster") }]
      rfl rfl rfl,
   congrArg Prod.fst
    ((Reconcile_fail_fast failingCAReconciler (requestFor "cluster") (driverNamed "cluster")
      (worldOf [driverNamed "cluster"]) (Error.other "no CA bundle")).2.2.1
      ⟨⟨[driverNamed "cluster"], rfl, by decide⟩, rfl, rfl, rfl, Or.inr rfl⟩
      [pkgStep Fn.handleManilaDriverNamespace
        (failingCAReconciler.pkg.handleManilaDriverNamespace
          (activeInstance (driverNamed "cluster")))]
      (pkgStep Fn.handleCACertConfigMap
        (failingCAReconciler.pkg.handleCACertConfigMap
          (activeInstance (driverNamed "cluster"))))
      [pkgStep Fn.handleCredentialsRequest
        (failingCAReconciler.pkg.handleCredentialsRequest
          (activeInstance (driverNamed "cluster")))]
      rfl rfl rfl)⟩

section TerminatingPass

variable {σ : Type}

theorem updates_append (a b : List Call) : updates (a ++ b) = updates a ++ updates b := by
  simp [updates, List.filterMap_append]

/-- Calls of a finalization hold no update and enter only finalizeManilaDriver
and its delete steps. -/
theorem finalizationCall_frame (new : List Call)
    (h : ∀ c ∈ new, finalizationCall c = true) :
    updates new = []
    ∧ ∀ f ∈ entered new, f = Fn.finalizeManilaDriver ∨ f ∈ finalizeSteps := by
  induction new with
  | nil => exact ⟨rfl, fun f hf => by simp [entered] at hf⟩
  | cons c cs ih =>
    obtain ⟨hu, he⟩ := ih (fun x hx => h x (List.mem_cons_of_mem c hx))
    have hc := h c (List.mem_cons_self c cs)
    cases c with
    | enter g =>
      refine ⟨by simpa [updates] using hu, ?_⟩
      intro f hf
      have hf' : f = g ∨ f ∈ entered cs := by simpa [entered] using hf
      rcases hf' with rfl | hf'
      · simpa [finalizationCall] using hc
      · exact he f hf'
    | delete o =>
      refine ⟨by simpa [updates] using hu, ?_⟩
      intro f hf
      exact he f (by simpa [entered] using hf)
    | list k => simp [finalizationCall] at hc
    | get k key => simp [finalizationCall] at hc
    | create o => simp [finalizationCall] at hc
    | update o => simp [finalizationCall] at hc
    | cloud q => simp [finalizationCall] at hc

/-- A delete step adds only calls of a finalization. -/
theorem runDelete_calls (r : ReconcileManilaDriver σ) (f : Fn) (hf : f ∈ finalizeSteps)
    (w : World σ) :
    Adds (fun new => ∀ c ∈ new, finalizationCall c = true) w (runDelete r f w).2 := by
  simp only [finalizeSteps, List.mem_cons, List.mem_singleton, List.not_mem_nil,
    or_false] at hf
  rcases hf with rfl | rfl | rfl | rfl | rfl | rfl | rfl | rfl | rfl | rfl | rfl
  case inr.inr.inr.inr.inr.inl =>
    refine ⟨[Call.enter Fn.deleteManilaControllerPluginClusterRole,
      Call.delete generateManilaControllerPluginClusterRole], ?_, by decide⟩
    simp only [runDelete, deleteManilaControllerPluginClusterRole, clientDelete, World.enter]
    cases (r.client.Delete generateManilaControllerPluginClusterRole w.store).1 <;> simp
  case inr.inr.inr.inr.inr.inr.inr.inr.inl =>
    refine ⟨[Call.enter Fn.deleteManilaControllerPluginClusterRoleBinding,
      Call.delete generateManilaControllerPluginClusterRoleBinding], ?_, by decide⟩
    simp only [runDelete, deleteManilaControllerPluginClusterRoleBinding, clientDelete,
      World.enter]
    cases (r.client.Delete generateManilaControllerPluginClusterRoleBinding w.store).1 <;> simp
  all_goals exact ⟨[Call.enter _], rfl, by decide⟩

/-- A run of delete steps adds only calls of a finalization, however it ends. -/
theorem runDeletes_calls (r : ReconcileManilaDriver σ) :
    ∀ (fs : List Fn), (∀ f ∈ fs, f ∈ finalizeSteps) → ∀ (w : World σ),
      Adds (fun new => ∀ c ∈ new, finalizationCall c = true) w (runDeletes r fs w).2 := by
  intro fs
  induction fs with
  | nil =>
    intro _ w
    exact Adds.refl _ (fun c hc => by simp at hc) w
  | cons f fs ih =>
    intro hfs w
    have h₁ := runDelete_calls r f (hfs f (List.mem_cons_self f fs)) w
    simp only [runDeletes]
    split
    · exact h₁
    · exact Adds.trans_all _ w _ _ h₁
        (ih (fun g hg => hfs g (List.mem_cons_of_mem f hg)) _)

/-- The method finalizeManilaDriver adds only calls of a finalization. -/
theorem finalizeManilaDriver_calls (r : ReconcileManilaDriver σ) (inst : Object)
    (w : World σ) :
    Adds (fun new => ∀ c ∈ new, finalizationCall c = true) w
      (finalizeManilaDriver r inst w).2 := by
  rw [finalizeManilaDriver_eq_runDeletes]
  exact Adds.trans_all _ w (w.enter Fn.finalizeManilaDriver) _
    ⟨[Call.enter Fn.finalizeManilaDriver], rfl, by decide⟩
    (runDeletes_calls r finalizeSteps (fun f hf => hf) _)

/-- On an instance marked for deletion that carries the finalizer, Reconcile
finalizes and, if that succeeds, sends the update that removes the finalizer. -/
theorem terminatingPass_eq (r : ReconcileManilaDriver σ) (request : Request)
    (inst : Object) (w : World σ) (items : List Object)
    (hlist : r.apiReader.List Kind.ManilaDriver w.store = Except.ok items)
    (hone : items.length ≤ 1)
    (hget : r.apiReader.Get Kind.ManilaDriver request.NamespacedName w.store = Except.ok inst)
    (hname : inst.ObjectMeta.Name = manilaDriverCRName)
    (hdel : inst.GetDeletionTimestamp ≠ none)
    (hfin : contains inst.GetFinalizers manilaDriverFinalizer = true) :
    Reconcile r request w
      = match finalizeManilaDriver r inst (afterFetch request w) with
        | (some err, w) => (({}, some err), w)
        | (none, w) =>
          (({}, (r.client.Update (controllerutil.RemoveFinalizer inst manilaDriverFinalizer)
                  w.store).1),
           { store := (r.client.Update
               (controllerutil.RemoveFinalizer inst manilaDriverFinalizer) w.store).2
             trace := w.trace
               ++ [Call.update (controllerutil.RemoveFinalizer inst manilaDriverFinalizer)] }) := by
  have hnot : ¬ 1 < items.length := by omega
  unfold Reconcile
  simp only [apiReaderList, apiReaderGet, World.enter, hlist, hnot, hget, hname, hdel, hfin,
    afterFetch, clientUpdate, gt_iff_lt, if_false, bne_self_eq_false, Bool.false_eq_true,
    List.append_assoc, List.singleton_append, List.cons_append, List.nil_append, ne_eq,
    not_false_eq_true, bne_iff_ne, if_true]
  repeat' split
  all_goals simp_all

end TerminatingPass

section TerminatingClaim

variable {σ : Type}

/-- C12. For an instance that is the only one listed, is called "cluster", is
marked for deletion and carries the finalizer: if finalizeManilaDriver returns an
error, Reconcile returns that error in the world finalizeManilaDriver left and
its trace holds no update; if finalizeManilaDriver returns nil, Reconcile sends
one update, of the instance without the finalizer and with every other finalizer
kept, as its last call, and returns what that update returns, so nil only if the
update succeeds; in both cases the functions entered are Reconcile,
finalizeManilaDriver and delete steps, none of them addFinalizer or a function
of an Active pass. -/
theorem Reconcile_terminating (r : ReconcileManilaDriver σ) (request : Request)
    (inst : Object) (w : World σ) (items : List Object)
    (hlist : r.apiReader.List Kind.ManilaDriver w.store = Except.ok items)
    (hone : items.length ≤ 1)
    (hget : r.apiReader.Get Kind.ManilaDriver request.NamespacedName w.store = Except.ok inst)
    (hname : inst.ObjectMeta.Name = manilaDriverCRName)
    (hdel : inst.GetDeletionTimestamp ≠ none)
    (hfin : contains inst.GetFinalizers manilaDriverFinalizer = true) :
    (∀ e, (finalizeManilaDriver r inst (afterFetch request w)).1 = some e →
        Reconcile r request w = (({}, some e), finalized r request inst w)
        ∧ updates (callsSince w (Reconcile r request w).2) = [])
    ∧ ((finalizeManilaDriver r inst (afterFetch request w)).1 = none →
        Reconcile r request w
          = (({}, (r.client.Update (controllerutil.RemoveFinalizer inst manilaDriverFinalizer)
                    (finalized r request inst w).store).1),
             { store := (r.client.Update
                 (controllerutil.RemoveFinalizer inst manilaDriverFinalizer)
                 (finalized r request inst w).store).2
               trace := (finalized r request inst w).trace
                 ++ [Call.update (controllerutil.RemoveFinalizer inst manilaDriverFinalizer)] })
        ∧ updates (callsSince w (Reconcile r request w).2)
            = [controllerutil.RemoveFinalizer inst manilaDriverFinalizer]
        ∧ ((Reconcile r request w).1.2 = none
            ↔ (r.client.Update (controllerutil.RemoveFinalizer inst manilaDriverFinalizer)
                (finalized r request inst w).store).1 = none))
    ∧ (manilaDriverFinalizer
          ∉ (controllerutil.RemoveFinalizer inst manilaDriverFinalizer).GetFinalizers
        ∧ ∀ t, t ≠ manilaDriverFinalizer →
            (t ∈ (controllerutil.RemoveFinalizer inst manilaDriverFinalizer).GetFinalizers
              ↔ t ∈ inst.GetFinalizers))
    ∧ (∀ f ∈ entered (callsSince w (Reconcile r request w).2),
        (f = Fn.Reconcile ∨ f = Fn.finalizeManilaDriver ∨ f ∈ finalizeSteps)
        ∧ f ≠ Fn.addFinalizer ∧ f ∉ passOrder) := by
  have heq := terminatingPass_eq r request inst w items hlist hone hget hname hdel hfin
  obtain ⟨new, ht, hq⟩ := finalizeManilaDriver_calls r inst (afterFetch request w)
  obtain ⟨hu, he⟩ := finalizationCall_frame new hq
  have hft : (finalized r request inst w).trace
      = w.trace ++ ([Call.enter Fn.Reconcile, Call.list Kind.ManilaDriver,
          Call.get Kind.ManilaDriver request.NamespacedName] ++ new) := by
    show (finalizeManilaDriver r inst (afterFetch request w)).2.trace = _
    rw [ht]
    simp [afterFetch]
  have hfu : updates ([Call.enter Fn.Reconcile, Call.list Kind.ManilaDriver,
      Call.get Kind.ManilaDriver request.NamespacedName] ++ new) = [] := by
    rw [updates_append, hu]
    rfl
  have hfe : ∀ f ∈ entered ([Call.enter Fn.Reconcile, Call.list Kind.ManilaDriver,
      Call.get Kind.ManilaDriver request.NamespacedName] ++ new),
      f = Fn.Reconcile ∨ f = Fn.finalizeManilaDriver ∨ f ∈ finalizeSteps := by
    intro f hf
    rw [entered_append] at hf
    rcases List.mem_append.1 hf with h | h
    · left
      simpa [entered] using h
    · exact Or.inr (he f h)
  have hframe : ∀ f, (f = Fn.Reconcile ∨ f = Fn.finalizeManilaDriver ∨ f ∈ finalizeSteps) →
      (f = Fn.Reconcile ∨ f = Fn.finalizeManilaDriver ∨ f ∈ finalizeSteps)
        ∧ f ≠ Fn.addFinalizer ∧ f ∉ passOrder := by
    intro f hf
    refine ⟨hf, ?_⟩
    rcases hf with rfl | rfl | hf
    · decide
    · decide
    · simp only [finalizeSteps, List.mem_cons, List.mem_singleton, List.not_mem_nil,
        or_false] at hf
      rcases hf with rfl | rfl | rfl | rfl | rfl | rfl | rfl | rfl | rfl | rfl | rfl <;> decide
  cases hres : (finalizeManilaDriver r inst (afterFetch request w)).1 with
  | some e₀ =>
    have hR : Reconcile r request w = (({}, some e₀), finalized r request inst w) := by
      rw [heq]
      unfold finalized
      split <;> simp_all
    have hsince : callsSince w (Reconcile r request w).2
        = [Call.enter Fn.Reconcile, Call.list Kind.ManilaDriver,
            Call.get Kind.ManilaDriver request.NamespacedName] ++ new := by
      rw [hR]
      exact callsSince_of_append w _ _ hft
    refine ⟨?_, ?_, ?_, ?_⟩
    · intro e hE
      cases hE
      exact ⟨hR, by rw [hsince]; exact hfu⟩
    · intro hE
      cases hE
    · constructor
      · simp [controllerutil.RemoveFinalizer, Object.GetFinalizers, Object.SetFinalizers]
      · intro t htne
        simp [controllerutil.RemoveFinalizer, Object.GetFinalizers, Object.SetFinalizers, htne]
    · intro f hf
      rw [hsince] at hf
      exact hframe f (hfe f hf)
  | none =>
    have hR : Reconcile r request w
        = (({}, (r.client.Update (controllerutil.RemoveFinalizer inst manilaDriverFinalizer)
                    (finalized r request inst w).store).1),
             { store := (r.client.Update
                 (controllerutil.RemoveFinalizer inst manilaDriverFinalizer)
                 (finalized r request inst w).store).2
               trace := (finalized r request inst w).trace
                 ++ [Call.update
                      (controllerutil.RemoveFinalizer inst manilaDriverFinalizer)] }) := by
      rw [heq]
      unfold finalized
      split <;> simp_all
    have hsince : callsSince w (Reconcile r request w).2
        = ([Call.enter Fn.Reconcile, Call.list Kind.ManilaDriver,
            Call.get Kind.ManilaDriver request.NamespacedName] ++ new)
          ++ [Call.update (controllerutil.RemoveFinalizer inst manilaDriverFinalizer)] := by
      rw [hR]
      apply callsSince_of_append
      show (finalized r request inst w).trace ++ _ = _
      rw [hft]
      simp
    refine ⟨?_, ?_, ?_, ?_⟩
    · intro e hE
      cases hE
    · intro _
      refine ⟨hR, ?_, ?_⟩
      · rw [hsince, updates_append, hfu]
        rfl
      · rw [hR]
    · constructor
      · simp [controllerutil.RemoveFinalizer, Object.GetFinalizers, Object.SetFinalizers]
      · intro t htne
        simp [controllerutil.RemoveFinalizer, Object.GetFinalizers, Object.SetFinalizers, htne]
    · intro f hf
      rw [hsince, entered_append] at hf
      rcases List.mem_append.1 hf with h | h
      · exact hframe f (hfe f h)
      · simp [entered] at h

end TerminatingClaim

theorem Reconcile_terminating_witness :
    (Reconcile refusingReconciler (requestFor "cluster")
        (worldOf [terminatingDriver [manilaDriverFinalizer, "kept"]])
      = (({}, some (Error.other "refused")),
         finalized refusingReconciler (requestFor "cluster")
           (terminatingDriver [manilaDriverFinalizer, "kept"])
           (worldOf [terminatingDriver [manilaDriverFinalizer, "kept"]]))
      ∧ updates (callsSince (worldOf [terminatingDriver [manilaDriverFinalizer, "kept"]])
          (Reconcile refusingReconciler (requestFor "cluster")
            (worldOf [terminatingDriver [manilaDriverFinalizer, "kept"]])).2) = [])
    ∧ updates (callsSince (worldOf [terminatingDriver [manilaDriverFinalizer, "kept"]])
        (Reconcile memReconciler (requestFor "cluster")
          (worldOf [terminatingDriver [manilaDriverFinalizer, "kept"]])).2)
        = [controllerutil.RemoveFinalizer (terminatingDriver [manilaDriverFinalizer, "kept"])
            manilaDriverFinalizer] :=
  ⟨(Reconcile_terminating refusingReconciler (requestFor "cluster")
      (terminatingDriver [manilaDriverFinalizer, "kept"])
      (worldOf [terminatingDriver [manilaDriverFinalizer, "kept"]])
      [terminatingDriver [manilaDriverFinalizer, "kept"]]
      rfl (by decide) rfl rfl (by decide) (by decide)).1 (Error.other "refused") (by decide),
   ((Reconcile_terminating memReconciler (requestFor "cluster")
      (terminatingDriver [manilaDriverFinalizer, "kept"])
      (worldOf [terminatingDriver [manilaDriverFinalizer, "kept"]])
      [terminatingDriver [manilaDriverFinalizer, "kept"]]
      rfl (by decide) rfl rfl (by decide) (by decide)).2.1 (by decide)).2.1⟩

section HandlerFrame

variable {σ : Type}

theorem HandlerCall.of_enter (r : ReconcileManilaDriver σ) (f : Fn)
    (hf : f ≠ Fn.addFinalizer) : HandlerCall r (Call.enter f) :=
  ⟨fun h => hf (Call.enter.inj h), fun _ h => Call.noConfusion h⟩

theorem HandlerCall.of_get (r : ReconcileManilaDriver σ) (k : Kind) (key : NamespacedName) :
    HandlerCall r (Call.get k key) :=
  ⟨fun h => Call.noConfusion h, fun _ h => Call.noConfusion h⟩

theorem HandlerCall.of_create (r : ReconcileManilaDriver σ) (o : Object) :
    HandlerCall r (Call.create o) :=
  ⟨fun h => Call.noConfusion h, fun _ h => Call.noConfusion h⟩

theorem HandlerCall.of_cloud (r : ReconcileManilaDriver σ) (q : CloudRequest) :
    HandlerCall r (Call.cloud q) :=
  ⟨fun h => Call.noConfusion h, fun _ h => Call.noConfusion h⟩

theorem HandlerCall.of_update (r : ReconcileManilaDriver σ) (h : ConvergeHandler σ)
    (hh : h ∈ controllerPluginRBACHandlers σ) (d : Object)
    (hann : r.annotator.SetLastAppliedAnnotation h.template = Except.ok d) :
    HandlerCall r (Call.update d) :=
  ⟨fun e => Call.noConfusion e, fun o e => ⟨h, hh, by rw [hann, Call.update.inj e]⟩⟩

/-- The functions of the RBAC table are not addFinalizer. -/
theorem handler_fn_ne (h : ConvergeHandler σ) (hh : h ∈ controllerPluginRBACHandlers σ) :
    h.fn ≠ Fn.addFinalizer := by
  simp only [controllerPluginRBACHandlers, List.mem_cons, List.mem_singleton,
    List.not_mem_nil, or_false] at hh
  rcases hh with rfl | rfl | rfl | rfl | rfl <;> exact fun h => Fn.noConfusion h

/-- A handler of the RBAC table adds only handler calls, whatever happens. -/
theorem converge_calls (r : ReconcileManilaDriver σ) (h : ConvergeHandler σ)
    (hh : h ∈ controllerPluginRBACHandlers σ) (w : World σ) :
    Adds (fun new => ∀ c ∈ new, HandlerCall r c) w
      (converge r h.fn h.kind h.template h.namespaced w).2 := by
  have hen := HandlerCall.of_enter r h.fn (handler_fn_ne h hh)
  cases hann : r.annotator.SetLastAppliedAnnotation h.template with
  | error e =>
    rw [converge_annotate_error r _ _ _ _ w e hann]
    refine ⟨[Call.enter h.fn], rfl, ?_⟩
    intro c hc
    simp only [List.mem_singleton] at hc
    subst hc
    exact hen
  | ok desired =>
    have hgt := HandlerCall.of_get r h.kind (fetchKey h.namespaced desired)
    cases hget : r.apiReader.Get h.kind (fetchKey h.namespaced desired) w.store with
    | error e =>
      cases hnf : errors.IsNotFound e with
      | true =>
        rw [converge_created r _ _ _ desired _ w e hann hget hnf]
        refine ⟨_, rfl, ?_⟩
        intro c hc
        simp only [List.mem_cons, List.mem_singleton, List.not_mem_nil, or_false] at hc
        rcases hc with rfl | rfl | rfl
        · exact hen
        · exact hgt
        · exact HandlerCall.of_create r desired
      | false =>
        rw [converge_fetch_error r _ _ _ desired _ w e hann hget hnf]
        refine ⟨_, rfl, ?_⟩
        intro c hc
        simp only [List.mem_cons, List.mem_singleton, List.not_mem_nil, or_false] at hc
        rcases hc with rfl | rfl
        · exact hen
        · exact hgt
    | ok found =>
      rcases hcmp : compareLastAppliedAnnotations r.annotator found desired with ⟨b, oe⟩
      cases oe with
      | some e =>
        rw [converge_compare_error r _ _ _ desired found _ w b e hann hget hcmp]
        refine ⟨_, rfl, ?_⟩
        intro c hc
        simp only [List.mem_cons, List.mem_singleton, List.not_mem_nil, or_false] at hc
        rcases hc with rfl | rfl
        · exact hen
        · exact hgt
      | none =>
        cases b with
        | true =>
          rw [converge_unchanged r _ _ _ desired found _ w hann hget hcmp]
          refine ⟨_, rfl, ?_⟩
          intro c hc
          simp only [List.mem_cons, List.mem_singleton, List.not_mem_nil, or_false] at hc
          rcases hc with rfl | rfl
          · exact hen
          · exact hgt
        | false =>
          rw [converge_updated r _ _ _ desired found _ w hann hget hcmp]
          refine ⟨_, rfl, ?_⟩
          intro c hc
          simp only [List.mem_cons, List.mem_singleton, List.not_mem_nil, or_false] at hc
          rcases hc with rfl | rfl | rfl
          · exact hen
          · exact hgt
          · exact HandlerCall.of_update r h hh desired hann

/-- A run of call sites adds only calls with a property each of them keeps to,
however it ends. -/
theorem runSteps_calls (P : Call → Prop) :
    ∀ (steps : List (Step σ)) (w : World σ),
      (∀ s ∈ steps, ∀ w', Adds (fun new => ∀ c ∈ new, P c) w' (s.run w').2) →
      Adds (fun new => ∀ c ∈ new, P c) w (runSteps steps w).2 := by
  intro steps
  induction steps with
  | nil =>
    intro w _
    exact Adds.refl _ (fun c hc => by simp at hc) w
  | cons s ss ih =>
    intro w hs
    have h₁ := hs s (List.mem_cons_self _ _) w
    cases h : (s.run w).1 with
    | some e =>
      rw [runSteps_cons_error s ss w e h]
      exact h₁
    | none =>
      rw [runSteps_cons_ok s ss w h]
      exact Adds.trans_all _ _ _ _ h₁
        (ih (s.run w).2 (fun t ht => hs t (List.mem_cons_of_mem _ ht)))

/-- The call of a package method of another file adds its entry. -/
theorem pkgStep_calls (r : ReconcileManilaDriver σ) (f : Fn) (hf : f ≠ Fn.addFinalizer)
    (body : σ → Option Error × σ) (w : World σ) :
    Adds (fun new => ∀ c ∈ new, HandlerCall r c) w ((pkgStep f body).run w).2 := by
  refine ⟨[Call.enter f], rfl, ?_⟩
  intro c hc
  simp only [List.mem_singleton] at hc
  subst hc
  exact HandlerCall.of_enter r f hf

theorem handleManilaControllerPluginRBAC_calls (r : ReconcileManilaDriver σ)
    (inst : Object) (w : World σ) :
    Adds (fun new => ∀ c ∈ new, HandlerCall r c) w
      (handleManilaControllerPluginRBAC r inst w).2 := by
  rw [handleManilaControllerPluginRBAC_eq_runSteps]
  have h₁ : Adds (fun new => ∀ c ∈ new, HandlerCall r c) w
      (w.enter Fn.handleManilaControllerPluginRBAC) := by
    refine ⟨[Call.enter Fn.handleManilaControllerPluginRBAC], rfl, ?_⟩
    intro c hc
    simp only [List.mem_singleton] at hc
    subst hc
    exact HandlerCall.of_enter r _ (fun h => Fn.noConfusion h)
  have h₂ := runSteps_calls (HandlerCall r) (rbacSteps r inst)
    (w.enter Fn.handleManilaControllerPluginRBAC) (by
      intro s hs w'
      simp only [rbacSteps, List.mem_map] at hs
      obtain ⟨h, hh, rfl⟩ := hs
      show Adds _ w' (h.run r inst w').2
      rw [handler_eq_converge h hh]
      exact converge_calls r h hh w')
  exact Adds.trans_all _ _ _ _ h₁ h₂

theorem handleManilariverDeployment_calls (r : ReconcileManilaDriver σ)
    (inst : Object) (w : World σ) :
    Adds (fun new => ∀ c ∈ new, HandlerCall r c) w
      (handleManilariverDeployment r inst w).2 := by
  rw [handleManilariverDeployment_eq_runSteps]
  have h₁ : Adds (fun new => ∀ c ∈ new, HandlerCall r c) w
      (w.enter Fn.handleManilariverDeployment) := by
    refine ⟨[Call.enter Fn.handleManilariverDeployment], rfl, ?_⟩
    intro c hc
    simp only [List.mem_singleton] at hc
    subst hc
    exact HandlerCall.of_enter r _ (fun h => Fn.noConfusion h)
  have h₂ := runSteps_calls (HandlerCall r) (deploymentSteps r inst)
    (w.enter Fn.handleManilariverDeployment) (by
      intro s hs w'
      simp only [deploymentSteps, List.mem_cons, List.mem_singleton, List.not_mem_nil,
        or_false] at hs
      rcases hs with rfl | rfl | rfl | rfl | rfl | rfl | rfl | rfl
      case inr.inr.inr.inr.inl =>
        exact handleManilaControllerPluginRBAC_calls r inst w'
      all_goals exact pkgStep_calls r _ (fun h => Fn.noConfusion h) _ w')
  exact Adds.trans_all _ _ _ _ h₁ h₂

end HandlerFrame

section PassFrame

variable {σ : Type}

theorem getCloudFromSecret_calls (r : ReconcileManilaDriver σ) (w : World σ) :
    Adds (fun new => ∀ c ∈ new, HandlerCall r c) w (getCloudFromSecret r w).2 := by
  rw [getCloudFromSecret_world]
  refine ⟨_, rfl, ?_⟩
  intro c hc
  simp only [List.mem_cons, List.mem_singleton, List.not_mem_nil, or_false] at hc
  rcases hc with rfl | rfl
  · exact HandlerCall.of_enter r _ (fun h => Fn.noConfusion h)
  · exact HandlerCall.of_get r _ _

theorem getManilaShareTypes_calls (r : ReconcileManilaDriver σ) (cloud : Cloud)
    (w : World σ) :
    Adds (fun new => ∀ c ∈ new, HandlerCall r c) w (getManilaShareTypes r cloud w).2 := by
  have h := getManilaShareTypes_trace r cloud w
  have e₁ := HandlerCall.of_enter r Fn.getManilaShareTypes (fun h => Fn.noConfusion h)
  have e₂ := HandlerCall.of_enter r Fn.getCloudProviderCert (fun h => Fn.noConfusion h)
  have e₃ := HandlerCall.of_cloud r CloudRequest.Authenticate
  have e₄ := HandlerCall.of_cloud r CloudRequest.ListShareTypes
  simp only [List.mem_cons, List.mem_singleton, List.not_mem_nil, or_false] at h
  rcases h with h | h | h | h
  all_goals
    refine ⟨_, h, ?_⟩
    intro c hc
    simp only [List.mem_cons, List.mem_singleton, List.not_mem_nil, or_false] at hc
    rcases hc with rfl | rfl | rfl | rfl <;> assumption

theorem call_calls {α : Type} (r : ReconcileManilaDriver σ) (f : Fn)
    (hf : f ≠ Fn.addFinalizer) (body : σ → α × σ) (w : World σ) :
    Adds (fun new => ∀ c ∈ new, HandlerCall r c) w (w.call f body).2 := by
  refine ⟨[Call.enter f], rfl, ?_⟩
  intro c hc
  simp only [List.mem_singleton] at hc
  subst hc
  exact HandlerCall.of_enter r f hf

/-- The pass from the read of the credentials on adds only handler calls. -/
theorem reconcileFromSecret_calls (r : ReconcileManilaDriver σ) (inst : Object)
    (w : World σ) :
    Adds (fun new => ∀ c ∈ new, HandlerCall r c) w (reconcileFromSecret r inst w).2 := by
  have a₁ := getCloudFromSecret_calls r w
  unfold reconcileFromSecret reconcileFromInventory
  rcases h₁ : getCloudFromSecret r w with ⟨⟨cloud, oe₁⟩, W₄⟩
  rw [h₁] at a₁
  cases oe₁ with
  | some e =>
    simp only []
    split <;> exact a₁
  | none =>
    simp only []
    have a₂ := call_calls r Fn.createDriverCredentialsSecret (fun h => Fn.noConfusion h)
      (r.pkg.createDriverCredentialsSecret inst cloud) W₄
    rcases h₂ : W₄.call Fn.createDriverCredentialsSecret
      (r.pkg.createDriverCredentialsSecret inst cloud) with ⟨oe₂, W₅⟩
    rw [h₂] at a₂
    have a₁₂ := Adds.trans_all _ _ _ _ a₁ a₂
    cases oe₂ with
    | some e => exact a₁₂
    | none =>
      simp only []
      have a₃ := getManilaShareTypes_calls r cloud W₅
      rcases h₃ : getManilaShareTypes r cloud W₅ with ⟨⟨shareTypes, oe₃⟩, W₆⟩
      rw [h₃] at a₃
      have a₁₃ := Adds.trans_all _ _ _ _ a₁₂ a₃
      cases oe₃ with
      | some e =>
        simp only []
        split <;> exact a₁₃
      | none =>
        simp only []
        have a₄ := call_calls r Fn.handleManilaStorageClasses (fun h => Fn.noConfusion h)
          (r.pkg.handleManilaStorageClasses inst shareTypes) W₆
        rcases h₄ : W₆.call Fn.handleManilaStorageClasses
          (r.pkg.handleManilaStorageClasses inst shareTypes) with ⟨oe₄, W₇⟩
        rw [h₄] at a₄
        have a₁₄ := Adds.trans_all _ _ _ _ a₁₃ a₄
        cases oe₄ with
        | some e => exact a₁₄
        | none => exact Adds.trans_all _ _ _ _ a₁₄ (handleManilariverDeployment_calls r inst W₇)

/-- The handlers of a pass add only handler calls, however the pass ends: they
do not enter addFinalizer, and every update they send is that of a desired
object of the RBAC set. -/
theorem reconcileActive_calls (r : ReconcileManilaDriver σ) (inst : Object) (w : World σ) :
    Adds (fun new => ∀ c ∈ new, HandlerCall r c) w (reconcileActive r inst w).2 := by
  rw [reconcileActive_phases]
  have a₁ := runSteps_calls (HandlerCall r) (firstSteps r inst) w (by
    intro s hs w'
    simp only [firstSteps, List.mem_cons, List.mem_singleton, List.not_mem_nil,
      or_false] at hs
    rcases hs with rfl | rfl | rfl <;> exact pkgStep_calls r _ (fun h => Fn.noConfusion h) _ w')
  rcases h₁ : runSteps (firstSteps r inst) w with ⟨oe, W₃⟩
  rw [h₁] at a₁
  cases oe with
  | some e => exact a₁
  | none => exact Adds.trans_all _ _ _ _ a₁ (reconcileFromSecret_calls r inst W₃)

/-- The function contains tells membership. -/
theorem contains_iff (list : List String) (s : String) :
    contains list s = true ↔ s ∈ list := by
  induction list with
  | nil => simp [contains]
  | cons v rest ih =>
    unfold contains
    by_cases hv : v = s
    · simp [hv]
    · have hv' : ¬ s = v := fun h => hv h.symm
      simp [hv, hv', ih]

/-- On an instance that is not marked for deletion and lacks the finalizer,
Reconcile calls addFinalizer; if its update fails the error is returned, else
the handlers run on the instance with the finalizer. -/
theorem activePass_without_finalizer (r : ReconcileManilaDriver σ) (request : Request)
    (inst : Object) (w : World σ) (items : List Object)
    (hlist : r.apiReader.List Kind.ManilaDriver w.store = Except.ok items)
    (hone : items.length ≤ 1)
    (hget : r.apiReader.Get Kind.ManilaDriver request.NamespacedName w.store = Except.ok inst)
    (hname : inst.ObjectMeta.Name = manilaDriverCRName)
    (hdel : inst.GetDeletionTimestamp = none)
    (hfin : contains inst.GetFinalizers manilaDriverFinalizer = false) :
    Reconcile r request w
      = match (r.client.Update (controllerutil.AddFinalizer inst manilaDriverFinalizer)
          w.store).1 with
        | some e => (({}, some e), afterAddFinalizer r request inst w)
        | none => reconcileActive r (controllerutil.AddFinalizer inst manilaDriverFinalizer)
            (afterAddFinalizer r request inst w) := by
  have hnot : ¬ 1 < items.length := by omega
  unfold Reconcile reconcileActive
  cases hu : (r.client.Update (controllerutil.AddFinalizer inst manilaDriverFinalizer)
      w.store).1 with
  | some e =>
    simp [apiReaderList, apiReaderGet, World.enter, hlist, hnot, hget, hname, hdel, hfin,
      afterAddFinalizer, addFinalizerCalls, addFinalizer, clientUpdate, hu]
  | none =>
    simp [apiReaderList, apiReaderGet, World.enter, hlist, hnot, hget, hname, hdel, hfin,
      afterAddFinalizer, addFinalizerCalls, addFinalizer, clientUpdate, hu]

/-- On an instance that is not marked for deletion and carries the finalizer,
Reconcile goes to the handlers right after the fetch. -/
theorem activePass_with_finalizer (r : ReconcileManilaDriver σ) (request : Request)
    (inst : Object) (w : World σ) (items : List Object)
    (hlist : r.apiReader.List Kind.ManilaDriver w.store = Except.ok items)
    (hone : items.length ≤ 1)
    (hget : r.apiReader.Get Kind.ManilaDriver request.NamespacedName w.store = Except.ok inst)
    (hname : inst.ObjectMeta.Name = manilaDriverCRName)
    (hdel : inst.GetDeletionTimestamp = none)
    (hfin : contains inst.GetFinalizers manilaDriverFinalizer = true) :
    Reconcile r request w = reconcileActive r inst (afterFetch request w) := by
  have hnot : ¬ 1 < items.length := by omega
  unfold Reconcile reconcileActive
  simp [apiReaderList, apiReaderGet, World.enter, hlist, hnot, hget, hname, hdel, hfin,
    afterFetch]

end PassFrame

section FinalizerAdded

variable {σ : Type}

/-- C15. For an instance that is the only one listed, is called "cluster" and
is not marked for deletion.  If its finalizers do not contain
"finalizer.manila.csi.openshift.io", Reconcile enters addFinalizer and sends one
update, of the instance whose finalizers are the original ones followed by that
token; if the update fails with e, Reconcile returns e and these are all its
calls, so no handler is entered; if it succeeds, the handlers run afterwards, on
the updated instance, and every call they add is a handler call: none enters
addFinalizer, and an update among them is that of a desired object of the RBAC
set.  If the finalizers contain the token, Reconcile goes from the fetch to the
handlers, and again only handler calls follow.  With an annotator that keeps the
kind of an object, no update among handler calls is that of a ManilaDriver.  The
function contains returns true exactly for the elements of the list. -/
theorem Reconcile_finalizer_added (r : ReconcileManilaDriver σ) (request : Request)
    (inst : Object) (w : World σ) (items : List Object)
    (hlist : r.apiReader.List Kind.ManilaDriver w.store = Except.ok items)
    (hone : items.length ≤ 1)
    (hget : r.apiReader.Get Kind.ManilaDriver request.NamespacedName w.store = Except.ok inst)
    (hname : inst.ObjectMeta.Name = manilaDriverCRName)
    (hdel : inst.GetDeletionTimestamp = none) :
    (contains inst.GetFinalizers manilaDriverFinalizer = false →
        (controllerutil.AddFinalizer inst manilaDriverFinalizer).GetFinalizers
          = inst.GetFinalizers ++ [manilaDriverFinalizer]
        ∧ (∀ e, (r.client.Update (controllerutil.AddFinalizer inst manilaDriverFinalizer)
              w.store).1 = some e →
            Reconcile r request w = (({}, some e), afterAddFinalizer r request inst w)
            ∧ callsSince w (Reconcile r request w).2 = addFinalizerCalls request inst)
        ∧ ((r.client.Update (controllerutil.AddFinalizer inst manilaDriverFinalizer)
              w.store).1 = none →
            Reconcile r request w
              = reconcileActive r (controllerutil.AddFinalizer inst manilaDriverFinalizer)
                  (afterAddFinalizer r request inst w)
            ∧ ∃ rest, callsSince w (Reconcile r request w).2
                  = addFinalizerCalls request inst ++ rest
                ∧ ∀ c ∈ rest, HandlerCall r c))
    ∧ (contains inst.GetFinalizers manilaDriverFinalizer = true →
        Reconcile r request w = reconcileActive r inst (afterFetch request w)
        ∧ ∃ rest, callsSince w (Reconcile r request w).2 = fetchCalls request ++ rest
            ∧ ∀ c ∈ rest, HandlerCall r c)
    ∧ ((∀ o d, r.annotator.SetLastAppliedAnnotation o = Except.ok d → d.kind = o.kind) →
        ∀ c, HandlerCall r c → ∀ o, c = Call.update o → o.kind ≠ Kind.ManilaDriver)
    ∧ (∀ (list : List String) (s : String), contains list s = true ↔ s ∈ list) := by
  refine ⟨?_, ?_, ?_, contains_iff⟩
  · intro hfin
    have heq := activePass_without_finalizer r request inst w items hlist hone hget hname
      hdel hfin
    have hmem : manilaDriverFinalizer ∉ inst.GetFinalizers := by
      intro h
      rw [(contains_iff _ _).2 h] at hfin
      cases hfin
    refine ⟨?_, ?_, ?_⟩
    · have hmem' : manilaDriverFinalizer ∉ inst.ObjectMeta.Finalizers := hmem
      simp [controllerutil.AddFinalizer, hmem', Object.GetFinalizers, Object.SetFinalizers]
    · intro e hu
      rw [hu] at heq
      refine ⟨heq, ?_⟩
      rw [heq]
      exact callsSince_of_append w _ _ rfl
    · intro hu
      rw [hu] at heq
      refine ⟨heq, ?_⟩
      rw [heq]
      obtain ⟨rest, ht, hq⟩ := reconcileActive_calls r
        (controllerutil.AddFinalizer inst manilaDriverFinalizer)
        (afterAddFinalizer r request inst w)
      refine ⟨rest, ?_, hq⟩
      apply callsSince_of_append
      rw [ht]
      simp [afterAddFinalizer]
  · intro hfin
    have heq := activePass_with_finalizer r request inst w items hlist hone hget hname
      hdel hfin
    refine ⟨heq, ?_⟩
    rw [heq]
    obtain ⟨rest, ht, hq⟩ := reconcileActive_calls r inst (afterFetch request w)
    refine ⟨rest, ?_, hq⟩
    apply callsSince_of_append
    rw [ht]
    simp [afterFetch, fetchCalls]
  · intro hkind c hc o hco
    obtain ⟨h, hh, hann⟩ := hc.2 o hco
    rw [hkind _ _ hann]
    simp only [controllerPluginRBACHandlers, List.mem_cons, List.mem_singleton,
      List.not_mem_nil, or_false] at hh
    rcases hh with rfl | rfl | rfl | rfl | rfl <;> exact fun hk => Kind.noConfusion hk

end FinalizerAdded

theorem Reconcile_finalizer_added_witness :
    (Reconcile refusingReconciler (requestFor "cluster") (worldOf [activeDriver ["kept"]])
        = (({}, some (Error.other "refused")),
           afterAddFinalizer refusingReconciler (requestFor "cluster") (activeDriver ["kept"])
             (worldOf [activeDriver ["kept"]]))
      ∧ callsSince (worldOf [activeDriver ["kept"]])
          (Reconcile refusingReconciler (requestFor "cluster")
            (worldOf [activeDriver ["kept"]])).2
          = addFinalizerCalls (requestFor "cluster") (activeDriver ["kept"]))
    ∧ Reconcile memReconciler (requestFor "cluster")
        (worldOf [activeDriver [manilaDriverFinalizer]])
        = reconcileActive memReconciler (activeDriver [manilaDriverFinalizer])
            (afterFetch (requestFor "cluster")
              (worldOf [activeDriver [manilaDriverFinalizer]])) :=
  ⟨((Reconcile_finalizer_added refusingReconciler (requestFor "cluster")
      (activeDriver ["kept"]) (worldOf [activeDriver ["kept"]]) [activeDriver ["kept"]]
      rfl (by decide) rfl rfl rfl).1 (by decide)).2.1 (Error.other "refused") rfl,
   ((Reconcile_finalizer_added memReconciler (requestFor "cluster")
      (activeDriver [manilaDriverFinalizer])
      (worldOf [activeDriver [manilaDriverFinalizer]]) [activeDriver [manilaDriverFinalizer]]
      rfl (by decide) rfl rfl rfl).2.1 (by decide)).1⟩

end Maniladriver
